import Mathlib

/-!
Minsky: REST dispatch registry and CSV ingestion.

A shallow embedding of `RESTService/RESTProcess_base.h` and `engine/CSVParser.cc`.

Conventions of the embedding

* `std::string` paths (queries, registry keys, remainders) are `List Char`; messages and
  type names are `String`.
* A C++ function that mutates an object through a reference and may throw returns a pair
  `(outcome, object after the call)`: an exception does not roll the object back.
* `std::map` is an association list searched from the front; only `find`, `count`,
  `emplace` and `operator[]` are used by the code.
* What classdesc supplies per destination type (`typeName<T>()`, `operator<<`, `operator>>`,
  `is_convertible`, the default constructor) is collected in the record `Dest`.
-/

set_option autoImplicit false

namespace Minsky

/-! ## JSON values -/

/-- The type json_spirit::mValue wrapped by `json_pack_t`: a tagged union. -/
inductive Json where
  | null
  | bool (b : Bool)
  | int (n : Int)
  | real (x : Rat)
  | str (s : String)
  | arr (a : List Json)
  | obj (o : List (String × Json))

/-- What `typeName<X>()` returns for the four native scalar source types of a JSON value
(`std::string`, `bool`, `int`, `double`); `typeName` is declared outside the sources. -/
structure TypeNames where
  string : String
  bool : String
  int : String
  double : String

/-- Everything classdesc supplies for a destination type `T`:
`typeName<T>()`, the default constructor, `json_pack_t::operator<<` (`pack`),
`operator>>` (`unpack`, which may throw), `is_convertible<X,T>` together with the
assignment `y=x` for the four scalar sources (`none` when not convertible), the result of
`signature()` and the result of `r<<typeName<T>()`. -/
structure Dest (T : Type) where
  typeName : String
  dflt : T
  pack : T → Json
  unpack : Json → T → Except String T
  ofString : Option (String → T)
  ofBool : Option (Bool → T)
  ofInt : Option (Int → T)
  ofReal : Option (Rat → T)
  signature : Json
  packTypeName : Json

/-- The two enable_if overloads `convert(Y& y, const X& x)`: `y=x` when `X` is convertible
to `Y`, otherwise a `std::runtime_error` with the message built from the two type names. -/
def convert {X Y : Type} (nameX nameY : String) (conv : Option (X → Y)) (y : Y) (x : X) :
    Except String Unit × Y :=
  match conv with
  | some f => (.ok (), f x)
  | none => (.error (nameX ++ " connot be converted to " ++ nameY), y)

/-- The statement `j >> x`. -/
def unpackInto {T : Type} (D : Dest T) (j : Json) (x : T) : Except String Unit × T :=
  match D.unpack j x with
  | .ok v => (.ok (), v)
  | .error e => (.error e, x)

/-- The overload `convert(X& x, const json_pack_t& j)` for a destination that is not a
sequence: a switch on `j.type()`. -/
def convertJson {T : Type} (N : TypeNames) (D : Dest T) (x : T) (j : Json) :
    Except String Unit × T :=
  match j with
  | .obj _ => unpackInto D j x
  | .arr a =>
    match a with
    | [] => (.ok (), x)
    | a0 :: _ => unpackInto D a0 x
  | .str s => convert N.string D.typeName D.ofString x s
  | .bool b => convert N.bool D.typeName D.ofBool x b
  | .int n => convert N.int D.typeName D.ofInt x n
  | .real r => convert N.double D.typeName D.ofReal x r
  | .null => (.ok (), x)

/-- Element-wise part of the sequence overload: `for (auto& ai: arr) ai >> *xi++`,
stopping at the first element whose decode throws. -/
def unpackElems {T : Type} (D : Dest T) : List Json → List T → Except String Unit × List T
  | [], xs => (.ok (), xs)
  | _ :: _, [] => (.ok (), [])
  | a :: as, x :: xs =>
    match D.unpack a x with
    | .error e => (.error e, x :: xs)
    | .ok v =>
      match unpackElems D as xs with
      | (r, xs') => (r, v :: xs')

/-- The call `x.resize(n)` on a sequence: truncate, or pad with default-constructed
elements. -/
def resize {T : Type} (D : Dest T) (x : List T) (n : Nat) : List T :=
  x.take n ++ List.replicate (n - x.length) D.dflt

/-- The overload `convert(X& x, const json_pack_t& j)` for a sequence destination. -/
def convertSeq {T : Type} (D : Dest T) (x : List T) (j : Json) :
    Except String Unit × List T :=
  match j with
  | .arr a => unpackElems D a (resize D x a.length)
  | _ => (.ok (), x)

/-! ## Handlers -/

/-- The interface `RESTProcessBase`, over the state `W` the handler refers to. -/
structure RESTProcessBase (W : Type) where
  process : List Char → Json → W → Except String Json × W
  signature : W → Json

/-- The handler `RESTProcessObject<T>`: the state is the wrapped object. -/
def RESTProcessObject {T : Type} (N : TypeNames) (D : Dest T) : RESTProcessBase T where
  process := fun remainder arguments obj =>
    if remainder = "@type".toList then (.ok D.packTypeName, obj)
    else if remainder = "@signature".toList then (.ok D.signature, obj)
    else
      match convertJson N D obj arguments with
      | (.ok _, obj1) => (.ok (D.pack obj1), obj1)
      | (.error e, obj1) => (.error e, obj1)
  signature := fun _ => D.signature

/-! ## The registry -/

/-- The registry `RESTProcess_t`, a `std::map<std::string, std::unique_ptr<RESTProcessBase>>`. -/
abbrev RESTProcess_t (W : Type) := List (List Char × RESTProcessBase W)

/-- The member `std::map::find`: `none` stands for `end()`. -/
def RESTProcess_t.find {W : Type} : RESTProcess_t W → List Char → Option (RESTProcessBase W)
  | [], _ => none
  | (k, h) :: rest, key => if k = key then some h else RESTProcess_t.find rest key

/-- The member `std::map::emplace`: inserts only when the key is absent. -/
def RESTProcess_t.emplace {W : Type} (reg : RESTProcess_t W) (key : List Char)
    (rp : RESTProcessBase W) : RESTProcess_t W :=
  match reg.find key with
  | some _ => reg
  | none => reg ++ [(key, rp)]

/-- The member `RESTProcess_t::add`: `std::replace(d.begin(),d.end(),'.','/')`, then
`emplace(d, rp)`. -/
def RESTProcess_t.add {W : Type} (reg : RESTProcess_t W) (d : List Char)
    (rp : RESTProcessBase W) : RESTProcess_t W :=
  reg.emplace (d.map (fun c => if c = '.' then '/' else c)) rp

/-- One item written to the output stream, each followed by `std::endl`. -/
inductive Output where
  | json (j : Json)
  | text (s : String)

/-- The constant `std::string::npos` for a 64-bit `size_t`. -/
def npos : Nat := 2 ^ 64 - 1

/-- The member `std::string::rfind(c)`: index of the last occurrence, `none` for npos. -/
def rfind (c : Char) : List Char → Option Nat
  | [] => none
  | x :: xs =>
    match rfind c xs with
    | some k => some (k + 1)
    | none => if x = c then some 0 else none

/-- The text the router writes when the loop ends with an empty `cmd`. -/
def commandNotFound : Output := .text "Command not found"

/-- The statement after the loop of `RESTProcess_t::process`:
`if (cmd.empty()) output << "Command not found"<<std::endl;`. -/
def afterLoop (cmd : List Char) : List Output :=
  if cmd.isEmpty then [commandNotFound] else []

/-- The body executed when `find(cmd)` succeeds, up to the end of the function: the
handler is given `tail=query.substr(cmdEnd)`, or asked for its signature, the reply is
written, the loop is left and the final test on `cmd` is made. -/
def dispatch {W : Type} (r : RESTProcessBase W) (query cmd : List Char) (cmdEnd : Nat)
    (jin : Json) (w : W) : Except String (List Output) × W :=
  let tail := query.drop cmdEnd
  let res := if tail = "/@signature".toList then (Except.ok (r.signature w), w)
             else r.process tail jin w
  match res with
  | (.ok j, w1) => (.ok (Output.json j :: afterLoop cmd), w1)
  | (.error e, w1) => (.error e, w1)

/-- The for loop of `RESTProcess_t::process` with the statement that follows it.
`fuel` bounds the number of iterations; `none` means the bound was reached. -/
def processLoop {W : Type} (reg : RESTProcess_t W) (query : List Char) (jin : Json) (w : W) :
    Nat → List Char → Nat → Option (Except String (List Output) × W)
  | 0, _, _ => none
  | fuel + 1, cmd, cmdEnd =>
    if 0 < cmdEnd then
      match reg.find cmd with
      | some r => some (dispatch r query cmd cmdEnd jin w)
      | none =>
        let cmdEnd1 := (rfind '/' cmd).getD npos
        processLoop reg query jin w fuel (cmd.take cmdEnd1) cmdEnd1
    else some (.ok (afterLoop cmd), w)

/-- The member `RESTProcess_t::process(query, input, output)`. `jin` is the JSON value the
function reads from `input` once a handler is found (null for an empty line); the result is
what was written to `output` (or the exception that escaped) and the state afterwards. -/
def RESTProcess_t.process {W : Type} (reg : RESTProcess_t W) (query : List Char) (jin : Json)
    (w : W) : Option (Except String (List Output) × W) :=
  if query.head? ≠ some '/' then some (.ok [], w)
  else processLoop reg query jin w (query.length + 1) query query.length

/-! ## Sequences -/

/-- The function `startsWith(x, pre)`:
`x.size()>=pre.size() && equal(pre.begin(), pre.end(), x.begin())`. -/
def startsWith (x pre : List Char) : Bool :=
  decide (pre.length ≤ x.length) && decide (x.take pre.length = pre)

/-- The member `std::string::find(c)`: index of the first occurrence, `none` for npos. -/
def sfind (c : Char) : List Char → Option Nat
  | [] => none
  | x :: xs => if x = c then some 0 else (sfind c xs).map (fun k => k + 1)

/-- The C function `isspace` in the C locale. -/
def isspace (c : Char) : Bool :=
  c = ' ' || c = '\t' || c = '\n' || c = '\x0b' || c = '\x0c' || c = '\r'

/-- Value of a run of decimal digits. -/
def digitsValue (ds : List Char) : Nat :=
  ds.foldl (fun acc c => acc * 10 + (c.toNat - 48)) 0

/-- The library function `std::stoi(s)` (base 10): leading white space is skipped, an
optional sign is read, then the longest run of digits; what follows is ignored. Without a
digit it throws `std::invalid_argument`, outside the range of `int` `std::out_of_range`;
both carry the text "stoi". -/
def stoi (s : List Char) : Except String Int :=
  let s1 := s.dropWhile isspace
  let signed : Bool × List Char :=
    match s1 with
    | '-' :: r => (true, r)
    | '+' :: r => (false, r)
    | _ => (false, s1)
  let ds := signed.2.takeWhile Char.isDigit
  if ds.isEmpty then .error "stoi"
  else
    let v : Int := if signed.1 then - (digitsValue ds : Int) else (digitsValue ds : Int)
    if v < -(2 ^ 31) ∨ 2 ^ 31 - 1 < v then .error "stoi" else .ok v

/-- Conversion of an `int` to the 64-bit `size_t` in `size_t k=stoi(...)`. -/
def toSizeT (v : Int) : Nat := (v % (2 ^ 64 : Int)).toNat

/-- The overload of the descriptor `RESTProcess(repo, d, a)` for a fundamental type:
`repo.add(d, new RESTProcessObject<T>(a))`. -/
def RESTProcess {T : Type} (N : TypeNames) (D : Dest T) (repo : RESTProcess_t T)
    (d : List Char) : RESTProcess_t T :=
  repo.add d (RESTProcessObject N D)

/-- What classdesc supplies for a sequence of `T`: the element descriptor, `r<<obj` for the
whole sequence (`pack`), `r<<j` for a JSON value `j` (`packJson`) and the signature. -/
structure SeqDest (T : Type) where
  elem : Dest T
  pack : List T → Json
  packJson : Json → Json
  signature : Json

/-- The branch of `RESTProcessSequence::process` taken when `k<obj.size()`: the element is
registered alone in a fresh registry under the empty path, and the rest of the remainder is
looked up in it. -/
def processElem {T : Type} (N : TypeNames) (S : SeqDest T) (sub : List Char) (arguments : Json)
    (obj : List T) (k : Nat) (elem : T) : Except String Json × List T :=
  let map := RESTProcess N S.elem ([] : RESTProcess_t T) []
  match map.find sub with
  | some i =>
    match i.process [] arguments elem with
    | (.ok j, elem1) => (.ok (S.packJson j), obj.set k elem1)
    | (.error e, elem1) => (.error e, obj.set k elem1)
  | none => (.ok .null, obj)

/-- The handler `RESTProcessSequence<T>` for a sequence of fundamental elements; the result
`r` starts as JSON null. -/
def RESTProcessSequence {T : Type} (N : TypeNames) (S : SeqDest T) :
    RESTProcessBase (List T) where
  process := fun remainder arguments obj =>
    if remainder.isEmpty then
      match convertSeq S.elem obj arguments with
      | (.ok _, obj1) => (.ok .null, obj1)
      | (.error e, obj1) => (.error e, obj1)
    else if startsWith remainder "@elem/".toList then
      let r1 := remainder.drop 6
      match sfind '/' r1 with
      | none => (.ok .null, obj)
      | some n =>
        match stoi (r1.take n) with
        | .error e => (.error e, obj)
        | .ok v =>
          let k := toSizeT v
          match obj.get? k with
          | some elem => processElem N S (r1.drop (n + 1)) arguments obj k elem
          | none => (.ok .null, obj)
    else (.ok (S.pack obj), obj)
  signature := fun _ => S.signature

/-- The overload of the descriptor `RESTProcess(repo, d, a)` for a sequence:
`repo.add(d, new RESTProcessSequence<T>(a))`. -/
def RESTProcessSeq {T : Type} (N : TypeNames) (S : SeqDest T) (repo : RESTProcess_t (List T))
    (d : List Char) : RESTProcess_t (List T) :=
  repo.add d (RESTProcessSequence N S)

/-! ## Function argument packing -/

/-- The class `JSONBuffer`: the vector `values` and the position of the iterator `it`. -/
structure JSONBuffer where
  values : List Json
  it : Nat

/-- The constructor `JSONBuffer(const json_pack_t& j)`. -/
def JSONBuffer.ofJson (j : Json) : JSONBuffer :=
  match j with
  | .arr a => { values := a, it := 0 }
  | _ => { values := [j], it := 0 }

/-- The member `JSONBuffer::operator>>(T& x)`: `if (it!=values.end()) (*it++) >> x`. -/
def JSONBuffer.extract {V : Type} (b : JSONBuffer) (D : Dest V) (x : V) :
    Except String V × JSONBuffer :=
  match b.values.get? b.it with
  | some j => (D.unpack j x, { b with it := b.it + 1 })
  | none => (.ok x, b)

/-- The member `JSONBuffer::operator>>(const T& x)`: `++it`. -/
def JSONBuffer.skip (b : JSONBuffer) : JSONBuffer :=
  { b with it := b.it + 1 }

/-- Modelled from the spec: `functional::PackFunctor<JSONBuffer>::call` (declared in
classdesc's function.h, not part of the sources) default-constructs one argument per
parameter and fills them from the buffer with `operator>>`, first parameter first. Every
parameter is described by its `Dest`; the list returned is the argument list handed to the
callable. -/
def packArgs {V : Type} : List (Dest V) → JSONBuffer → Except String (List V)
  | [], _ => .ok []
  | D :: Ds, b =>
    match b.extract D D.dflt with
    | (.error e, _) => .error e
    | (.ok v, b1) =>
      match packArgs Ds b1 with
      | .error e => .error e
      | .ok vs => .ok (v :: vs)

/-- The handler `RESTProcessFunction<F,R>` for a callable `f` that returns a value:
`argBuf(arguments)`, then `r<<argBuf.call(f)`. -/
def RESTProcessFunction {W V R : Type} (params : List (Dest V)) (f : List V → R)
    (packR : R → Json) (sig : Json) : RESTProcessBase W where
  process := fun _ arguments w =>
    match packArgs params (JSONBuffer.ofJson arguments) with
    | .ok args => (.ok (packR (f args)), w)
    | .error e => (.error e, w)
  signature := fun _ => sig

/-- Positional description of the argument list: parameter `i` is the decode of element `i`
of `vals` when there is one, and its default-constructed value otherwise. -/
def positionalArgs {V : Type} : List (Dest V) → List Json → Except String (List V)
  | [], _ => .ok []
  | D :: Ds, [] =>
    match positionalArgs Ds [] with
    | .error e => .error e
    | .ok vs => .ok (D.dflt :: vs)
  | D :: Ds, a :: as =>
    match D.unpack a D.dflt with
    | .error e => .error e
    | .ok v =>
      match positionalArgs Ds as with
      | .error e => .error e
      | .ok vs => .ok (v :: vs)

/-! ## Concrete descriptors -/

/-- Modelled from the spec: the names `typeName<X>()` gives to the scalar source types. -/
def cppTypeNames : TypeNames :=
  { string := "std::string", bool := "bool", int := "int", double := "double" }

/-- Modelled from the spec: the descriptor of C++ `int`. A reply carries the value wrapped in
an array of length 1 (the spec writes the reply for the value 7 as `[7]`); decoding a JSON
integer gives that integer, and the spec fixes no other decode; `bool`, `int` and `double`
convert to `int` (a `double` by truncation) and `std::string` does not. -/
def intDest : Dest Int :=
  { typeName := "int"
    dflt := 0
    pack := fun v => .arr [.int v]
    unpack := fun j _ =>
      match j with
      | .int n => .ok n
      | _ => .error "json_pack_error"
    ofString := none
    ofBool := some (fun b => if b then 1 else 0)
    ofInt := some (fun n => n)
    ofReal := some (fun x => Int.tdiv x.num x.den)
    signature := .arr []
    packTypeName := .arr [.str "int"] }

/-- Modelled from the spec: the descriptor of a sequence of `int`; the whole sequence is
packed like a scalar, as an array of length 1 holding the encoded sequence, and a JSON value
is packed as itself. -/
def intSeqDest : SeqDest Int :=
  { elem := intDest
    pack := fun s => .arr [.arr (s.map Json.int)]
    packJson := fun j => j
    signature := .arr [] }

/-! ## CSV loader -/

/-- Lookup in a `std::map` held as an association list. -/
def mapFind? {κ β : Type} [DecidableEq κ] : List (κ × β) → κ → Option β
  | [], _ => none
  | (k, v) :: rest, key => if k = key then some v else mapFind? rest key

/-- The member `std::map::count`. -/
def mapCount {κ β : Type} [DecidableEq κ] (m : List (κ × β)) (key : κ) : Bool :=
  (mapFind? m key).isSome

/-- The assignment `m[key]=v`: the entry is overwritten, or inserted at its place in key
order. -/
def mapAssign {κ β : Type} [DecidableEq κ] [LT κ] [DecidableRel (fun a b : κ => a < b)] :
    List (κ × β) → κ → β → List (κ × β)
  | [], key, v => [(key, v)]
  | (k, w) :: rest, key, v =>
    if k = key then (key, v) :: rest
    else if key < k then (key, v) :: (k, w) :: rest
    else (k, w) :: mapAssign rest key v

/-- The member `std::map::emplace(key, v)`: the new map and the flag `.second`, true when
the entry was inserted. -/
def mapEmplace {κ β : Type} [DecidableEq κ] [LT κ] [DecidableRel (fun a b : κ => a < b)]
    (m : List (κ × β)) (key : κ) (v : β) : List (κ × β) × Bool :=
  if mapCount m key then (m, false) else (mapAssign m key v, true)

/-- Kind of a dimension (`Dimension::Type`). -/
inductive DimensionType where
  | string
  | time
  | value

/-- The class `Dimension`: kind and units/format text. -/
structure Dimension where
  type : DimensionType
  units : List Char

/-- The class `DataSpec`; `R` stands for `double`, and the set `dimensionCols` is the list of
its members. -/
structure DataSpec (R : Type) where
  separator : Char
  quote : Char
  escape : Char
  nRowAxes : Nat
  nColAxes : Nat
  headerRow : Nat
  columnar : Bool
  dimensionCols : List Nat
  dimensionNames : List (List Char)
  dimensions : List Dimension
  horizontalDimName : List Char
  missingValue : R

/-- The class `XVector`: a named, ordered sequence of labels. -/
structure XVector where
  name : List Char
  labels : List (List Char)

/-- The field `tensorInit` of a `VariableValue`. -/
structure TensorVal (R : Type) where
  dims : List Nat
  data : List R

/-- Modelled from the spec: the class `VariableValue` is declared outside the sources; the
loader uses its XVectors and its field `tensorInit`. -/
structure VariableValue (R : Type) where
  xVector : List XVector
  tensorInit : TensorVal R

/-- Modelled from the spec: `VariableValue::setXVector` stores the XVectors. -/
def VariableValue.setXVector {R : Type} (v : VariableValue R) (x : List XVector) :
    VariableValue R :=
  { v with xVector := x }

/-- Modelled from the spec: `VariableValue::dims`, with `dims[d] = |XVector[d]|`. -/
def VariableValue.dims {R : Type} (v : VariableValue R) : List Nat :=
  v.xVector.map (fun x => x.labels.length)

/-- Modelled from the spec: `VariableValue::numElements`, the product of the dims. -/
def VariableValue.numElements {R : Type} (v : VariableValue R) : Nat :=
  v.dims.prod

/-- How a load can end other than normally: the two exceptions of the loader, and an index
outside a vector, whose behaviour C++ leaves undefined. -/
inductive LoadError where
  | noDataColumns
  | duplicateKey
  | outOfRange

/-- The member `what()` of the exception classes `NoDataColumns` and `DuplicateKey`. -/
def LoadError.what : LoadError → String
  | .noDataColumns => "No data columns"
  | .duplicateKey => "Duplicate key"
  | .outOfRange => "undefined behaviour: index out of range"

/-- The type `Key` of the loader. -/
abbrev Key := List (List Char)

/-- The local variables of `loadValueFromCSVFile` that live across rows. -/
structure LoadState (R : Type) where
  tmpData : List (Key × R)
  dimLabels : List (List (List Char × Nat))
  tabularFormat : Bool
  xVector : List XVector
  horizontalLabels : List (List Char)

/-- Decimal text of a number, the call `str(i)`. -/
def str (i : Nat) : List Char := Nat.toDigits 10 i

/-- The first loop of the loader: one XVector per dimension column below `nColAxes`, named
from `dimensionNames` or "dim" followed by the column number. -/
def initXVector {R : Type} (spec : DataSpec R) : List XVector :=
  ((List.range spec.nColAxes).filter (fun i => decide (i ∈ spec.dimensionCols))).map
    (fun i => { name := (spec.dimensionNames.get? i).getD ("dim".toList ++ str i), labels := [] })

/-- The state before the first row is read. -/
def initState {R : Type} (spec : DataSpec R) : LoadState R :=
  { tmpData := []
    dimLabels := List.replicate spec.dimensionCols.length []
    tabularFormat := false
    xVector := initXVector spec
    horizontalLabels := [] }

/-- The loop `for (i...) dimLabels.back()[horizontalLabels[i]]=i`, started at index `i`. -/
def labelIndex : Nat → List (List Char) → List (List Char × Nat) → List (List Char × Nat)
  | _, [], m => m
  | i, h :: hs, m => labelIndex (i + 1) hs (mapAssign m h i)

/-- The header branch of the row loop, for the tokens `parsedRow` of the header row. -/
def processHeader {R : Type} (spec : DataSpec R) (parsedRow : List (List Char))
    (st : LoadState R) : LoadState R :=
  if spec.nColAxes + 1 < parsedRow.length then
    let hl := parsedRow.drop spec.nColAxes
    { st with
      tabularFormat := true
      horizontalLabels := hl
      xVector := st.xVector ++ [{ name := spec.horizontalDimName, labels := hl }]
      dimLabels := st.dimLabels ++ [labelIndex 0 hl []] }
  else st

/-- Apply `f` to element `n` of a list (`xs[n]` used as an lvalue, `n` in range). -/
def modifyAt {α : Type} (f : α → α) : Nat → List α → List α
  | _, [] => []
  | 0, x :: xs => f x :: xs
  | n + 1, x :: xs => x :: modifyAt f n xs

/-- The loop over the axis columns of a data row, from column `i` with `dim` dimension
columns done and `fields` still unread. It returns the key, the unread fields and the state. -/
def axisLoop {R : Type} (spec : DataSpec R) :
    Nat → Nat → List (List Char) → Key → LoadState R →
      Except LoadError (Key × List (List Char) × LoadState R)
  | _, _, [], key, st => .ok (key, [], st)
  | i, dim, f :: fs, key, st =>
    if i < spec.nColAxes then
      if i ∈ spec.dimensionCols then
        let xv := if st.xVector.length ≤ dim then st.xVector ++ [{ name := "?".toList, labels := [] }]
                  else st.xVector
        match st.dimLabels.get? dim with
        | none => .error .outOfRange
        | some m =>
          let e := mapEmplace m f m.length
          let xv1 := if e.2 then modifyAt (fun x => { x with labels := x.labels ++ [f] }) dim xv
                     else xv
          axisLoop spec (i + 1) (dim + 1) fs (key ++ [f])
            { st with xVector := xv1, dimLabels := st.dimLabels.set dim e.1 }
      else axisLoop spec (i + 1) dim fs key st
    else .ok (key, f :: fs, st)

/-- The key under which the cell in data column `col` is stored: in tabular format the
axis key extended by `horizontalLabels[col]`. -/
def cellKey {R : Type} (st : LoadState R) (key : Key) (col : Nat) : Option Key :=
  if st.tabularFormat then (st.horizontalLabels.get? col).map (fun h => key ++ [h])
  else some key

/-- The loop over the data cells of a row, from data column `col`. `stod` is the library
function of that name, `none` when it throws. -/
def cellLoop {R : Type} (spec : DataSpec R) (stod : List Char → Option R) :
    Nat → List (List Char) → Key → LoadState R → Except LoadError (LoadState R)
  | _, [], _, st => .ok st
  | col, f :: fs, key, st =>
    match cellKey st key col with
    | none => .error .outOfRange
    | some key1 =>
      if mapCount st.tmpData key1 then .error .duplicateKey
      else
        cellLoop spec stod (col + 1) fs key
          { st with tmpData := mapAssign st.tmpData key1 ((stod f).getD spec.missingValue) }

/-- The data branch of the row loop, for the tokens of one row. -/
def dataRow {R : Type} (spec : DataSpec R) (stod : List Char → Option R)
    (tok : List (List Char)) (st : LoadState R) : Except LoadError (LoadState R) :=
  match axisLoop spec 0 0 tok [] st with
  | .error e => .error e
  | .ok (key, field, st1) =>
    if field.isEmpty then .error .noDataColumns
    else cellLoop spec stod 0 field key st1

/-- The row loop of the loader from row number `row`; each line is given as its tokens. -/
def rowLoop {R : Type} (spec : DataSpec R) (stod : List Char → Option R) :
    Nat → List (List (List Char)) → LoadState R → Except LoadError (LoadState R)
  | _, [], st => .ok st
  | row, tok :: rest, st =>
    if row = spec.headerRow ∧ spec.columnar = false then
      rowLoop spec stod (row + 1) rest (processHeader spec tok st)
    else if spec.nRowAxes ≤ row then
      match dataRow spec stod tok st with
      | .error e => .error e
      | .ok st1 => rowLoop spec stod (row + 1) rest st1
    else rowLoop spec stod (row + 1) rest st

/-- The inner loop `for (int j=dims.size()-1; j>=0; --j) idx = (idx*dims[j]) + ...`, given
the dims, label maps and key entries for `j` downwards, last dimension first. -/
def hornerFold : List (Nat × List (List Char × Nat) × List Char) → Nat → Nat
  | [], idx => idx
  | (d, m, l) :: rest, idx => hornerFold rest (idx * d + (mapFind? m l).getD 0)

/-- Index of a key in the dense array; an entry of `dimLabels` or of the key that does not
exist for some `j<dims.size()` is an index out of range. -/
def keyIndex (dims : List Nat) (dimLabels : List (List (List Char × Nat))) (key : Key) :
    Except LoadError Nat :=
  if dims.length ≤ dimLabels.length ∧ dims.length ≤ key.length then
    .ok (hornerFold (List.zip dims (List.zip dimLabels key)).reverse 0)
  else .error .outOfRange

/-- The loop `for (auto& i: tmpData)` that writes each value at the index of its key. -/
def writeAll {R : Type} (dims : List Nat) (dimLabels : List (List (List Char × Nat))) :
    List (Key × R) → List R → Except LoadError Unit × List R
  | [], data => (.ok (), data)
  | (key, val) :: rest, data =>
    match keyIndex dims dimLabels key with
    | .error e => (.error e, data)
    | .ok idx =>
      if idx < data.length then writeAll dims dimLabels rest (data.set idx val)
      else (.error .outOfRange, data)

/-- The function `loadValueFromCSVFile(v, input, spec)`. `input` holds the lines of the
stream, each as the list of tokens the tokenizer yields for it. The result is how the call
ended and the destination `v` afterwards. -/
def loadValueFromCSVFile {R : Type} (stod : List Char → Option R) (v : VariableValue R)
    (input : List (List (List Char))) (spec : DataSpec R) :
    Except LoadError Unit × VariableValue R :=
  match rowLoop spec stod 0 input (initState spec) with
  | .error e => (.error e, v)
  | .ok st =>
    let v1 := v.setXVector st.xVector
    let dims := v1.dims
    let w := writeAll dims st.dimLabels st.tmpData
      (List.replicate v1.numElements spec.missingValue)
    (w.1, { v1 with tensorInit := { dims := dims, data := w.2 } })

/-! ## Text streams and tokenizers -/

/-- An input stream: the characters not yet read, and whether the stream is still good
(neither eofbit nor failbit set). -/
structure IStream where
  rest : List Char
  good : Bool

/-- The characters up to the first newline, and what follows that newline (`none` when
there is no newline). -/
def breakLine : List Char → List Char × Option (List Char)
  | [] => ([], none)
  | c :: rest =>
    if c = '\n' then ([], some rest)
    else ((breakLine rest).1.cons c, (breakLine rest).2)

/-- The library function `std::getline(input, buf)` used as a statement: on a stream that is
not good the sentry fails and `buf` is left alone; otherwise `buf` is erased and filled up to
the next newline, and reaching the end of the stream sets eofbit. The result is the stream
and `buf` afterwards. -/
def getline (input : IStream) (buf : List Char) : IStream × List Char :=
  if input.good then
    match breakLine input.rest with
    | (line, some rest) => ({ rest := rest, good := true }, line)
    | (line, none) => ({ rest := [], good := false }, line)
  else (input, buf)

/-- The loop `for (...) getline(input, buf);` executed `k` times. -/
def getlines : Nat → IStream → List Char → IStream × List Char
  | 0, input, buf => (input, buf)
  | k + 1, input, buf => getlines k (getline input buf).1 (getline input buf).2

/-- The lines for which `getline(input, buf)` returns true, in order, on a stream holding
the given text: a last line without newline counts unless it is empty. `cur` is the part of
the current line already read. -/
def linesFrom : List Char → List Char → List (List Char)
  | cur, [] => if cur.isEmpty then [] else [cur]
  | cur, c :: rest =>
    if c = '\n' then cur :: linesFrom [] rest else linesFrom (cur ++ [c]) rest

/-- The lines of a text, as the loops `for (...; getline(input, buf) ...; ...)` see them. -/
def lines (text : List Char) : List (List Char) :=
  linesFrom [] text

/-- A tokenizer function applied to one line: the tokens, or the exception it throws. -/
abbrev TokenizerFunction := List Char → Except String (List (List Char))

/-- The boost class `escaped_list_separator<char>(e, c, q)` run over the rest of a line:
`inQuote` and `tok` are the quote state and the token under construction. After a separator
outside quotes a further token always follows, empty when the line ends there. -/
def escapedListFrom (e c q : Char) :
    Bool → List Char → List Char → Except String (List (List Char))
  | _, tok, [] => .ok [tok]
  | inQuote, tok, x :: xs =>
    if x = e then
      match xs with
      | [] => .error "cannot end with escape"
      | y :: ys =>
        if y = 'n' then escapedListFrom e c q inQuote (tok ++ ['\n']) ys
        else if y = q ∨ y = c ∨ y = e then escapedListFrom e c q inQuote (tok ++ [y]) ys
        else .error "unknown escape sequence"
    else if x = c then
      if inQuote then escapedListFrom e c q inQuote (tok ++ [x]) xs
      else
        match escapedListFrom e c q false [] xs with
        | .ok ts => .ok (tok :: ts)
        | .error err => .error err
    else if x = q then escapedListFrom e c q (!inQuote) tok xs
    else escapedListFrom e c q inQuote (tok ++ [x]) xs

/-- The tokens `boost::tokenizer<escaped_list_separator<char>>` yields for a line: none for
an empty line. -/
def escapedList (e c q : Char) : TokenizerFunction :=
  fun s => if s.isEmpty then .ok [] else escapedListFrom e c q false [] s

/-- The C function `ispunct` in the C locale. -/
def ispunct (c : Char) : Bool :=
  (33 ≤ c.toNat && c.toNat ≤ 47) || (58 ≤ c.toNat && c.toNat ≤ 64) ||
    (91 ≤ c.toNat && c.toNat ≤ 96) || (123 ≤ c.toNat && c.toNat ≤ 126)

/-- The token under construction, if any characters were put into it. -/
def flushToken (cur : List Char) : List (List Char) :=
  if cur.isEmpty then [] else [cur]

/-- The default-constructed boost class `char_separator<char>` run over the rest of a line:
white space is dropped, a punctuation character is a token of its own, empty tokens are
dropped. -/
def charSeparatorFrom : List Char → List Char → List (List Char)
  | cur, [] => flushToken cur
  | cur, x :: xs =>
    if isspace x then flushToken cur ++ charSeparatorFrom [] xs
    else if ispunct x then flushToken cur ++ [x] :: charSeparatorFrom [] xs
    else charSeparatorFrom (cur ++ [x]) xs

/-- The tokens `boost::tokenizer<char_separator<char>>` yields for a line; it never throws. -/
def charSeparator : TokenizerFunction :=
  fun s => .ok (charSeparatorFrom [] s)

/-- Tokenise the lines in order, stopping at the first exception. -/
def tokenizeAll (tf : TokenizerFunction) : List (List Char) → Except String (List (List (List Char)))
  | [] => .ok []
  | l :: ls =>
    match tf l with
    | .error e => .error e
    | .ok t =>
      match tokenizeAll tf ls with
      | .error e => .error e
      | .ok ts => .ok (t :: ts)

/-! ## CSV geometry guess -/

/-- The constant `maxRowsToAnalyse`. -/
def maxRowsToAnalyse : Nat := 100

/-- The loop of `firstNumerical` from index `i` with current result `r`; `stod` is `none`
where the library function throws. -/
def firstNumericalFrom {R : Type} (stod : List Char → Option R) :
    Nat → Nat → List (List Char) → Nat
  | _, r, [] => r
  | i, r, x :: xs =>
    if x.isEmpty = false ∧ (stod x).isNone = true then firstNumericalFrom stod (i + 1) (i + 1) xs
    else firstNumericalFrom stod (i + 1) r xs

/-- The function `firstNumerical(v)`. -/
def firstNumerical {R : Type} (stod : List Char → Option R) (v : List (List Char)) : Nat :=
  firstNumericalFrom stod 0 0 v

/-- The function `emptyTail(v, start)`. -/
def emptyTail (v : List (List Char)) (start : Nat) : Bool :=
  (v.drop start).all (fun x => x.isEmpty)

/-- The locals `starts`, `nCols` and `firstEmpty` of `givenTFguessRemainder`. -/
structure Scan where
  starts : List Nat
  nCols : Nat
  firstEmpty : Nat

/-- The body of the first loop of `givenTFguessRemainder` for the tokens of one line. -/
def scanLine {R : Type} (stod : List Char → Option R) (sc : Scan) (line : List (List Char)) :
    Scan :=
  let starts := sc.starts ++ [firstNumerical stod line]
  let nCols := max sc.nCols line.length
  { starts := starts
    nCols := nCols
    firstEmpty :=
      if starts.length - 1 < sc.firstEmpty ∧ firstNumerical stod line < nCols ∧
          emptyTail line (firstNumerical stod line) = true then starts.length - 1
      else sc.firstEmpty }

/-- The loop `for (m_nRowAxes=0; ...; ++m_nRowAxes)` over the entries of `starts` not yet
visited: the number of leading entries that exceed the average or equal 1. The average is
`sum/n` with `n = starts.size()`; `starts[i]>av` is decided as `sum < starts[i]*n`, which
is what the comparison in `double` gives for the at most 100 small integers involved. -/
def leadingAxisRows (sum n : Nat) : List Nat → Nat
  | [] => 0
  | s :: rest => if sum < s * n ∨ s = 1 then leadingAxisRows sum n rest + 1 else 0

/-- The values of `m_nRowAxes`, `m_nColAxes` and `headerRow` that `givenTFguessRemainder`
computes after its first loop. The difference `nCols-m_nColAxes` is taken in `size_t`. -/
def guessGeometry (sc : Scan) : Nat × Nat × Nat :=
  let r0 := leadingAxisRows sc.starts.sum sc.starts.length sc.starts
  let c := (sc.starts.drop r0).foldl max 0
  let r1 := if r0 = 0 ∧ 1 < (sc.nCols + 2 ^ 64 - c) % 2 ^ 64 then 1 else r0
  let r2 := if sc.firstEmpty = r1 then r1 + 1 else r1
  (r2, c, if 0 < r2 then r2 - 1 else 0)

/-- The member `DataSpec::givenTFguessRemainder(input, tf)`; `input` is the text held by
the stream. The result is how the call ended and the DataSpec afterwards. -/
def givenTFguessRemainder {R : Type} (stod : List Char → Option R) (tf : TokenizerFunction)
    (input : List Char) (spec : DataSpec R) : Except String Unit × DataSpec R :=
  match tokenizeAll tf ((lines input).take maxRowsToAnalyse) with
  | .error e => (.error e, { spec with dimensionCols := [] })
  | .ok rows =>
    let g := guessGeometry
      (rows.foldl (scanLine stod) { starts := [], nCols := 0, firstEmpty := npos })
    (.ok (),
      { spec with
        nRowAxes := g.1
        nColAxes := g.2.1
        headerRow := g.2.2
        dimensionCols := List.range g.2.1 })

/-- The tokenizer function the DataSpec selects: `char_separator<char>()` for the separator
' ', otherwise `Parser(escape,separator,quote)`. -/
def tokenizerOf {R : Type} (spec : DataSpec R) : TokenizerFunction :=
  if spec.separator = ' ' then charSeparator
  else escapedList spec.escape spec.separator spec.quote

/-- The member `DataSpec::guessRemainder(input, sep)`. -/
def guessRemainder {R : Type} (stod : List Char → Option R) (input : List Char) (sep : Char)
    (spec : DataSpec R) : Except String Unit × DataSpec R :=
  givenTFguessRemainder stod (tokenizerOf { spec with separator := sep }) input
    { spec with separator := sep }

/-- The chain of try blocks in `guessDimensionsFromStream` for one cell; `anyVal dim s` is
true when the library function `anyVal(dim, s)` returns without throwing. -/
def guessDimension (anyVal : Dimension → List Char → Bool) (s : List Char) : Dimension :=
  if anyVal { type := .value, units := [] } s then { type := .value, units := [] }
  else if anyVal { type := .time, units := [] } s then { type := .time, units := [] }
  else if anyVal { type := .time, units := "%Y-Q%Q".toList } s then
    { type := .time, units := "%Y-Q%Q".toList }
  else { type := .string, units := [] }

/-- The member `DataSpec::guessDimensionsFromStream(input)`. The tokenizer `tok` keeps
iterators into `buf`; when the second loop reassigns `buf`, reading `tok` again goes through
iterators that are no longer valid, and `staleBuf old new` stands for the characters found
there. -/
def guessDimensionsFromStream {R : Type} (anyVal : Dimension → List Char → Bool)
    (staleBuf : List Char → List Char → List Char) (input : List Char) (spec : DataSpec R) :
    Except String Unit × DataSpec R :=
  let s1 := getlines (spec.headerRow + 1) { rest := input, good := true } []
  match tokenizerOf spec s1.2 with
  | .error e => (.error e, spec)
  | .ok names =>
    let k := spec.nRowAxes + 1 - (spec.headerRow + 1)
    let s2 := getlines k s1.1 s1.2
    let seen := if 0 < k ∧ s1.1.good = true then staleBuf s1.2 s2.2 else s1.2
    match tokenizerOf spec seen with
    | .error e => (.error e, { spec with dimensionNames := names })
    | .ok data =>
      (.ok (),
        { spec with
          dimensionNames := names
          dimensions := spec.dimensions ++ (data.take spec.nColAxes).map (guessDimension anyVal) })

/-- Number of occurrences of `c` in the lines. -/
def countChar (c : Char) (ls : List (List Char)) : Nat :=
  (ls.map (fun l => l.count c)).sum

/-- The text collected in `streamBuf`: every line followed by `endl`. -/
def streamBuf : List (List Char) → List Char
  | [] => []
  | l :: ls => l ++ '\n' :: streamBuf ls

/-- The separator chosen by `guessFromStream` from the number of rows scanned and the counts
of commas, semicolons and tabs. The test `numCommas>0.9*row` is decided as
`9*row < 10*numCommas`: for `row <= 100` the product in `double` lies within a rounding
error of `9*row/10`, on the same side of every integer. -/
def chooseSeparator (row numCommas numSemicolons numTabs : Nat) : Char :=
  if 9 * row < 10 * numCommas ∧ numSemicolons < numCommas ∧ numTabs < numCommas then ','
  else if 9 * row < 10 * numSemicolons ∧ numTabs < numSemicolons then ';'
  else if 9 * row < 10 * numTabs then '\t'
  else ' '

/-- The member `DataSpec::guessFromStream(input)`; `input` is the text held by the stream. -/
def guessFromStream {R : Type} (stod : List Char → Option R)
    (anyVal : Dimension → List Char → Bool) (staleBuf : List Char → List Char → List Char)
    (input : List Char) (spec : DataSpec R) : Except String Unit × DataSpec R :=
  let scanned := (lines input).take maxRowsToAnalyse
  let sep := chooseSeparator scanned.length (countChar ',' scanned) (countChar ';' scanned)
    (countChar '\t' scanned)
  match guessRemainder stod (streamBuf scanned) sep spec with
  | (.error e, spec1) => (.error e, spec1)
  | (.ok _, spec1) => guessDimensionsFromStream anyVal staleBuf (streamBuf scanned) spec1

/-- The member `DataSpec::setDataArea(row, col)`; `dflt` is the default-constructed
`Dimension` that `resize` appends. -/
def setDataArea {R : Type} (dflt : Dimension) (spec : DataSpec R) (row col : Nat) : DataSpec R :=
  { spec with
    nRowAxes := row
    nColAxes := col
    headerRow := if row ≤ spec.headerRow then (if 0 < row then row - 1 else 0) else spec.headerRow
    dimensions :=
      if spec.dimensions.length < col then
        spec.dimensions ++ List.replicate (col - spec.dimensions.length) dflt
      else spec.dimensions
    dimensionNames :=
      if spec.dimensionNames.length < col then
        spec.dimensionNames ++ List.replicate (col - spec.dimensionNames.length) []
      else spec.dimensionNames
    dimensionCols := spec.dimensionCols.filter (fun k => decide (k < col)) }

/-! ## Notions used to state the properties -/

/-- The pair `key`, `rem` splits the query at a segment boundary: `key` is the query with
zero or more trailing "/segment" pieces dropped, and `rem` is what was dropped. -/
def Splits (query key rem : List Char) : Prop :=
  query = key ++ rem ∧ (rem = [] ∨ rem.head? = some '/')

/-- What the router writes and leaves behind for a handler result: the reply, or the
exception passed on. -/
def handlerReply {W : Type} (res : Except String Json × W) : Except String (List Output) × W :=
  match res with
  | (.ok j, w1) => (.ok [Output.json j], w1)
  | (.error e, w1) => (.error e, w1)

/-- A handler for an object that is one component of the state: the handlers of a registry
refer to distinct objects of the program. -/
def RESTProcessBase.lift {W T : Type} (get : W → T) (set : W → T → W)
    (h : RESTProcessBase T) : RESTProcessBase W where
  process := fun remainder arguments w =>
    match h.process remainder arguments (get w) with
    | (res, t) => (res, set w t)
  signature := fun w => h.signature (get w)

/-- Handler of the first of two `int` objects. -/
def fstInt : RESTProcessBase (Int × Int) :=
  (RESTProcessObject cppTypeNames intDest).lift Prod.fst (fun w t => (t, w.2))

/-- Handler of the second of two `int` objects. -/
def sndInt : RESTProcessBase (Int × Int) :=
  (RESTProcessObject cppTypeNames intDest).lift Prod.snd (fun w t => (w.1, t))

/-- Whether the row loop treats row number `row` as a data row. -/
def isDataRow {R : Type} (spec : DataSpec R) (row : Nat) : Bool :=
  decide (¬ (row = spec.headerRow ∧ spec.columnar = false) ∧ spec.nRowAxes ≤ row)

/-- The entries of the fields in the dimension columns from column `i` up to `nColAxes`,
`fields` being the fields from column `i` on. -/
def axisTupleFrom {R : Type} (spec : DataSpec R) (i : Nat) (fields : List (List Char)) : Key :=
  (((fields.take (spec.nColAxes - i)).enumFrom i).filter
    (fun p => decide (p.1 ∈ spec.dimensionCols))).map Prod.snd

/-- The axis tuple of a row: its entries in the dimension columns below `nColAxes`. -/
def axisTuple {R : Type} (spec : DataSpec R) (tok : List (List Char)) : Key :=
  axisTupleFrom spec 0 tok

/-- The horizontal labels the header row supplies, if the load is tabular. -/
def headerLabels {R : Type} (spec : DataSpec R) (input : List (List (List Char))) :
    Option (List (List Char)) :=
  if spec.columnar then none
  else
    match input.get? spec.headerRow with
    | none => none
    | some tok => if spec.nColAxes + 1 < tok.length then some (tok.drop spec.nColAxes) else none

/-- Number of members of `l` among the `k` columns from `i` on. -/
def remDims (l : List Nat) : Nat → Nat → Nat
  | _, 0 => 0
  | i, k + 1 => (if i ∈ l then 1 else 0) + remDims l (i + 1) k


/-- A tabular specification with one header row and one axis column. -/
def dupSpec : DataSpec Int :=
  { separator := ','
    quote := '\x22'
    escape := '\x5c'
    nRowAxes := 1
    nColAxes := 1
    headerRow := 0
    columnar := false
    dimensionCols := [0]
    dimensionNames := ["region".toList]
    dimensions := []
    horizontalDimName := "quarter".toList
    missingValue := 0 }

/-- Three tokenised lines whose two data rows carry the same axis label. -/
def dupInput : List (List (List Char)) :=
  [["region".toList, "q1".toList, "q2".toList],
   ["NSW".toList, "10".toList, "20".toList],
   ["NSW".toList, "30".toList, "40".toList]]

/-- A destination that already holds a one-cell tensor. -/
def dupValue : VariableValue Int :=
  { xVector := [{ name := "old".toList, labels := ["a".toList] }]
    tensorInit := { dims := [1], data := [5] } }

/-- A stand-in for `stod` on integer text: the number read by `stoi`, `none` when it throws. -/
def stodInt (s : List Char) : Option Int :=
  match stoi s with
  | .ok v => some v
  | .error _ => none

/-! ## Notions used to state the properties of the CSV engine -/

/-- A data row with one label column: a non-empty cell `stod` rejects, then two or more
non-empty cells it accepts. -/
def OneLabelRow {R : Type} (stod : List Char → Option R) (row : List (List Char)) : Prop :=
  ∃ label nums, row = label :: nums ∧ label ≠ [] ∧ stod label = none ∧ 2 ≤ nums.length ∧
    ∀ x ∈ nums, x ≠ [] ∧ (stod x).isSome = true

/-- Number of axis dimensions of a DataSpec: the dimension columns below `nColAxes`. -/
def numAxes {R : Type} (spec : DataSpec R) : Nat :=
  remDims spec.dimensionCols 0 spec.nColAxes

/-- Every position a label map records is a position at which that label stands in the list
of labels. -/
def LabelsAt (m : List (List Char × Nat)) (labels : List (List Char)) : Prop :=
  ∀ (l : List Char) (i : Nat), mapFind? m l = some i → labels[i]? = some l

/-- The label maps and XVectors of the first `n` dimensions agree: a map has as many entries
as its XVector has labels, and records for each label a position at which it stands; the
XVector repeats no label, and each of its labels is found in the map. -/
def AxisOK {R : Type} (n : Nat) (st : LoadState R) : Prop :=
  ∀ (d : Nat) (m : List (List Char × Nat)) (x : XVector), d < n →
    st.dimLabels[d]? = some m → st.xVector[d]? = some x →
    m.length = x.labels.length ∧ LabelsAt m x.labels ∧ x.labels.Nodup ∧
    ∀ l ∈ x.labels, mapCount m l = true

/-- Every entry of the key that belongs to one of the first `n` dimensions is found in the
label map of its dimension. -/
def KeyIn {R : Type} (n : Nat) (st : LoadState R) (key : Key) : Prop :=
  ∀ (d : Nat) (m : List (List Char × Nat)) (l : List Char), d < n →
    st.dimLabels[d]? = some m → key[d]? = some l → ∃ i, mapFind? m l = some i

/-- The label maps of `st1` extend those of `st`: what was found is still found, at the
same position. -/
def Grows {R : Type} (st st1 : LoadState R) : Prop :=
  ∀ (d : Nat) (m : List (List Char × Nat)) (l : List Char) (i : Nat),
    st.dimLabels[d]? = some m → mapFind? m l = some i →
    ∃ m1, st1.dimLabels[d]? = some m1 ∧ mapFind? m1 l = some i

/-- The value stored for a cell: what `stod` reads, or `missingValue` when it throws. -/
def cellValue {R : Type} (spec : DataSpec R) (stod : List Char → Option R) (f : List Char) : R :=
  (stod f).getD spec.missingValue

/-- The invariant of the row loop once the header row is behind: the axis dimensions are
consistent, the keys of `tmpData` are pairwise different, and every key has one entry per
dimension, each found in the label map of its dimension (for the pivoted dimension: among
the horizontal labels). -/
def LoadInv {R : Type} (spec : DataSpec R) (st : LoadState R) : Prop :=
  numAxes spec ≤ st.xVector.length ∧ numAxes spec ≤ st.dimLabels.length ∧
  AxisOK (numAxes spec) st ∧ (st.tmpData.map Prod.fst).Nodup ∧
  ∀ k : Key, mapCount st.tmpData k = true →
    k.length = numAxes spec + (if st.tabularFormat then 1 else 0) ∧
    KeyIn (numAxes spec) st k ∧
    (st.tabularFormat = true → ∃ h, k[numAxes spec]? = some h ∧ h ∈ st.horizontalLabels)

/-- The state of the loader when it reaches the data rows: the initial state, passed
through the header branch when the load is not columnar and the header row exists. -/
def headerState {R : Type} (spec : DataSpec R) (input : List (List (List Char))) :
    LoadState R :=
  if spec.columnar then initState spec
  else
    match input[spec.headerRow]? with
    | none => initState spec
    | some tok => processHeader spec tok (initState spec)

deriving instance DecidableEq for Except
deriving instance DecidableEq for DimensionType
deriving instance DecidableEq for Dimension
deriving instance DecidableEq for DataSpec
deriving instance DecidableEq for XVector
deriving instance DecidableEq for TensorVal
deriving instance DecidableEq for VariableValue
deriving instance DecidableEq for LoadError
deriving instance DecidableEq for LoadState

/-- A DataSpec before any guess: non-columnar, comma, no axes, missing value -1. -/
def blankSpec : DataSpec Int :=
  { separator := ','
    quote := '\x22'
    escape := '\x5c'
    nRowAxes := 0
    nColAxes := 0
    headerRow := 0
    columnar := false
    dimensionCols := []
    dimensionNames := []
    dimensions := []
    horizontalDimName := "?".toList
    missingValue := -1 }

/-- An empty destination. -/
def blankValue : VariableValue Int :=
  { xVector := [], tensorInit := { dims := [], data := [] } }

/-- A stand-in for `anyVal` on cells that are neither numbers nor dates: it throws. -/
def noAnyVal : Dimension → List Char → Bool :=
  fun _ _ => false

/-- A stand-in for what is read through the stale iterators of `tok`: the new content of
`buf`. -/
def freshBuf : List Char → List Char → List Char :=
  fun _ new => new

/-- The tabular scenario of the specification. -/
def tabularText : List Char :=
  "region,q1,q2\nNSW,10,20\nVIC,30,40\n".toList

/-- The header-less scenario of the specification. -/
def headerlessText : List Char :=
  "a,b,1\na,c,2\nd,b,3\n".toList

/-- The tokens of the lines of `headerlessText`. -/
def headerlessRows : List (List (List Char)) :=
  [["a".toList, "b".toList, "1".toList], ["a".toList, "c".toList, "2".toList],
    ["d".toList, "b".toList, "3".toList]]

/-- The tokens of the lines of `tabularText`. -/
def tabularRows : List (List (List Char)) :=
  [["region".toList, "q1".toList, "q2".toList],
   ["NSW".toList, "10".toList, "20".toList],
   ["VIC".toList, "30".toList, "40".toList]]

/-- The state of the loader after the rows of `tabularRows`. -/
def tabularState : LoadState Int :=
  { tmpData := [(["NSW".toList, "q1".toList], 10), (["NSW".toList, "q2".toList], 20),
                (["VIC".toList, "q1".toList], 30), (["VIC".toList, "q2".toList], 40)]
    dimLabels := [[("NSW".toList, 0), ("VIC".toList, 1)], [("q1".toList, 0), ("q2".toList, 1)]]
    tabularFormat := true
    xVector := [{ name := "region".toList, labels := ["NSW".toList, "VIC".toList] },
                { name := "quarter".toList, labels := ["q1".toList, "q2".toList] }]
    horizontalLabels := ["q1".toList, "q2".toList] }

theorem rfind_eq_none {c : Char} : ∀ {s : List Char}, rfind c s = none → c ∉ s
  | [], _ => by simp
  | x :: xs, h => by
    unfold rfind at h
    cases hr : rfind c xs with
    | some k => simp [hr] at h
    | none =>
      rw [hr] at h
      have hx : ¬ x = c := by
        intro hxc
        simp [hxc] at h
      have := rfind_eq_none hr
      simp only [List.mem_cons, not_or]
      exact ⟨fun e => hx e.symm, this⟩

theorem rfind_eq_some {c : Char} : ∀ {s : List Char} {k : Nat}, rfind c s = some k →
    k < s.length ∧ s[k]? = some c ∧ ∀ j, k < j → s[j]? ≠ some c
  | [], k, h => by simp [rfind] at h
  | x :: xs, k, h => by
    unfold rfind at h
    cases hr : rfind c xs with
    | some k1 =>
      rw [hr] at h
      simp only [Option.some.injEq] at h
      subst h
      obtain ⟨h1, h2, h3⟩ := rfind_eq_some hr
      refine ⟨by simpa using h1, by simpa using h2, ?_⟩
      intro j hj
      obtain ⟨j1, rfl⟩ : ∃ j1, j = j1 + 1 := ⟨j - 1, by omega⟩
      simpa using h3 j1 (by omega)
    | none =>
      rw [hr] at h
      by_cases hx : x = c
      · simp only [hx, if_true, Option.some.injEq] at h
        subst h
        refine ⟨by simp, by simp [hx], ?_⟩
        intro j hj
        obtain ⟨j1, rfl⟩ : ∃ j1, j = j1 + 1 := ⟨j - 1, by omega⟩
        have hc := rfind_eq_none hr
        simp only [List.getElem?_cons_succ]
        intro hj1
        exact hc (List.getElem?_mem hj1)
      · simp [hx] at h


theorem splits_slash_at {query key rem cmd rest : List Char} (hs : Splits query key rem)
    (hq : query = cmd ++ rest) (hlt : key.length < cmd.length) :
    cmd[key.length]? = some '/' := by
  obtain ⟨h1, h2⟩ := hs
  have hlen : key.length + rem.length = cmd.length + rest.length := by
    have := congrArg List.length (h1.symm.trans hq)
    simpa using this
  have hrem : rem ≠ [] := by
    intro h
    simp [h] at hlen
    omega
  have hhead : rem.head? = some '/' := by
    rcases h2 with h2 | h2
    · exact absurd h2 hrem
    · exact h2
  have e1 : query[key.length]? = some '/' := by
    rw [h1, List.getElem?_append_right (le_refl _)]
    simp only [Nat.sub_self]
    cases rem with
    | nil => exact absurd rfl hrem
    | cons r rs => simpa using hhead
  rw [hq, List.getElem?_append_left hlt] at e1
  exact e1

theorem splits_eq_of_length {query key rem cmd rest : List Char} (h1 : query = key ++ rem)
    (hq : query = cmd ++ rest) (hlen : key.length = cmd.length) : key = cmd ∧ rem = rest :=
  List.append_inj (h1.symm.trans hq) hlen

theorem processLoop_result {W : Type} (reg : RESTProcess_t W) (query : List Char) (jin : Json)
    (w : W) (hslash : query.head? = some '/') :
    ∀ (fuel : Nat) (cmd rest : List Char), query = cmd ++ rest →
      (rest = [] ∨ rest.head? = some '/') → cmd.length < fuel →
      (processLoop reg query jin w fuel cmd cmd.length = some (.ok [commandNotFound], w) ∧
        ∀ key rem, Splits query key rem → key ≠ [] → key.length ≤ cmd.length →
          reg.find key = none)
      ∨ (∃ key rem h, Splits query key rem ∧ key ≠ [] ∧ key.length ≤ cmd.length ∧
          reg.find key = some h ∧
          (∀ key1 rem1, Splits query key1 rem1 → key.length < key1.length →
            key1.length ≤ cmd.length → reg.find key1 = none) ∧
          processLoop reg query jin w fuel cmd cmd.length
            = some (dispatch h query key key.length jin w)) := by
  intro fuel
  induction fuel with
  | zero => intro cmd rest _ _ h; omega
  | succ n ih =>
    intro cmd rest hq hrest hlt
    by_cases hc : cmd = []
    · subst hc
      left
      refine ⟨by simp [processLoop, afterLoop], ?_⟩
      intro key rem _ hk hlen
      simp at hlen
      exact absurd hlen hk
    · have hpos : 0 < cmd.length := List.length_pos.mpr hc
      cases hf : reg.find cmd with
      | some h =>
        right
        refine ⟨cmd, rest, h, ⟨hq, hrest⟩, hc, le_refl _, hf, ?_, ?_⟩
        · intro key1 rem1 _ h1 h2; omega
        · simp [processLoop, hpos, hf]
      | none =>
        have hhead : '/' ∈ cmd := by
          cases cmd with
          | nil => exact absurd rfl hc
          | cons c cs =>
            rw [hq] at hslash
            simp at hslash
            simp [hslash]
        cases hr : rfind '/' cmd with
        | none => exact absurd hhead (rfind_eq_none hr)
        | some k =>
          obtain ⟨hk1, hk2, hk3⟩ := rfind_eq_some hr
          have hlenk : (cmd.take k).length = k := by simp; omega
          have hstep : processLoop reg query jin w (n + 1) cmd cmd.length
              = processLoop reg query jin w n (cmd.take k) (cmd.take k).length := by
            rw [hlenk]
            simp [processLoop, hpos, hf, hr]
          have hq1 : query = cmd.take k ++ (cmd.drop k ++ rest) := by
            rw [← List.append_assoc, List.take_append_drop]; exact hq
          have hrest1 : (cmd.drop k ++ rest) = [] ∨ (cmd.drop k ++ rest).head? = some '/' := by
            right
            have hd : cmd.drop k = '/' :: cmd.drop (k + 1) := by
              have hk2' : cmd[k] = '/' := by
                have := List.getElem?_eq_getElem hk1
                rw [this] at hk2
                simpa using hk2
              rw [← hk2']
              exact List.drop_eq_getElem_cons hk1
            rw [hd]; simp
          have hgap : ∀ key rem, Splits query key rem → k < key.length →
              key.length ≤ cmd.length → reg.find key = none := by
            intro key rem hs h1 h2
            rcases Nat.lt_or_ge key.length cmd.length with h3 | h3
            · exact absurd (splits_slash_at hs hq h3) (hk3 _ h1)
            · have := (splits_eq_of_length hs.1 hq (by omega)).1
              rw [this]; exact hf
          rcases ih (cmd.take k) (cmd.drop k ++ rest) hq1 hrest1 (by omega) with h | h
          · left
            refine ⟨by rw [hstep]; exact h.1, ?_⟩
            intro key rem hs hne hlen
            rcases Nat.lt_or_ge k key.length with h3 | h3
            · exact hgap key rem hs h3 hlen
            · exact h.2 key rem hs hne (by omega)
          · right
            obtain ⟨key, rem, h0, hs, hne, hlen, hfind, hmax, hres⟩ := h
            refine ⟨key, rem, h0, hs, hne, by omega, hfind, ?_, by rw [hstep]; exact hres⟩
            intro key1 rem1 hs1 h1 h2
            rcases Nat.lt_or_ge k key1.length with h3 | h3
            · exact hgap key1 rem1 hs1 h3 h2
            · exact hmax key1 rem1 hs1 h1 (by omega)


theorem dispatch_eq {W : Type} (h : RESTProcessBase W) (query key rem : List Char) (jin : Json)
    (w : W) (hq : query = key ++ rem) (hne : key ≠ []) :
    dispatch h query key key.length jin w
      = if rem = "/@signature".toList then (.ok [Output.json (h.signature w)], w)
        else handlerReply (h.process rem jin w) := by
  have hd : query.drop key.length = rem := by rw [hq]; simp
  have ha : afterLoop key = [] := by
    cases key with
    | nil => exact absurd rfl hne
    | cons c cs => rfl
  unfold dispatch
  simp only [hd, ha]
  split_ifs with h1
  · rfl
  · unfold handlerReply
    rcases h.process rem jin w with ⟨r, w1⟩
    cases r <;> rfl

theorem process_eq_loop {W : Type} (reg : RESTProcess_t W) (query : List Char) (jin : Json)
    (w : W) (hslash : query.head? = some '/') :
    reg.process query jin w
      = processLoop reg query jin w (query.length + 1) query query.length := by
  unfold RESTProcess_t.process
  simp [hslash]

theorem splits_take {query key rem : List Char} (hs : Splits query key rem) :
    key = query.take key.length ∧ rem = query.drop key.length ∧ key.length ≤ query.length := by
  obtain ⟨h1, _⟩ := hs
  subst h1
  simp

theorem process_longest {W : Type} (reg : RESTProcess_t W) (query key rem : List Char)
    (h : RESTProcessBase W) (jin : Json) (w : W)
    (hslash : query.head? = some '/') (hs : Splits query key rem) (hne : key ≠ [])
    (hfind : reg.find key = some h)
    (hlong : ∀ key1 rem1, Splits query key1 rem1 → key.length < key1.length →
      reg.find key1 = none) :
    reg.process query jin w
      = some (if rem = "/@signature".toList then (.ok [Output.json (h.signature w)], w)
              else handlerReply (h.process rem jin w)) := by
  rw [process_eq_loop reg query jin w hslash]
  have hklen : key.length ≤ query.length := by rw [hs.1]; simp
  rcases processLoop_result reg query jin w hslash (query.length + 1) query [] (by simp)
    (Or.inl rfl) (by omega) with hl | hr
  · have := hl.2 key rem hs hne hklen
    rw [hfind] at this
    exact absurd this (by simp)
  · obtain ⟨key1, rem1, h1, hs1, hne1, hlen1, hfind1, hmax1, hres⟩ := hr
    have hlen : key1.length = key.length := by
      rcases Nat.lt_trichotomy key1.length key.length with hlt | heq | hgt
      · have := hmax1 key rem hs hlt hklen
        rw [hfind] at this
        exact absurd this (by simp)
      · exact heq
      · have := hlong key1 rem1 hs1 hgt
        rw [hfind1] at this
        exact absurd this (by simp)
    obtain ⟨e1, e2⟩ := splits_eq_of_length hs1.1 hs.1 hlen
    subst e1
    subst e2
    rw [hfind] at hfind1
    simp only [Option.some.injEq] at hfind1
    subst hfind1
    rw [hres, dispatch_eq h query key1 rem1 jin w hs.1 hne]

/-! ## C1: longest registered key wins -/

/-- Claim C1. For every registry and every query that begins with '/': if `key` is a
registered, non-empty key reached from the query by dropping zero or more trailing
"/segment" pieces (`query = key ++ rem`), and no longer such key is registered, then
`process` answers with the reply of that key's handler called as `process(rem, jin)`,
unless `rem` is "/@signature". With `rem` empty this is the case of a query that is itself
a registered key. -/
theorem C1_longest_match {W : Type} (reg : RESTProcess_t W) (query key rem : List Char)
    (h : RESTProcessBase W) (jin : Json) (w : W)
    (hslash : query.head? = some '/') (hs : Splits query key rem) (hne : key ≠ [])
    (hfind : reg.find key = some h)
    (hlong : ∀ key1 rem1, Splits query key1 rem1 → key.length < key1.length →
      reg.find key1 = none)
    (hsig : rem ≠ "/@signature".toList) :
    reg.process query jin w = some (handlerReply (h.process rem jin w)) := by
  rw [process_longest reg query key rem h jin w hslash hs hne hfind hlong, if_neg hsig]

/-- Witness for C1: with /a and /a/b registered, the query "/a/b/c" reaches the handler
of /a/b with remainder "/c". -/
theorem C1_longest_match_witness :
    RESTProcess_t.process
        (RESTProcess_t.add (RESTProcess_t.add [] "/a".toList fstInt) "/a/b".toList sndInt)
        "/a/b/c".toList .null (7, 9)
      = some (handlerReply (sndInt.process "/c".toList .null (7, 9))) :=
  C1_longest_match _ "/a/b/c".toList "/a/b".toList "/c".toList sndInt .null (7, 9)
    rfl ⟨rfl, Or.inr rfl⟩ (by decide) rfl
    (by
      intro key1 rem1 hs hlt
      obtain ⟨hk, hr, hle⟩ := splits_take hs
      have hlen : "/a/b/c".toList.length = 6 := rfl
      have h4 : "/a/b".toList.length = 4 := rfl
      rw [hlen] at hle
      rw [h4] at hlt
      have hcase : key1.length = 5 ∨ key1.length = 6 := by omega
      rcases hcase with h5 | h6
      · have h2 := hs.2
        rw [hr, h5] at h2
        exact absurd h2 (by decide)
      · rw [hk, h6]
        rfl)
    (by decide)

/-! ## C2: "Command not found" -/

/-- Claim C3. For every registered path `p` that begins with '/', with handler `h`, when
`p` followed by "/@signature" is not itself registered, `process` answers the query
`p` followed by "/@signature" with `h.signature()` whatever `jin` is, and the state is as
before: `h.process` is not called. -/
theorem C3_signature {W : Type} (reg : RESTProcess_t W) (p : List Char)
    (h : RESTProcessBase W) (jin : Json) (w : W)
    (hslash : p.head? = some '/') (hfind : reg.find p = some h)
    (hfree : reg.find (p ++ "/@signature".toList) = none) :
    reg.process (p ++ "/@signature".toList) jin w
      = some (.ok [Output.json (h.signature w)], w) := by
  have hne : p ≠ [] := by
    intro hp
    simp [hp] at hslash
  have hslash1 : (p ++ "/@signature".toList).head? = some '/' := by
    cases p with
    | nil => exact absurd rfl hne
    | cons c cs => simpa using hslash
  have hs : Splits (p ++ "/@signature".toList) p "/@signature".toList := ⟨rfl, Or.inr rfl⟩
  have hlong : ∀ key2 rem2, Splits (p ++ "/@signature".toList) key2 rem2 →
      p.length < key2.length → reg.find key2 = none := by
    intro key2 rem2 hs2 hlt
    obtain ⟨e, hr2⟩ := hs2
    rcases List.append_eq_append_iff.mp e with ⟨a, ha1, ha2⟩ | ⟨c, hc1, hc2⟩
    · rcases hr2 with hr2 | hr2
      · subst hr2
        rw [List.append_nil] at e
        rw [← e]; exact hfree
      · exfalso
        cases a with
        | nil => simp at ha1; rw [ha1] at hlt; omega
        | cons a0 as =>
          have h3 : "@signature".toList = as ++ rem2 := by
            have : "/@signature".toList = '/' :: "@signature".toList := rfl
            rw [this] at ha2
            simp only [List.cons_append, List.cons.injEq] at ha2
            exact ha2.2
          have h4 : '/' ∈ rem2 := by
            cases rem2 with
            | nil => simp at hr2
            | cons r rs => simp at hr2; simp [hr2]
          have h5 : '/' ∈ "@signature".toList := by
            rw [h3]; exact List.mem_append_right _ h4
          exact absurd h5 (by decide)
    · exfalso
      have := congrArg List.length hc1
      simp at this
      omega
  rw [process_longest reg _ p _ h jin w hslash1 hs hne hfind hlong, if_pos rfl]

/-- Witness for C3: the query "/x/@signature" on a registry holding /x, with a non-null
input. -/
theorem C3_signature_witness :
    RESTProcess_t.process (RESTProcess cppTypeNames intDest [] "/x".toList)
        ("/x".toList ++ "/@signature".toList) (.arr [.int 42]) 7
      = some (.ok [Output.json ((RESTProcessObject cppTypeNames intDest).signature 7)], 7) :=
  C3_signature (RESTProcess cppTypeNames intDest [] "/x".toList) "/x".toList
    (RESTProcessObject cppTypeNames intDest) (.arr [.int 42]) 7 rfl rfl rfl

/-! ## C4: element selection through the registry -/

/-- Claim C4, evaluated on the code. For a sequence registered at /s the router hands the
handler the remainder "/@elem/1/", which does not start with "@elem/": the reply to
"/s/@elem/1/" and to "/s/@elem/5/" is the whole sequence, for `[10, 20, 30]` too, and not
element 1 or JSON null; the handler given "@elem/1/" itself does reply with element 1. -/
theorem C4_elem_query_replies_whole_sequence (N : TypeNames) (S : SeqDest Int) (s : List Int) :
    RESTProcess_t.process (RESTProcessSeq N S [] "/s".toList) "/s/@elem/1/".toList .null s
        = some (.ok [Output.json (S.pack s)], s) ∧
    RESTProcess_t.process (RESTProcessSeq N S [] "/s".toList) "/s/@elem/5/".toList .null s
        = some (.ok [Output.json (S.pack s)], s) ∧
    RESTProcess_t.process (RESTProcessSeq cppTypeNames intSeqDest [] "/s".toList)
        "/s/@elem/1/".toList .null [10, 20, 30]
        = some (.ok [Output.json (.arr [.arr [.int 10, .int 20, .int 30]])], [10, 20, 30]) ∧
    (RESTProcessSequence cppTypeNames intSeqDest).process "@elem/1/".toList .null [10, 20, 30]
        = (.ok (.arr [.int 20]), [10, 20, 30]) :=
  ⟨rfl, rfl, rfl, rfl⟩

/-! ## C5: inserting under a key that is taken -/

/-- Counterexample to C5: after `add("/k", h1)` and `add("/k", h2)` the query "/k" is
answered by `h1` (the first `int`, 7) and not by `h2` (the second, 9). -/
theorem C5_duplicate_add_counterexample :
    RESTProcess_t.process
        (RESTProcess_t.add (RESTProcess_t.add [] "/k".toList fstInt) "/k".toList sndInt)
        "/k".toList .null (7, 9)
      = some (handlerReply (fstInt.process [] .null (7, 9))) ∧
    RESTProcess_t.process
        (RESTProcess_t.add (RESTProcess_t.add [] "/k".toList fstInt) "/k".toList sndInt)
        "/k".toList .null (7, 9)
      ≠ some (handlerReply (sndInt.process [] .null (7, 9))) := by
  refine ⟨rfl, ?_⟩
  intro h
  have h2 : (some (handlerReply (fstInt.process [] .null (7, 9))) : Option _)
      = some (handlerReply (sndInt.process [] .null (7, 9))) := h
  simp [handlerReply, fstInt, sndInt, RESTProcessBase.lift, RESTProcessObject, convertJson,
    intDest] at h2

/-- Claim C5 as amended. Duplicate insertion keeps the first handler: for every registry
that maps a key `k` to a handler `h1`, `add(d, h2)` with any path `d` that normalises to `k`
leaves the registry as it was, so `k` is still mapped to `h1`. -/
theorem C5_duplicate_add_keeps_first {W : Type} (reg : RESTProcess_t W) (d k : List Char)
    (h1 h2 : RESTProcessBase W)
    (hk : d.map (fun c => if c = '.' then '/' else c) = k) (hfind : reg.find k = some h1) :
    reg.add d h2 = reg ∧ (reg.add d h2).find k = some h1 := by
  have : reg.add d h2 = reg := by
    unfold RESTProcess_t.add RESTProcess_t.emplace
    rw [hk, hfind]
  rw [this]
  exact ⟨rfl, hfind⟩

/-- Witness for C5 as amended: the path "/a.k" normalises to the key "/a/k", which is
taken. -/
theorem C5_duplicate_add_keeps_first_witness :
    RESTProcess_t.add (RESTProcess_t.add [] "/a/k".toList fstInt) "/a.k".toList sndInt
        = RESTProcess_t.add [] "/a/k".toList fstInt ∧
    RESTProcess_t.find
        (RESTProcess_t.add (RESTProcess_t.add [] "/a/k".toList fstInt) "/a.k".toList sndInt)
        "/a/k".toList = some fstInt :=
  C5_duplicate_add_keeps_first (RESTProcess_t.add [] "/a/k".toList fstInt) "/a.k".toList
    "/a/k".toList fstInt sndInt (by decide) rfl

/-! ## C6: reading and writing a scalar -/

/-- Claim C6. For a variable registered at /x with value `v`: `process("/x", null)` replies
with the encoded `v` and leaves the variable unchanged; when element 0 of the array input
decodes to `w`, `process("/x", [w])` sets the variable to `w` and replies with the encoded
`w`; a following `process("/x", null)` replies with the encoded `w` again. -/
theorem C6_get_set_get {T : Type} (N : TypeNames) (D : Dest T) (v w : T) (jw : Json)
    (hw : D.unpack jw v = .ok w) :
    RESTProcess_t.process (RESTProcess N D [] "/x".toList) "/x".toList .null v
        = some (.ok [Output.json (D.pack v)], v) ∧
    RESTProcess_t.process (RESTProcess N D [] "/x".toList) "/x".toList (.arr [jw]) v
        = some (.ok [Output.json (D.pack w)], w) ∧
    RESTProcess_t.process (RESTProcess N D [] "/x".toList) "/x".toList .null w
        = some (.ok [Output.json (D.pack w)], w) := by
  refine ⟨rfl, ?_, rfl⟩
  show some (dispatch (RESTProcessObject N D) _ _ _ _ _) = _
  simp [dispatch, RESTProcessObject, convertJson, unpackInto, hw, afterLoop]

/-- Witness for C6: the integer 7 at /x replies `[7]`, then `[42]` for the input `[42]`,
then `[42]`. -/
theorem C6_get_set_get_witness :
    RESTProcess_t.process (RESTProcess cppTypeNames intDest [] "/x".toList) "/x".toList
        .null 7 = some (.ok [Output.json (.arr [.int 7])], 7) ∧
    RESTProcess_t.process (RESTProcess cppTypeNames intDest [] "/x".toList) "/x".toList
        (.arr [.int 42]) 7 = some (.ok [Output.json (.arr [.int 42])], 42) ∧
    RESTProcess_t.process (RESTProcess cppTypeNames intDest [] "/x".toList) "/x".toList
        .null 42 = some (.ok [Output.json (.arr [.int 42])], 42) :=
  C6_get_set_get cppTypeNames intDest 7 42 (.int 42) rfl

/-! ## C7: the conversion error -/

/-- Claim C7, evaluated on the code. Converting the JSON string "abc" into an `int` that
holds 7 fails and leaves the 7, but the message reads "connot" where the claim has
"cannot"; a convertible source (the JSON integer 5) is assigned without error. -/
theorem C7_message_reads_connot :
    convertJson cppTypeNames intDest 7 (.str "abc")
      = (.error "std::string connot be converted to int", 7) ∧
    "std::string connot be converted to int"
      ≠ "std::string" ++ " cannot be converted to " ++ "int" ∧
    convertJson cppTypeNames intDest 7 (.int 5) = (.ok (), 5) :=
  ⟨rfl, by decide, rfl⟩

theorem packArgs_eq_positional {V : Type} : ∀ (params : List (Dest V)) (b : JSONBuffer),
    packArgs params b = positionalArgs params (b.values.drop b.it)
  | [], b => by simp [packArgs, positionalArgs]
  | D :: Ds, b => by
    unfold packArgs JSONBuffer.extract
    cases hg : b.values.get? b.it with
    | none =>
      have hlen : b.values.length ≤ b.it := by
        simpa [List.get?_eq_getElem?] using hg
      have hd : b.values.drop b.it = [] := List.drop_eq_nil_of_le hlen
      simp only [hd]
      rw [packArgs_eq_positional Ds b, hd]
      simp [positionalArgs]
    | some j =>
      have hlt : b.it < b.values.length := by
        by_contra hc
        have : b.values.get? b.it = none := by
          simp [List.get?_eq_getElem?]; omega
        rw [this] at hg
        simp at hg
      have hj : b.values[b.it] = j := by
        rw [List.get?_eq_getElem?, List.getElem?_eq_getElem hlt] at hg
        simpa using hg
      have hd : b.values.drop b.it = j :: b.values.drop (b.it + 1) := by
        rw [← hj]; exact List.drop_eq_getElem_cons hlt
      rw [hd]
      simp only [positionalArgs]
      cases hu : D.unpack j D.dflt with
      | error e => rfl
      | ok v =>
        simp only []
        rw [packArgs_eq_positional Ds { b with it := b.it + 1 }]

theorem positionalArgs_spec {V : Type} : ∀ (params : List (Dest V)) (vals : List Json)
    (args : List V), positionalArgs params vals = .ok args →
    args.length = params.length ∧
    ∀ (i : Nat) (D : Dest V), params[i]? = some D →
      (∀ a, vals[i]? = some a → ∃ v, D.unpack a D.dflt = .ok v ∧ args[i]? = some v) ∧
      (vals.length ≤ i → args[i]? = some D.dflt)
  | [], vals, args, h => by
    simp [positionalArgs] at h
    subst h
    simp
  | D :: Ds, [], args, h => by
    simp only [positionalArgs] at h
    cases hr : positionalArgs Ds [] with
    | error e => rw [hr] at h; simp at h
    | ok vs =>
      rw [hr] at h
      simp only [Except.ok.injEq] at h
      subst h
      obtain ⟨h1, h2⟩ := positionalArgs_spec Ds [] vs hr
      refine ⟨by simp [h1], ?_⟩
      intro i D1 hi
      cases i with
      | zero =>
        simp at hi
        subst hi
        simp
      | succ i1 =>
        simp at hi
        have := h2 i1 D1 hi
        simpa using this.2
  | D :: Ds, a :: as, args, h => by
    simp only [positionalArgs] at h
    cases hu : D.unpack a D.dflt with
    | error e => rw [hu] at h; simp at h
    | ok v =>
      rw [hu] at h
      cases hr : positionalArgs Ds as with
      | error e => rw [hr] at h; simp at h
      | ok vs =>
        rw [hr] at h
        simp only [Except.ok.injEq] at h
        subst h
        obtain ⟨h1, h2⟩ := positionalArgs_spec Ds as vs hr
        refine ⟨by simp [h1], ?_⟩
        intro i D1 hi
        cases i with
        | zero =>
          simp at hi
          subst hi
          simpa using hu
        | succ i1 =>
          simp at hi
          have := h2 i1 D1 hi
          simpa using this

theorem positionalArgs_total {V : Type} : ∀ (params : List (Dest V)) (vals : List Json),
    (∀ (i : Nat) (D : Dest V) (a : Json), params[i]? = some D → vals[i]? = some a →
        ∃ v, D.unpack a D.dflt = .ok v) →
    ∃ args, positionalArgs params vals = .ok args
  | [], vals, _ => ⟨[], by simp [positionalArgs]⟩
  | D :: Ds, [], _ => by
    obtain ⟨vs, hvs⟩ := positionalArgs_total Ds [] (by intro i D a _ h; simp at h)
    exact ⟨D.dflt :: vs, by simp [positionalArgs, hvs]⟩
  | D :: Ds, a :: as, h => by
    obtain ⟨v, hv⟩ := h 0 D a (by simp) (by simp)
    obtain ⟨vs, hvs⟩ := positionalArgs_total Ds as (by
      intro i D1 a1 h1 h2
      exact h (i + 1) D1 a1 (by simpa using h1) (by simpa using h2))
    exact ⟨v :: vs, by simp [positionalArgs, hv, hvs]⟩

theorem ofJson_values (A : Json) (vals : List Json)
    (hv : A = .arr vals ∨ ((∀ a, A ≠ .arr a) ∧ vals = [A])) :
    (JSONBuffer.ofJson A).values.drop (JSONBuffer.ofJson A).it = vals := by
  rcases hv with hv | ⟨h1, h2⟩
  · subst hv; simp [JSONBuffer.ofJson]
  · subst h2
    cases A <;> first | rfl | exact absurd rfl (h1 _)

/-! ## C8: argument packing -/

theorem positionalArgs_error {V : Type} : ∀ (params : List (Dest V)) (vals : List Json)
    (i : Nat) (D : Dest V) (a : Json) (e : String),
    params[i]? = some D → vals[i]? = some a → D.unpack a D.dflt = .error e →
    (∀ (j : Nat) (Dj : Dest V) (aj : Json), j < i → params[j]? = some Dj →
      vals[j]? = some aj → ∃ v, Dj.unpack aj Dj.dflt = .ok v) →
    positionalArgs params vals = .error e
  | [], _, i, D, a, e, hp, _, _, _ => by simp at hp
  | _ :: _, [], i, D, a, e, _, hv, _, _ => by simp at hv
  | D0 :: Ds, a0 :: as, 0, D, a, e, hp, hv, he, _ => by
    simp only [List.getElem?_cons_zero, Option.some.injEq] at hp hv
    subst hp
    subst hv
    simp only [positionalArgs, he]
  | D0 :: Ds, a0 :: as, i + 1, D, a, e, hp, hv, he, hbefore => by
    simp only [List.getElem?_cons_succ] at hp hv
    obtain ⟨v0, hv0⟩ := hbefore 0 D0 a0 (by omega) (by simp) (by simp)
    have ih := positionalArgs_error Ds as i D a e hp hv he
      (fun j Dj aj hj h1 h2 => hbefore (j + 1) Dj aj (by omega) (by simpa using h1)
        (by simpa using h2))
    simp only [positionalArgs, hv0, ih]

theorem function_process_eq {W V R : Type} (params : List (Dest V)) (f : List V → R)
    (packR : R → Json) (sig : Json) (remainder : List Char) (A : Json) (vals : List Json)
    (w : W) (hv : A = .arr vals ∨ ((∀ a, A ≠ .arr a) ∧ vals = [A])) :
    (∀ args, positionalArgs params vals = .ok args →
      (RESTProcessFunction params f packR sig).process remainder A w
        = (.ok (packR (f args)), w)) ∧
    (∀ e, positionalArgs params vals = .error e →
      (RESTProcessFunction params f packR sig).process remainder A w = (.error e, w)) := by
  have h : packArgs params (JSONBuffer.ofJson A) = positionalArgs params vals := by
    rw [packArgs_eq_positional, ofJson_values A vals hv]
  constructor
  · intro args ha
    simp only [RESTProcessFunction, h, ha]
  · intro e he
    simp only [RESTProcessFunction, h, he]


/-- Claim C8. Let `vals` be the elements of the JSON argument `A` when `A` is an array, and
the single value `A` otherwise, and let the callable `f` have the parameters `params`.
When the decode of `vals[i]` into the default-constructed parameter `i` succeeds for every
`i` below both lengths, `RESTProcessFunction::process` replies with the packed result of
`f` called on one argument per parameter: argument `i` is the decode of `vals[i]` when
`vals` has an element `i`, and the default-constructed value when it has none (elements
beyond the last parameter are not read). Whenever the packing succeeds its arguments are
of that form and `f` is called on them. When a decode throws, the earlier ones having
succeeded, that exception escapes the handler and the state is as before. -/
theorem C8_argument_packing {W V R : Type} (params : List (Dest V)) (f : List V → R)
    (packR : R → Json) (sig : Json) (remainder : List Char) (A : Json) (vals : List Json)
    (w : W) (hv : A = .arr vals ∨ ((∀ a, A ≠ .arr a) ∧ vals = [A])) :
    ((∀ (i : Nat) (D : Dest V) (a : Json), params[i]? = some D → vals[i]? = some a →
        ∃ v, D.unpack a D.dflt = .ok v) →
      ∃ args, (RESTProcessFunction params f packR sig).process remainder A w
          = (.ok (packR (f args)), w) ∧
        packArgs params (JSONBuffer.ofJson A) = .ok args ∧
        args.length = params.length ∧
        ∀ (i : Nat) (D : Dest V), params[i]? = some D →
          (∀ a, vals[i]? = some a → ∃ v, D.unpack a D.dflt = .ok v ∧ args[i]? = some v) ∧
          (vals.length ≤ i → args[i]? = some D.dflt)) ∧
    (∀ args, packArgs params (JSONBuffer.ofJson A) = .ok args →
      (RESTProcessFunction params f packR sig).process remainder A w
        = (.ok (packR (f args)), w) ∧
      args.length = params.length ∧
      ∀ (i : Nat) (D : Dest V), params[i]? = some D →
        (∀ a, vals[i]? = some a → ∃ v, D.unpack a D.dflt = .ok v ∧ args[i]? = some v) ∧
        (vals.length ≤ i → args[i]? = some D.dflt)) ∧
    (∀ (i : Nat) (D : Dest V) (a : Json) (e : String), params[i]? = some D →
      vals[i]? = some a → D.unpack a D.dflt = .error e →
      (∀ (j : Nat) (Dj : Dest V) (aj : Json), j < i → params[j]? = some Dj →
        vals[j]? = some aj → ∃ v, Dj.unpack aj Dj.dflt = .ok v) →
      (RESTProcessFunction params f packR sig).process remainder A w = (.error e, w)) := by
  have hpk : packArgs params (JSONBuffer.ofJson A) = positionalArgs params vals := by
    rw [packArgs_eq_positional, ofJson_values A vals hv]
  obtain ⟨hok, herr⟩ := function_process_eq params f packR sig remainder A vals w hv
  refine ⟨?_, ?_, ?_⟩
  · intro hdec
    obtain ⟨args, ha⟩ := positionalArgs_total params vals hdec
    obtain ⟨h1, h2⟩ := positionalArgs_spec params vals args ha
    exact ⟨args, hok args ha, by rw [hpk]; exact ha, h1, h2⟩
  · intro args ha
    rw [hpk] at ha
    obtain ⟨h1, h2⟩ := positionalArgs_spec params vals args ha
    exact ⟨hok args ha, h1, h2⟩
  · intro i D a e hp hvi he hbefore
    exact herr e (positionalArgs_error params vals i D a e hp hvi he hbefore)

/-- Witness for C8: a callable with three `int` parameters that returns its argument list,
fed the array `[1, 2]`, is called on 1, 2 and the default 0. -/
theorem C8_argument_packing_witness :
    (RESTProcessFunction [intDest, intDest, intDest] (fun args : List Int => args)
        (fun l => Json.arr (l.map Json.int)) Json.null).process [] (.arr [.int 1, .int 2]) ()
      = (.ok (.arr [.int 1, .int 2, .int 0]), ()) ∧
    ∃ args : List Int,
      (RESTProcessFunction [intDest, intDest, intDest] (fun args : List Int => args)
          (fun l => Json.arr (l.map Json.int)) Json.null).process [] (.arr [.int 1, .int 2])
          ()
        = (.ok (Json.arr (args.map Json.int)), ()) ∧
      packArgs [intDest, intDest, intDest] (JSONBuffer.ofJson (.arr [.int 1, .int 2]))
        = .ok args ∧
      args.length = [intDest, intDest, intDest].length ∧
      ∀ (i : Nat) (D : Dest Int), [intDest, intDest, intDest][i]? = some D →
        (∀ a, [Json.int 1, Json.int 2][i]? = some a →
          ∃ v, D.unpack a D.dflt = .ok v ∧ args[i]? = some v) ∧
        ([Json.int 1, Json.int 2].length ≤ i → args[i]? = some D.dflt) :=
  ⟨rfl,
    (C8_argument_packing [intDest, intDest, intDest] (fun args : List Int => args)
      (fun l => Json.arr (l.map Json.int)) Json.null [] (.arr [.int 1, .int 2])
      [.int 1, .int 2] () (Or.inl rfl)).1
      (by
        intro i D a hp hvi
        cases i with
        | zero =>
          simp only [List.getElem?_cons_zero, Option.some.injEq] at hp hvi
          subst hp
          subst hvi
          exact ⟨1, rfl⟩
        | succ i1 =>
          cases i1 with
          | zero =>
            simp only [List.getElem?_cons_succ, List.getElem?_cons_zero,
              Option.some.injEq] at hp hvi
            subst hp
            subst hvi
            exact ⟨2, rfl⟩
          | succ i2 => simp at hvi)⟩

/-! ## C9: bad element selectors -/

theorem sfind_append {c : Char} : ∀ (idx sub : List Char), c ∉ idx →
    sfind c (idx ++ c :: sub) = some idx.length
  | [], sub, _ => by simp [sfind]
  | x :: xs, sub, h => by
    simp only [List.mem_cons, not_or] at h
    have hx : ¬ x = c := fun e => h.1 e.symm
    simp [sfind, hx, sfind_append xs sub h.2]

theorem sfind_none {c : Char} : ∀ (s : List Char), c ∉ s → sfind c s = none
  | [], _ => rfl
  | x :: xs, h => by
    simp only [List.mem_cons, not_or] at h
    have hx : ¬ x = c := fun e => h.1 e.symm
    simp [sfind, hx, sfind_none xs h.2]

theorem seq_elem_branch {T : Type} (N : TypeNames) (S : SeqDest T) (s : List T) (args : Json)
    (r1 : List Char) :
    (RESTProcessSequence N S).process ("@elem/".toList ++ r1) args s
      = match sfind '/' r1 with
        | none => (.ok .null, s)
        | some n =>
          match stoi (r1.take n) with
          | .error e => (.error e, s)
          | .ok v =>
            match s.get? (toSizeT v) with
            | some elem => processElem N S (r1.drop (n + 1)) args s (toSizeT v) elem
            | none => (.ok .null, s) := by
  have h1 : ("@elem/".toList ++ r1).isEmpty = false := rfl
  have h2 : startsWith ("@elem/".toList ++ r1) "@elem/".toList = true := by
    simp [startsWith]
  have h3 : ("@elem/".toList ++ r1).drop 6 = r1 := rfl
  simp only [RESTProcessSequence, h1, h2, h3, if_true, Bool.false_eq_true, if_false]

/-- Counterexample to C9: the index text "abc" is not a non-negative integer, and the
handler does not reply JSON null: the exception of `stoi` escapes. -/
theorem C9_bad_index_counterexample :
    (RESTProcessSequence cppTypeNames intSeqDest).process "@elem/abc/".toList .null
        [10, 20, 30]
      = (.error "stoi", [10, 20, 30]) ∧
    (RESTProcessSequence cppTypeNames intSeqDest).process "@elem/abc/".toList .null
        [10, 20, 30]
      ≠ (.ok .null, [10, 20, 30]) := by
  refine ⟨rfl, ?_⟩
  intro h
  have h2 : ((.error "stoi", [10, 20, 30]) : Except String Json × List Int)
      = (.ok .null, [10, 20, 30]) := h
  simp at h2

/-- Claim C9 as amended. For every sequence and every remainder "@elem/" followed by `r1`:
the handler returns JSON null, raises no error and leaves the sequence unchanged when `r1`
holds no '/' (the sub-path is missing), and when `r1` is an index text that `stoi` reads as
a number, a '/' and a sub-path, with the number (as a `size_t`) at least the current size
or the sub-path not empty (unknown); when `stoi` cannot read the index text, its exception
escapes and the sequence is unchanged. -/
theorem C9_bad_selector {T : Type} (N : TypeNames) (S : SeqDest T) (s : List T) (args : Json)
    (r1 : List Char) :
    (('/' ∉ r1 ∨ ∃ idx sub v, r1 = idx ++ '/' :: sub ∧ '/' ∉ idx ∧ stoi idx = .ok v ∧
        (s.length ≤ toSizeT v ∨ sub ≠ [])) →
      (RESTProcessSequence N S).process ("@elem/".toList ++ r1) args s = (.ok .null, s)) ∧
    (∀ idx sub e, r1 = idx ++ '/' :: sub → '/' ∉ idx → stoi idx = .error e →
      (RESTProcessSequence N S).process ("@elem/".toList ++ r1) args s = (.error e, s)) := by
  rw [seq_elem_branch]
  constructor
  · intro h
    rcases h with h | ⟨idx, sub, v, hr, hidx, hv, hbad⟩
    · rw [sfind_none r1 h]
    · subst hr
      rw [sfind_append idx sub hidx]
      have htake : (idx ++ '/' :: sub).take idx.length = idx := by simp
      have hdrop : (idx ++ '/' :: sub).drop (idx.length + 1) = sub := by
        rw [← List.drop_drop]
        simp
      simp only [htake, hdrop, hv]
      cases hg : s.get? (toSizeT v) with
      | none => rfl
      | some elem =>
        rcases hbad with hb | hb
        · exfalso
          have : s.get? (toSizeT v) = none := by
            simp [List.get?_eq_getElem?]; omega
          rw [this] at hg
          simp at hg
        · simp only [processElem, RESTProcess, RESTProcess_t.add, RESTProcess_t.emplace,
            RESTProcess_t.find, List.map_nil, List.nil_append]
          have : ¬ ([] : List Char) = sub := fun e => hb e.symm
          simp [this]
  · intro idx sub e hr hidx he
    subst hr
    rw [sfind_append idx sub hidx]
    have htake : (idx ++ '/' :: sub).take idx.length = idx := by simp
    simp only [htake, he]

/-- Witness for C9 as amended: index 5 on a sequence of three elements. -/
theorem C9_bad_selector_witness :
    (RESTProcessSequence cppTypeNames intSeqDest).process
        ("@elem/".toList ++ "5/".toList) .null [10, 20, 30]
      = (.ok .null, [10, 20, 30]) :=
  (C9_bad_selector cppTypeNames intSeqDest [10, 20, 30] .null "5/".toList).1
    (Or.inr ⟨"5".toList, [], 5, rfl, by decide, rfl, Or.inl (by decide)⟩)

/-! ## C10: duplicate keys -/

theorem mapCount_mapAssign {κ β : Type} [DecidableEq κ] [LT κ]
    [DecidableRel (fun a b : κ => a < b)] (key : κ) (v : β) (k1 : κ) :
    ∀ (m : List (κ × β)), mapCount (mapAssign m key v) k1 = true ↔
      (k1 = key ∨ mapCount m k1 = true)
  | [] => by
    simp only [mapAssign, mapCount, mapFind?]
    by_cases h : key = k1
    · simp [h]
    · have : ¬ k1 = key := fun e => h e.symm
      simp [h, this]
  | (k, w) :: rest => by
    have ih := mapCount_mapAssign key v k1 rest
    simp only [mapCount] at ih ⊢
    simp only [mapAssign]
    by_cases h1 : k = key
    · subst h1
      simp only [if_true, mapFind?]
      by_cases h2 : k = k1
      · simp [h2]
      · have : ¬ k1 = k := fun e => h2 e.symm
        simp [h2, this]
    · simp only [h1, if_false]
      by_cases h3 : key < k
      · simp only [h3, if_true, mapFind?]
        by_cases h2 : key = k1
        · simp [h2]
        · have : ¬ k1 = key := fun e => h2 e.symm
          simp [h2, this]
      · simp only [h3, if_false, mapFind?]
        by_cases h2 : k = k1
        · simp [h2]
        · simp only [h2, if_false]
          exact ih

theorem remDims_le (l : List Nat) : ∀ (k i : Nat), remDims l i k ≤ l.length := by
  have h1 : ∀ (k i : Nat), remDims l i k
      = ((List.range' i k).filter (fun j => decide (j ∈ l))).length := by
    intro k
    induction k with
    | zero => intro i; simp [remDims]
    | succ k ih =>
      intro i
      simp only [remDims, List.range'_succ, ih (i + 1)]
      by_cases h : i ∈ l
      · simp [h, List.filter_cons]; omega
      · simp [h, List.filter_cons]
  intro k i
  rw [h1]
  have hnd : ((List.range' i k).filter (fun j => decide (j ∈ l))).Nodup :=
    (List.nodup_range' i k).filter _
  have hsub : ((List.range' i k).filter (fun j => decide (j ∈ l))) ⊆ l := by
    intro x hx
    simpa using (List.mem_filter.mp hx).2
  exact (List.subperm_of_subset hnd hsub).length_le

theorem axisLoop_ok {R : Type} (spec : DataSpec R) :
    ∀ (fields : List (List Char)) (i dim : Nat) (key : Key) (st : LoadState R),
      dim + remDims spec.dimensionCols i (spec.nColAxes - i) ≤ st.dimLabels.length →
      ∃ st1, axisLoop spec i dim fields key st
          = .ok (key ++ axisTupleFrom spec i fields, fields.drop (spec.nColAxes - i), st1) ∧
        st1.tmpData = st.tmpData ∧ st1.tabularFormat = st.tabularFormat ∧
        st1.horizontalLabels = st.horizontalLabels ∧
        st1.dimLabels.length = st.dimLabels.length
  | [], i, dim, key, st, _ => ⟨st, by simp [axisLoop, axisTupleFrom], rfl, rfl, rfl, rfl⟩
  | f :: fs, i, dim, key, st, hinv => by
    by_cases hi : i < spec.nColAxes
    · obtain ⟨k, hk⟩ : ∃ k, spec.nColAxes - i = k + 1 := ⟨spec.nColAxes - i - 1, by omega⟩
      have hk1 : spec.nColAxes - (i + 1) = k := by omega
      have htuple : axisTupleFrom spec i (f :: fs)
          = (if i ∈ spec.dimensionCols then [f] else []) ++ axisTupleFrom spec (i + 1) fs := by
        simp only [axisTupleFrom, hk, hk1, List.take_succ_cons, List.enumFrom_cons,
          List.filter_cons]
        by_cases hm : i ∈ spec.dimensionCols <;> simp [hm]
      rw [hk, remDims] at hinv
      by_cases hm : i ∈ spec.dimensionCols
      · simp only [hm, if_true] at hinv
        have hdim : dim < st.dimLabels.length := by omega
        obtain ⟨m, hmget⟩ : ∃ m, st.dimLabels.get? dim = some m :=
          ⟨st.dimLabels[dim], by simp [List.get?_eq_getElem?, List.getElem?_eq_getElem hdim]⟩
        simp only [axisLoop, hi, hm, if_true, hmget]
        have := axisLoop_ok spec fs (i + 1) (dim + 1) (key ++ [f])
          { st with
            xVector :=
              if (mapEmplace m f m.length).2 then
                modifyAt (fun x => { x with labels := x.labels ++ [f] }) dim
                  (if st.xVector.length ≤ dim then
                    st.xVector ++ [{ name := "?".toList, labels := [] }]
                  else st.xVector)
              else
                (if st.xVector.length ≤ dim then
                    st.xVector ++ [{ name := "?".toList, labels := [] }]
                  else st.xVector)
            dimLabels := st.dimLabels.set dim (mapEmplace m f m.length).1 }
          (by simp only [List.length_set, hk1]; omega)
        obtain ⟨st1, h1, h2, h3, h4, h5⟩ := this
        refine ⟨st1, ?_, h2, h3, h4, by simpa using h5⟩
        rw [h1, htuple, hk, hk1]
        simp [hm]
      · simp only [hm, if_false, Nat.zero_add] at hinv
        simp only [axisLoop, hi, hm, if_true, if_false]
        obtain ⟨st1, h1, h2, h3, h4, h5⟩ := axisLoop_ok spec fs (i + 1) dim key st
          (by rw [hk1]; exact hinv)
        refine ⟨st1, ?_, h2, h3, h4, h5⟩
        rw [h1, htuple, hk, hk1]
        simp [hm]
    · have hz : spec.nColAxes - i = 0 := by omega
      exact ⟨st, by simp [axisLoop, hi, axisTupleFrom, hz], rfl, rfl, rfl, rfl⟩


theorem cellKey_congr {R : Type} (st st1 : LoadState R) (key : Key) (col : Nat)
    (h1 : st1.tabularFormat = st.tabularFormat)
    (h2 : st1.horizontalLabels = st.horizontalLabels) :
    cellKey st1 key col = cellKey st key col := by
  simp [cellKey, h1, h2]

theorem cellKey_isSome {R : Type} (st : LoadState R) (key : Key) (col : Nat)
    (h : st.tabularFormat = true → col < st.horizontalLabels.length) :
    ∃ k, cellKey st key col = some k := by
  unfold cellKey
  by_cases ht : st.tabularFormat = true
  · have hlt := h ht
    simp only [ht, if_true]
    exact ⟨key ++ [st.horizontalLabels[col]], by
      simp [List.get?_eq_getElem?, List.getElem?_eq_getElem hlt]⟩
  · simp [ht]

theorem cellLoop_dup {R : Type} (spec : DataSpec R) (stod : List Char → Option R)
    (col : Nat) (f : List Char) (fs : List (List Char)) (key k : Key) (st : LoadState R)
    (hk : cellKey st key col = some k) (hc : mapCount st.tmpData k = true) :
    cellLoop spec stod col (f :: fs) key st = .error .duplicateKey := by
  simp [cellLoop, hk, hc]

theorem cellLoop_spec {R : Type} (spec : DataSpec R) (stod : List Char → Option R) :
    ∀ (fields : List (List Char)) (col : Nat) (key : Key) (st : LoadState R),
      (st.tabularFormat = true → col + fields.length ≤ st.horizontalLabels.length) →
      cellLoop spec stod col fields key st = .error .duplicateKey ∨
      ∃ st1, cellLoop spec stod col fields key st = .ok st1 ∧
        st1.tabularFormat = st.tabularFormat ∧
        st1.horizontalLabels = st.horizontalLabels ∧
        st1.dimLabels = st.dimLabels ∧
        (∀ k, mapCount st.tmpData k = true → mapCount st1.tmpData k = true) ∧
        (∀ k, fields ≠ [] → cellKey st key col = some k → mapCount st1.tmpData k = true)
  | [], col, key, st, _ =>
    Or.inr ⟨st, by simp [cellLoop], rfl, rfl, rfl, fun _ h => h, fun _ h => absurd rfl h⟩
  | f :: fs, col, key, st, hw => by
    obtain ⟨key1, hkey1⟩ := cellKey_isSome st key col (by
      intro ht
      have := hw ht
      simp at this
      omega)
    by_cases hc : mapCount st.tmpData key1 = true
    · left
      exact cellLoop_dup spec stod col f fs key key1 st hkey1 hc
    · have hstep : cellLoop spec stod col (f :: fs) key st
          = cellLoop spec stod (col + 1) fs key
              { st with tmpData :=
                  mapAssign st.tmpData key1 ((stod f).getD spec.missingValue) } := by
        simp [cellLoop, hkey1, hc]
      rw [hstep]
      rcases cellLoop_spec spec stod fs (col + 1) key
          { st with tmpData := mapAssign st.tmpData key1 ((stod f).getD spec.missingValue) }
          (by
            intro ht
            have := hw ht
            simp at this
            simp only
            omega) with h | ⟨st1, h1, h2, h3, h4, h5, h6⟩
      · left; exact h
      · right
        refine ⟨st1, h1, h2, h3, h4, ?_, ?_⟩
        · intro k hk
          exact h5 k ((mapCount_mapAssign key1 _ k st.tmpData).mpr (Or.inr hk))
        · intro k _ hk
          rw [hkey1] at hk
          simp only [Option.some.injEq] at hk
          subst hk
          exact h5 key1 ((mapCount_mapAssign key1 _ key1 st.tmpData).mpr (Or.inl rfl))

theorem dataRow_spec {R : Type} (spec : DataSpec R) (stod : List Char → Option R)
    (tok : List (List Char)) (st : LoadState R)
    (hinv : remDims spec.dimensionCols 0 spec.nColAxes ≤ st.dimLabels.length)
    (hlen : spec.nColAxes < tok.length)
    (hw : st.tabularFormat = true → tok.length ≤ spec.nColAxes + st.horizontalLabels.length) :
    ∃ k, cellKey st (axisTuple spec tok) 0 = some k ∧
      (mapCount st.tmpData k = true → dataRow spec stod tok st = .error .duplicateKey) ∧
      (dataRow spec stod tok st = .error .duplicateKey ∨
        ∃ st1, dataRow spec stod tok st = .ok st1 ∧
          st1.tabularFormat = st.tabularFormat ∧
          st1.horizontalLabels = st.horizontalLabels ∧
          st1.dimLabels.length = st.dimLabels.length ∧
          (∀ k1, mapCount st.tmpData k1 = true → mapCount st1.tmpData k1 = true) ∧
          mapCount st1.tmpData k = true) := by
  obtain ⟨st0, ha, h1, h2, h3, h4⟩ := axisLoop_ok spec tok 0 0 [] st (by simpa using hinv)
  obtain ⟨k, hk⟩ := cellKey_isSome st (axisTuple spec tok) 0 (by
    intro ht
    have := hw ht
    omega)
  have hk0 : cellKey st0 (axisTuple spec tok) 0 = some k := by
    rw [cellKey_congr st st0 _ _ h2 h3]; exact hk
  obtain ⟨f, fs, hf⟩ : ∃ f fs, tok.drop spec.nColAxes = f :: fs := by
    cases hd : tok.drop spec.nColAxes with
    | nil =>
      have := congrArg List.length hd
      simp at this
      omega
    | cons f fs => exact ⟨f, fs, rfl⟩
  have hrow : dataRow spec stod tok st
      = cellLoop spec stod 0 (f :: fs) (axisTuple spec tok) st0 := by
    unfold dataRow
    rw [ha]
    simp [hf, axisTuple]
  refine ⟨k, hk, ?_, ?_⟩
  · intro hc
    rw [hrow]
    exact cellLoop_dup spec stod 0 f fs _ k st0 hk0 (by rw [h1]; exact hc)
  · rw [hrow]
    rcases cellLoop_spec spec stod (f :: fs) 0 (axisTuple spec tok) st0 (by
        intro ht
        rw [h2] at ht
        have := hw ht
        have hl : (f :: fs).length = tok.length - spec.nColAxes := by
          rw [← hf]; simp
        rw [h3, hl]
        omega) with h | ⟨st1, e1, e2, e3, e4, e5, e6⟩
    · left; exact h
    · right
      refine ⟨st1, e1, by rw [e2, h2], by rw [e3, h3], by rw [e4, h4], ?_, ?_⟩
      · intro k1 hk1
        exact e5 k1 (by rw [h1]; exact hk1)
      · exact e6 k (by simp) hk0


theorem rowLoop_cons_data {R : Type} (spec : DataSpec R) (stod : List Char → Option R)
    (row : Nat) (tok : List (List Char)) (rest : List (List (List Char))) (st : LoadState R)
    (hph : spec.columnar = true ∨ spec.headerRow < row) :
    rowLoop spec stod row (tok :: rest) st
      = if spec.nRowAxes ≤ row then
          (match dataRow spec stod tok st with
           | .error e => .error e
           | .ok st1 => rowLoop spec stod (row + 1) rest st1)
        else rowLoop spec stod (row + 1) rest st := by
  have hc : ¬ (row = spec.headerRow ∧ spec.columnar = false) := by
    rintro ⟨h1, h2⟩
    rcases hph with h | h
    · rw [h] at h2; exact absurd h2 (by simp)
    · omega
  simp only [rowLoop, hc, if_false]

theorem isDataRow_data {R : Type} (spec : DataSpec R) (row : Nat)
    (hph : spec.columnar = true ∨ spec.headerRow < row) :
    isDataRow spec row = true ↔ spec.nRowAxes ≤ row := by
  have hc : ¬ (row = spec.headerRow ∧ spec.columnar = false) := by
    rintro ⟨h1, h2⟩
    rcases hph with h | h
    · rw [h] at h2; exact absurd h2 (by simp)
    · omega
  simp [isDataRow, hc]

theorem rowLoop_dup_seen {R : Type} (spec : DataSpec R) (stod : List Char → Option R) :
    ∀ (rows : List (List (List Char))) (row : Nat) (st : LoadState R),
      (spec.columnar = true ∨ spec.headerRow < row) →
      remDims spec.dimensionCols 0 spec.nColAxes ≤ st.dimLabels.length →
      (∀ (j : Nat) (tok : List (List Char)), rows[j]? = some tok →
        isDataRow spec (row + j) = true →
        spec.nColAxes < tok.length ∧
        (st.tabularFormat = true →
          tok.length ≤ spec.nColAxes + st.horizontalLabels.length)) →
      (∃ (j : Nat) (tok : List (List Char)) (k : Key), rows[j]? = some tok ∧
        isDataRow spec (row + j) = true ∧
        cellKey st (axisTuple spec tok) 0 = some k ∧ mapCount st.tmpData k = true) →
      rowLoop spec stod row rows st = .error .duplicateKey
  | [], row, st, _, _, _, ⟨j, tok, k, h, _⟩ => by simp at h
  | tok0 :: rest, row, st, hph, hinv, hrows, ⟨j, tok, k, hj, hd, hk, hc⟩ => by
    rw [rowLoop_cons_data spec stod row tok0 rest st hph]
    have hph1 : spec.columnar = true ∨ spec.headerRow < row + 1 := by
      rcases hph with h | h
      · exact Or.inl h
      · exact Or.inr (by omega)
    have hrows1 : ∀ (st1 : LoadState R), st1.tabularFormat = st.tabularFormat →
        st1.horizontalLabels = st.horizontalLabels →
        ∀ (j : Nat) (tok : List (List Char)), rest[j]? = some tok →
          isDataRow spec (row + 1 + j) = true →
          spec.nColAxes < tok.length ∧
          (st1.tabularFormat = true →
            tok.length ≤ spec.nColAxes + st1.horizontalLabels.length) := by
      intro st1 e1 e2 j1 tok1 h1 h2
      rw [e1, e2]
      exact hrows (j1 + 1) tok1 (by simpa using h1) (by
        have : row + (j1 + 1) = row + 1 + j1 := by omega
        rw [this]; exact h2)
    by_cases hrow : spec.nRowAxes ≤ row
    · simp only [hrow, if_true]
      obtain ⟨hl0, hw0⟩ := hrows 0 tok0 (by simp)
        (by simpa using (isDataRow_data spec row hph).mpr hrow)
      obtain ⟨k0, hk0, hdup0, hres0⟩ := dataRow_spec spec stod tok0 st hinv hl0 hw0
      cases j with
      | zero =>
        simp at hj
        subst hj
        rw [hk0] at hk
        simp only [Option.some.injEq] at hk
        subst hk
        rw [hdup0 hc]
      | succ j1 =>
        rcases hres0 with h | ⟨st1, e0, e1, e2, e3, e4, e5⟩
        · rw [h]
        · rw [e0]
          simp only []
          exact rowLoop_dup_seen spec stod rest (row + 1) st1 hph1 (by rw [e3]; exact hinv)
            (hrows1 st1 e1 e2)
            ⟨j1, tok, k, by simpa using hj, by
              have : row + 1 + j1 = row + (j1 + 1) := by omega
              rw [this]; exact hd, by
              rw [cellKey_congr st st1 _ _ e1 e2]; exact hk, e4 k hc⟩
    · simp only [hrow, if_false]
      cases j with
      | zero =>
        exfalso
        have := (isDataRow_data spec row hph).mp (by simpa using hd)
        exact hrow this
      | succ j1 =>
        exact rowLoop_dup_seen spec stod rest (row + 1) st hph1 hinv (hrows1 st rfl rfl)
          ⟨j1, tok, k, by simpa using hj, by
            have : row + 1 + j1 = row + (j1 + 1) := by omega
            rw [this]; exact hd, hk, hc⟩

theorem rowLoop_dup_pair {R : Type} (spec : DataSpec R) (stod : List Char → Option R) :
    ∀ (rows : List (List (List Char))) (row : Nat) (st : LoadState R),
      (spec.columnar = true ∨ spec.headerRow < row) →
      remDims spec.dimensionCols 0 spec.nColAxes ≤ st.dimLabels.length →
      (∀ (j : Nat) (tok : List (List Char)), rows[j]? = some tok →
        isDataRow spec (row + j) = true →
        spec.nColAxes < tok.length ∧
        (st.tabularFormat = true →
          tok.length ≤ spec.nColAxes + st.horizontalLabels.length)) →
      (∃ (j1 j2 : Nat) (t1 t2 : List (List Char)), j1 < j2 ∧ rows[j1]? = some t1 ∧
        rows[j2]? = some t2 ∧ isDataRow spec (row + j1) = true ∧
        isDataRow spec (row + j2) = true ∧ axisTuple spec t1 = axisTuple spec t2) →
      rowLoop spec stod row rows st = .error .duplicateKey
  | [], row, st, _, _, _, ⟨j1, j2, t1, t2, _, h, _⟩ => by simp at h
  | tok0 :: rest, row, st, hph, hinv, hrows, ⟨j1, j2, t1, t2, hlt, h1, h2, hd1, hd2, heq⟩ => by
    rw [rowLoop_cons_data spec stod row tok0 rest st hph]
    have hph1 : spec.columnar = true ∨ spec.headerRow < row + 1 := by
      rcases hph with h | h
      · exact Or.inl h
      · exact Or.inr (by omega)
    have hrows1 : ∀ (st1 : LoadState R), st1.tabularFormat = st.tabularFormat →
        st1.horizontalLabels = st.horizontalLabels →
        ∀ (j : Nat) (tok : List (List Char)), rest[j]? = some tok →
          isDataRow spec (row + 1 + j) = true →
          spec.nColAxes < tok.length ∧
          (st1.tabularFormat = true →
            tok.length ≤ spec.nColAxes + st1.horizontalLabels.length) := by
      intro st1 e1 e2 j tok h3 h4
      rw [e1, e2]
      exact hrows (j + 1) tok (by simpa using h3) (by
        have : row + (j + 1) = row + 1 + j := by omega
        rw [this]; exact h4)
    obtain ⟨j3, rfl⟩ : ∃ j3, j2 = j3 + 1 := ⟨j2 - 1, by omega⟩
    have h2r : rest[j3]? = some t2 := by simpa using h2
    have hd2r : isDataRow spec (row + 1 + j3) = true := by
      have : row + 1 + j3 = row + (j3 + 1) := by omega
      rw [this]; exact hd2
    by_cases hrow : spec.nRowAxes ≤ row
    · simp only [hrow, if_true]
      obtain ⟨hl0, hw0⟩ := hrows 0 tok0 (by simp)
        (by simpa using (isDataRow_data spec row hph).mpr hrow)
      obtain ⟨k0, hk0, hdup0, hres0⟩ := dataRow_spec spec stod tok0 st hinv hl0 hw0
      rcases hres0 with h | ⟨st1, e0, e1, e2, e3, e4, e5⟩
      · rw [h]
      · rw [e0]
        simp only []
        cases j1 with
        | zero =>
          simp at h1
          subst h1
          exact rowLoop_dup_seen spec stod rest (row + 1) st1 hph1 (by rw [e3]; exact hinv)
            (hrows1 st1 e1 e2)
            ⟨j3, t2, k0, h2r, hd2r, by
              rw [cellKey_congr st st1 _ _ e1 e2, ← heq]; exact hk0, e5⟩
        | succ j4 =>
          exact rowLoop_dup_pair spec stod rest (row + 1) st1 hph1 (by rw [e3]; exact hinv)
            (hrows1 st1 e1 e2)
            ⟨j4, j3, t1, t2, by omega, by simpa using h1, h2r, by
              have : row + 1 + j4 = row + (j4 + 1) := by omega
              rw [this]; exact hd1, hd2r, heq⟩
    · simp only [hrow, if_false]
      cases j1 with
      | zero =>
        exfalso
        have := (isDataRow_data spec row hph).mp (by simpa using hd1)
        exact hrow this
      | succ j4 =>
        exact rowLoop_dup_pair spec stod rest (row + 1) st hph1 hinv (hrows1 st rfl rfl)
          ⟨j4, j3, t1, t2, by omega, by simpa using h1, h2r, by
            have : row + 1 + j4 = row + (j4 + 1) := by omega
            rw [this]; exact hd1, hd2r, heq⟩

theorem rowLoop_header {R : Type} (spec : DataSpec R) (stod : List Char → Option R)
    (hnc : spec.columnar = false) (hhdr : spec.headerRow ≤ spec.nRowAxes) :
    ∀ (rows : List (List (List Char))) (row : Nat) (st : LoadState R),
      row ≤ spec.headerRow →
      rowLoop spec stod row rows st
        = match rows[spec.headerRow - row]? with
          | none => .ok st
          | some tok =>
            rowLoop spec stod (spec.headerRow + 1) (rows.drop (spec.headerRow - row + 1))
              (processHeader spec tok st)
  | [], row, st, _ => by simp [rowLoop]
  | tok :: rest, row, st, hle => by
    by_cases he : row = spec.headerRow
    · subst he
      simp [rowLoop, hnc]
    · have hlt : row < spec.headerRow := by omega
      have hna : ¬ spec.nRowAxes ≤ row := by omega
      obtain ⟨d, hd⟩ : ∃ d, spec.headerRow - row = d + 1 := ⟨spec.headerRow - row - 1, by omega⟩
      have hd1 : spec.headerRow - (row + 1) = d := by omega
      have := rowLoop_header spec stod hnc hhdr rest (row + 1) st (by omega)
      simp only [rowLoop, he, hna, false_and, if_false]
      rw [this, hd, hd1]
      simp


theorem isDataRow_after_header {R : Type} (spec : DataSpec R) (r : Nat)
    (hnc : spec.columnar = false) (hhdr : spec.headerRow ≤ spec.nRowAxes)
    (hd : isDataRow spec r = true) : spec.headerRow < r := by
  simp only [isDataRow, decide_eq_true_eq, hnc, and_true] at hd
  omega

theorem rowLoop_duplicate {R : Type} (stod : List Char → Option R)
    (input : List (List (List Char))) (spec : DataSpec R)
    (hhdr : spec.headerRow ≤ spec.nRowAxes)
    (hcells : ∀ (r : Nat) (tok : List (List Char)), input[r]? = some tok →
      isDataRow spec r = true → spec.nColAxes < tok.length)
    (hwidth : ∀ hl, headerLabels spec input = some hl →
      ∀ (r : Nat) (tok : List (List Char)), input[r]? = some tok →
        isDataRow spec r = true → tok.length ≤ spec.nColAxes + hl.length)
    (hdup : ∃ (r1 r2 : Nat) (t1 t2 : List (List Char)), r1 < r2 ∧ input[r1]? = some t1 ∧
      input[r2]? = some t2 ∧ isDataRow spec r1 = true ∧ isDataRow spec r2 = true ∧
      axisTuple spec t1 = axisTuple spec t2) :
    rowLoop spec stod 0 input (initState spec) = .error .duplicateKey := by
  have hinv0 : remDims spec.dimensionCols 0 spec.nColAxes ≤ (initState spec).dimLabels.length := by
    simp only [initState, List.length_replicate]
    exact remDims_le _ _ _
  cases hcol : spec.columnar with
  | true =>
    apply rowLoop_dup_pair spec stod input 0 (initState spec) (Or.inl hcol) hinv0
    · intro j tok h1 h2
      rw [Nat.zero_add] at h2
      exact ⟨hcells j tok h1 h2, fun ht => by simp [initState] at ht⟩
    · obtain ⟨r1, r2, t1, t2, h⟩ := hdup
      exact ⟨r1, r2, t1, t2, by simpa using h⟩
  | false =>
    obtain ⟨r1, r2, t1, t2, hlt, h1, h2, hd1, hd2, heq⟩ := hdup
    have hr1 := isDataRow_after_header spec r1 hcol hhdr hd1
    have hr2 := isDataRow_after_header spec r2 hcol hhdr hd2
    have hlen1 : r1 < input.length := by
      by_contra hc
      have : input[r1]? = none := by simp; omega
      rw [this] at h1
      simp at h1
    have hH : spec.headerRow < input.length := by omega
    have hget : input[spec.headerRow]? = some input[spec.headerRow] :=
      List.getElem?_eq_getElem hH
    rw [rowLoop_header spec stod hcol hhdr input 0 (initState spec) (Nat.zero_le _)]
    simp only [Nat.sub_zero, hget]
    have hinv1 : remDims spec.dimensionCols 0 spec.nColAxes
        ≤ (processHeader spec input[spec.headerRow] (initState spec)).dimLabels.length := by
      unfold processHeader
      split_ifs
      · simp only [List.length_append, List.length_singleton]
        omega
      · exact hinv0
    apply rowLoop_dup_pair spec stod _ (spec.headerRow + 1) _ (Or.inr (by omega)) hinv1
    · intro j tok h3 h4
      have h5 : input[spec.headerRow + 1 + j]? = some tok := by
        rw [List.getElem?_drop] at h3
        exact h3
      refine ⟨hcells _ tok h5 h4, ?_⟩
      intro ht
      have hhl : headerLabels spec input
          = some (processHeader spec input[spec.headerRow]
              (initState spec)).horizontalLabels := by
        unfold processHeader at ht ⊢
        unfold headerLabels
        rw [List.get?_eq_getElem?, hget]
        by_cases hc : spec.nColAxes + 1 < input[spec.headerRow].length
        · simp [hc, hcol]
        · simp [hc, initState] at ht
      exact hwidth _ hhl _ tok h5 h4
    · refine ⟨r1 - (spec.headerRow + 1), r2 - (spec.headerRow + 1), t1, t2, by omega, ?_, ?_,
        ?_, ?_, heq⟩
      · rw [List.getElem?_drop]
        have : spec.headerRow + 1 + (r1 - (spec.headerRow + 1)) = r1 := by omega
        rw [this]; exact h1
      · rw [List.getElem?_drop]
        have : spec.headerRow + 1 + (r2 - (spec.headerRow + 1)) = r2 := by omega
        rw [this]; exact h2
      · have : spec.headerRow + 1 + (r1 - (spec.headerRow + 1)) = r1 := by omega
        rw [this]; exact hd1
      · have : spec.headerRow + 1 + (r2 - (spec.headerRow + 1)) = r2 := by omega
        rw [this]; exact hd2

/-- Claim C10. For every DataSpec with `headerRow <= nRowAxes` and every input in which
two data rows carry the same axis tuple, every data row having at least one data cell (and,
in a tabular load, no more data cells than the header row has labels), the load ends with
the exception whose text is "Duplicate key" and the destination is exactly as it was before
the call. -/
theorem C10_duplicate_key {R : Type} (stod : List Char → Option R) (v : VariableValue R)
    (input : List (List (List Char))) (spec : DataSpec R)
    (hhdr : spec.headerRow ≤ spec.nRowAxes)
    (hcells : ∀ (r : Nat) (tok : List (List Char)), input[r]? = some tok →
      isDataRow spec r = true → spec.nColAxes < tok.length)
    (hwidth : ∀ hl, headerLabels spec input = some hl →
      ∀ (r : Nat) (tok : List (List Char)), input[r]? = some tok →
        isDataRow spec r = true → tok.length ≤ spec.nColAxes + hl.length)
    (hdup : ∃ (r1 r2 : Nat) (t1 t2 : List (List Char)), r1 < r2 ∧ input[r1]? = some t1 ∧
      input[r2]? = some t2 ∧ isDataRow spec r1 = true ∧ isDataRow spec r2 = true ∧
      axisTuple spec t1 = axisTuple spec t2) :
    loadValueFromCSVFile stod v input spec = (.error .duplicateKey, v) ∧
    LoadError.what .duplicateKey = "Duplicate key" := by
  refine ⟨?_, rfl⟩
  unfold loadValueFromCSVFile
  rw [rowLoop_duplicate stod input spec hhdr hcells hwidth hdup]

/-- Witness for C10: a header row and two data rows that both start with NSW. -/
theorem C10_duplicate_key_witness :
    loadValueFromCSVFile stodInt dupValue dupInput dupSpec = (.error .duplicateKey, dupValue) ∧
    LoadError.what .duplicateKey = "Duplicate key" :=
  C10_duplicate_key stodInt dupValue dupInput dupSpec (by decide)
    (by
      intro r tok h hd
      match r, h, hd with
      | 0, _, hd => exact absurd hd (by decide)
      | 1, h, _ =>
        simp only [dupInput, List.getElem?_cons_succ, List.getElem?_cons_zero,
          Option.some.injEq] at h
        subst h
        decide
      | 2, h, _ =>
        simp only [dupInput, List.getElem?_cons_succ, List.getElem?_cons_zero,
          Option.some.injEq] at h
        subst h
        decide
      | r + 3, h, _ => simp [dupInput] at h)
    (by
      intro hl hhl r tok h hd
      have e : headerLabels dupSpec dupInput = some ["q1".toList, "q2".toList] := rfl
      rw [e] at hhl
      simp only [Option.some.injEq] at hhl
      subst hhl
      match r, h, hd with
      | 0, _, hd => exact absurd hd (by decide)
      | 1, h, _ =>
        simp only [dupInput, List.getElem?_cons_succ, List.getElem?_cons_zero,
          Option.some.injEq] at h
        subst h
        decide
      | 2, h, _ =>
        simp only [dupInput, List.getElem?_cons_succ, List.getElem?_cons_zero,
          Option.some.injEq] at h
        subst h
        decide
      | r + 3, h, _ => simp [dupInput] at h)
    ⟨1, 2, _, _, by decide, rfl, rfl, by decide, by decide, by decide⟩

/-! ## Maps and label positions -/

theorem mapFind?_mapAssign {κ β : Type} [DecidableEq κ] [LT κ]
    [DecidableRel (fun a b : κ => a < b)] (key : κ) (v : β) (k1 : κ) :
    ∀ (m : List (κ × β)), mapFind? (mapAssign m key v) k1
      = if k1 = key then some v else mapFind? m k1
  | [] => by
    simp only [mapAssign, mapFind?]
    by_cases h : key = k1
    · simp [h]
    · have : ¬ k1 = key := fun e => h e.symm
      simp [h, this]
  | (k, w) :: rest => by
    have ih := mapFind?_mapAssign key v k1 rest
    simp only [mapAssign]
    by_cases h1 : k = key
    · subst h1
      simp only [if_true, mapFind?]
      by_cases h2 : k = k1
      · simp [h2]
      · have : ¬ k1 = k := fun e => h2 e.symm
        simp [h2, this]
    · simp only [h1, if_false]
      by_cases h3 : key < k
      · simp only [h3, if_true, mapFind?]
        by_cases h2 : key = k1
        · simp [h2]
        · have : ¬ k1 = key := fun e => h2 e.symm
          simp [h2, this]
      · simp only [h3, if_false, mapFind?]
        by_cases h2 : k = k1
        · have : ¬ k1 = key := fun e => h1 (h2.trans e)
          simp [h2, this]
        · simp only [h2, if_false]
          exact ih

theorem mapCount_iff_mem {κ β : Type} [DecidableEq κ] (k1 : κ) :
    ∀ (m : List (κ × β)), mapCount m k1 = true ↔ k1 ∈ m.map Prod.fst
  | [] => by simp [mapCount, mapFind?]
  | (k, w) :: rest => by
    have ih := mapCount_iff_mem k1 rest
    simp only [mapCount] at ih ⊢
    simp only [mapFind?, List.map_cons, List.mem_cons]
    by_cases h : k = k1
    · simp [h]
    · have : ¬ k1 = k := fun e => h e.symm
      simp only [h, if_false, this, false_or]
      exact ih

theorem mapAssign_length {κ β : Type} [DecidableEq κ] [LT κ]
    [DecidableRel (fun a b : κ => a < b)] (key : κ) (v : β) :
    ∀ (m : List (κ × β)), mapCount m key = false → (mapAssign m key v).length = m.length + 1
  | [], _ => rfl
  | (k, w) :: rest, h => by
    have hk : ¬ k = key := by
      intro e
      simp [mapCount, mapFind?, e] at h
    have hrest : mapCount rest key = false := by
      simpa [mapCount, mapFind?, hk] using h
    simp only [mapAssign, hk, if_false]
    by_cases h3 : key < k
    · simp [h3]
    · simp [h3, mapAssign_length key v rest hrest]

theorem mapAssign_keys_nodup {κ β : Type} [DecidableEq κ] [LT κ]
    [DecidableRel (fun a b : κ => a < b)] (key : κ) (v : β) :
    ∀ (m : List (κ × β)), mapCount m key = false → (m.map Prod.fst).Nodup →
      ((mapAssign m key v).map Prod.fst).Nodup
  | [], _, _ => by simp [mapAssign]
  | (k, w) :: rest, h, hnd => by
    have hk : ¬ k = key := by
      intro e
      simp [mapCount, mapFind?, e] at h
    have hrest : mapCount rest key = false := by
      simpa [mapCount, mapFind?, hk] using h
    have hnotin : key ∉ ((k, w) :: rest).map Prod.fst := by
      intro hm
      have := (mapCount_iff_mem key ((k, w) :: rest)).mpr hm
      rw [h] at this
      exact absurd this (by simp)
    simp only [List.map_cons, List.nodup_cons] at hnd
    simp only [mapAssign, hk, if_false]
    by_cases h3 : key < k
    · simp only [h3, if_true, List.map_cons, List.nodup_cons]
      exact ⟨by simpa using hnotin, hnd.1, hnd.2⟩
    · simp only [h3, if_false, List.map_cons, List.nodup_cons]
      refine ⟨?_, mapAssign_keys_nodup key v rest hrest hnd.2⟩
      intro hm
      have h1 := (mapCount_iff_mem k (mapAssign rest key v)).mpr hm
      rcases (mapCount_mapAssign key v k rest).mp h1 with h2 | h2
      · exact hk h2
      · exact hnd.1 ((mapCount_iff_mem k rest).mp h2)

theorem modifyAt_length {α : Type} (f : α → α) : ∀ (n : Nat) (xs : List α),
    (modifyAt f n xs).length = xs.length
  | n, [] => by cases n <;> rfl
  | 0, x :: xs => rfl
  | n + 1, x :: xs => by simp [modifyAt, modifyAt_length f n xs]

theorem modifyAt_getElem? {α : Type} (f : α → α) : ∀ (n : Nat) (xs : List α) (j : Nat),
    (modifyAt f n xs)[j]? = if j = n then xs[j]?.map f else xs[j]?
  | n, [], j => by cases n <;> simp [modifyAt]
  | 0, x :: xs, j => by
    cases j with
    | zero => simp [modifyAt]
    | succ j1 => simp [modifyAt]
  | n + 1, x :: xs, j => by
    cases j with
    | zero => simp [modifyAt]
    | succ j1 =>
      simp only [modifyAt, List.getElem?_cons_succ, modifyAt_getElem? f n xs j1]
      simp

theorem dimOK_emplace (m : List (List Char × Nat)) (labels : List (List Char)) (f : List Char)
    (hlen : m.length = labels.length) (hat : LabelsAt m labels) (hnd : labels.Nodup)
    (hcov : ∀ l ∈ labels, mapCount m l = true) :
    (mapEmplace m f m.length).1.length
        = (if (mapEmplace m f m.length).2 then labels ++ [f] else labels).length ∧
    LabelsAt (mapEmplace m f m.length).1
        (if (mapEmplace m f m.length).2 then labels ++ [f] else labels) ∧
    (∃ i, mapFind? (mapEmplace m f m.length).1 f = some i) ∧
    (∀ l i, mapFind? m l = some i → mapFind? (mapEmplace m f m.length).1 l = some i) ∧
    (if (mapEmplace m f m.length).2 then labels ++ [f] else labels).Nodup ∧
    (∀ l ∈ (if (mapEmplace m f m.length).2 then labels ++ [f] else labels),
      mapCount (mapEmplace m f m.length).1 l = true) := by
  unfold mapEmplace
  by_cases hc : mapCount m f = true
  · simp only [hc, if_true, Bool.false_eq_true, if_false]
    refine ⟨hlen, hat, ?_, fun l i h => h, hnd, hcov⟩
    unfold mapCount at hc
    cases hf : mapFind? m f with
    | none => rw [hf] at hc; simp at hc
    | some i => exact ⟨i, rfl⟩
  · have hc1 : mapCount m f = false := by simpa using hc
    simp only [hc1, Bool.false_eq_true, if_false, if_true]
    refine ⟨?_, ?_, ?_, ?_, ?_, ?_⟩
    rotate_left 4
    · rw [List.nodup_append]
      refine ⟨hnd, by simp, ?_⟩
      intro a ha hb
      simp only [List.mem_singleton] at hb
      rw [hb] at ha
      have := hcov f ha
      rw [hc1] at this
      simp at this
    · intro l hl
      rw [mapCount_mapAssign]
      rcases List.mem_append.mp hl with h | h
      · exact Or.inr (hcov l h)
      · simp only [List.mem_singleton] at h
        exact Or.inl h
    · rw [mapAssign_length f _ m hc1]
      simp [hlen]
    · intro l i h
      rw [mapFind?_mapAssign] at h
      by_cases hl : l = f
      · simp only [hl, if_true, Option.some.injEq] at h
        rw [← h, hl, hlen]
        exact List.getElem?_concat_length labels f
      · simp only [hl, if_false] at h
        have h1 := hat l i h
        have hi : i < labels.length := by
          by_contra hcon
          have : labels[i]? = none := by simp; omega
          rw [this] at h1
          simp at h1
        rw [List.getElem?_append_left hi]
        exact h1
    · exact ⟨m.length, by rw [mapFind?_mapAssign]; simp⟩
    · intro l i h
      rw [mapFind?_mapAssign]
      by_cases hl : l = f
      · exfalso
        rw [hl] at h
        unfold mapCount at hc1
        rw [h] at hc1
        simp at hc1
      · simp only [hl, if_false]
        exact h

/-! ## The axis loop keeps the label maps and XVectors consistent -/

theorem grows_refl {R : Type} (st : LoadState R) : Grows st st :=
  fun _ m _ _ h1 h2 => ⟨m, h1, h2⟩

theorem grows_trans {R : Type} {a b c : LoadState R} (h1 : Grows a b) (h2 : Grows b c) :
    Grows a c := by
  intro d m l i hm hf
  obtain ⟨m1, hm1, hf1⟩ := h1 d m l i hm hf
  exact h2 d m1 l i hm1 hf1

theorem axisTupleFrom_cons {R : Type} (spec : DataSpec R) (i : Nat) (f : List Char)
    (fs : List (List Char)) (hi : i < spec.nColAxes) :
    axisTupleFrom spec i (f :: fs)
      = (if i ∈ spec.dimensionCols then [f] else []) ++ axisTupleFrom spec (i + 1) fs := by
  obtain ⟨k, hk⟩ : ∃ k, spec.nColAxes - i = k + 1 := ⟨spec.nColAxes - i - 1, by omega⟩
  have hk1 : spec.nColAxes - (i + 1) = k := by omega
  simp only [axisTupleFrom, hk, hk1, List.take_succ_cons, List.enumFrom_cons, List.filter_cons]
  by_cases hm : i ∈ spec.dimensionCols <;> simp [hm]

theorem axisLoop_inv {R : Type} (spec : DataSpec R) :
    ∀ (fields : List (List Char)) (i dim : Nat) (key : Key) (st : LoadState R),
      dim + remDims spec.dimensionCols i (spec.nColAxes - i) = numAxes spec →
      numAxes spec ≤ st.xVector.length → numAxes spec ≤ st.dimLabels.length →
      AxisOK (numAxes spec) st → key.length = dim → KeyIn dim st key →
      spec.nColAxes - i ≤ fields.length →
      ∃ st1, axisLoop spec i dim fields key st
          = .ok (key ++ axisTupleFrom spec i fields, fields.drop (spec.nColAxes - i), st1) ∧
        st1.tmpData = st.tmpData ∧ st1.tabularFormat = st.tabularFormat ∧
        st1.horizontalLabels = st.horizontalLabels ∧
        st1.xVector.length = st.xVector.length ∧
        st1.dimLabels.length = st.dimLabels.length ∧
        (∀ d : Nat, numAxes spec ≤ d →
          st1.xVector[d]? = st.xVector[d]? ∧ st1.dimLabels[d]? = st.dimLabels[d]?) ∧
        (∀ d : Nat, (st1.xVector[d]?).map XVector.name = (st.xVector[d]?).map XVector.name) ∧
        AxisOK (numAxes spec) st1 ∧
        (key ++ axisTupleFrom spec i fields).length = numAxes spec ∧
        KeyIn (numAxes spec) st1 (key ++ axisTupleFrom spec i fields) ∧
        Grows st st1
  | [], i, dim, key, st, hinv, _, _, hok, hlen, hkey, hfl => by
    have hz : spec.nColAxes - i = 0 := by simpa using hfl
    rw [hz, remDims] at hinv
    have hdim : dim = numAxes spec := by omega
    refine ⟨st, by simp [axisLoop, axisTupleFrom], rfl, rfl, rfl, rfl, rfl,
      fun _ _ => ⟨rfl, rfl⟩, fun _ => rfl, hok, ?_, ?_, grows_refl st⟩
    · simp [axisTupleFrom, hlen, hdim]
    · rw [← hdim]
      simpa [axisTupleFrom] using hkey
  | f :: fs, i, dim, key, st, hinv, hxl, hdl, hok, hlen, hkey, hfl => by
    by_cases hi : i < spec.nColAxes
    · obtain ⟨k, hk⟩ : ∃ k, spec.nColAxes - i = k + 1 := ⟨spec.nColAxes - i - 1, by omega⟩
      have hk1 : spec.nColAxes - (i + 1) = k := by omega
      have hfl1 : spec.nColAxes - (i + 1) ≤ fs.length := by
        rw [hk1]; rw [hk] at hfl; simpa using hfl
      rw [hk, remDims] at hinv
      rw [axisTupleFrom_cons spec i f fs hi, hk]
      by_cases hm : i ∈ spec.dimensionCols
      · simp only [hm, if_true] at hinv
        have hdimA : dim < numAxes spec := by omega
        have hdimX : dim < st.xVector.length := by omega
        have hdimL : dim < st.dimLabels.length := by omega
        have hmget : st.dimLabels[dim]? = some st.dimLabels[dim] :=
          List.getElem?_eq_getElem hdimL
        have hxget : st.xVector[dim]? = some st.xVector[dim] :=
          List.getElem?_eq_getElem hdimX
        obtain ⟨hm1, hm2, hm3, hm4⟩ := hok dim _ _ hdimA hmget hxget
        obtain ⟨e1, e2, e3, e4, e5, e6⟩ :=
          dimOK_emplace st.dimLabels[dim] st.xVector[dim].labels f hm1 hm2 hm3 hm4
        have hnl : ¬ st.xVector.length ≤ dim := by omega
        have hstep : axisLoop spec i dim (f :: fs) key st
            = axisLoop spec (i + 1) (dim + 1) fs (key ++ [f])
                { st with
                  xVector :=
                    if (mapEmplace st.dimLabels[dim] f st.dimLabels[dim].length).2 then
                      modifyAt (fun x => { x with labels := x.labels ++ [f] }) dim st.xVector
                    else st.xVector
                  dimLabels := st.dimLabels.set dim
                    (mapEmplace st.dimLabels[dim] f st.dimLabels[dim].length).1 } := by
          simp only [axisLoop, hi, hm, if_true, List.get?_eq_getElem?, hmget, hnl, if_false]
        have hx2 : ∀ d : Nat, (if (mapEmplace st.dimLabels[dim] f st.dimLabels[dim].length).2 then
              modifyAt (fun x => { x with labels := x.labels ++ [f] }) dim st.xVector
            else st.xVector)[d]?
            = if d = dim then
                some { st.xVector[dim] with
                  labels := if (mapEmplace st.dimLabels[dim] f st.dimLabels[dim].length).2 then
                    st.xVector[dim].labels ++ [f] else st.xVector[dim].labels }
              else st.xVector[d]? := by
          intro d
          by_cases hd : d = dim
          · subst hd
            by_cases he : (mapEmplace st.dimLabels[d] f st.dimLabels[d].length).2 = true
            · simp [he, modifyAt_getElem?, hxget]
            · simp [he, hxget]
          · by_cases he : (mapEmplace st.dimLabels[dim] f st.dimLabels[dim].length).2 = true
            · simp [he, modifyAt_getElem?, hd]
            · simp [he, hd]
        have hl2 : ∀ d : Nat, (st.dimLabels.set dim
              (mapEmplace st.dimLabels[dim] f st.dimLabels[dim].length).1)[d]?
            = if d = dim then some (mapEmplace st.dimLabels[dim] f st.dimLabels[dim].length).1
              else st.dimLabels[d]? := by
          intro d
          by_cases hd : d = dim
          · subst hd
            simp [List.getElem?_set_self hdimL]
          · have : dim ≠ d := fun e => hd e.symm
            simp [List.getElem?_set_ne this, hd]
        have hxlen2 : (if (mapEmplace st.dimLabels[dim] f st.dimLabels[dim].length).2 then
              modifyAt (fun x => { x with labels := x.labels ++ [f] }) dim st.xVector
            else st.xVector).length = st.xVector.length := by
          split_ifs
          · exact modifyAt_length _ _ _
          · rfl
        obtain ⟨st1, r1, r2, r3, r4, r5, r6, r7, r8, r9, r10, r11, r12⟩ :=
          axisLoop_inv spec fs (i + 1) (dim + 1) (key ++ [f])
            { st with
              xVector :=
                if (mapEmplace st.dimLabels[dim] f st.dimLabels[dim].length).2 then
                  modifyAt (fun x => { x with labels := x.labels ++ [f] }) dim st.xVector
                else st.xVector
              dimLabels := st.dimLabels.set dim
                (mapEmplace st.dimLabels[dim] f st.dimLabels[dim].length).1 }
            (by rw [hk1]; omega)
            (by simp only [hxlen2]; exact hxl)
            (by simp only [List.length_set]; exact hdl)
            (by
              intro d m x hd hmd hxd
              simp only [hl2] at hmd
              simp only [hx2] at hxd
              by_cases hdd : d = dim
              · simp only [hdd, if_true, Option.some.injEq] at hmd hxd
                rw [← hmd, ← hxd]
                exact ⟨e1, e2, e5, e6⟩
              · simp only [hdd, if_false] at hmd hxd
                exact hok d m x hd hmd hxd)
            (by simp [hlen])
            (by
              intro d m l hd hmd hl
              simp only [hl2] at hmd
              by_cases hdd : d = dim
              · simp only [hdd, if_true, Option.some.injEq] at hmd
                rw [hdd, ← hlen, List.getElem?_concat_length] at hl
                simp only [Option.some.injEq] at hl
                rw [← hmd, ← hl]
                exact e3
              · simp only [hdd, if_false] at hmd
                have hd1 : d < dim := by omega
                rw [List.getElem?_append_left (by omega)] at hl
                exact hkey d m l hd1 hmd hl)
            hfl1
        refine ⟨st1, ?_, r2, r3, r4, ?_, ?_, ?_, ?_, r9, ?_, ?_, ?_⟩
        · rw [hstep, r1, hk1]
          simp [hm]
        · rw [r5]; exact hxlen2
        · rw [r6]; simp
        · intro d hd
          obtain ⟨a1, a2⟩ := r7 d hd
          have hdd : ¬ d = dim := by omega
          refine ⟨?_, ?_⟩
          · rw [a1]
            simp only [hx2, hdd, if_false]
          · rw [a2]
            simp only [hl2, hdd, if_false]
        · intro d
          rw [r8 d]
          simp only [hx2]
          by_cases hdd : d = dim
          · simp [hdd, hxget]
          · simp [hdd]
        · simpa [hm] using r10
        · simpa [hm] using r11
        · refine grows_trans ?_ r12
          intro d m l j hmd hf
          by_cases hdd : d = dim
          · refine ⟨(mapEmplace st.dimLabels[dim] f st.dimLabels[dim].length).1,
              by simp only [hl2, hdd, if_true], ?_⟩
            rw [hdd, hmget] at hmd
            simp only [Option.some.injEq] at hmd
            rw [← hmd] at hf
            exact e4 l j hf
          · exact ⟨m, by simp only [hl2, hdd, if_false]; exact hmd, hf⟩
      · simp only [hm, if_false, Nat.zero_add] at hinv
        have hstep : axisLoop spec i dim (f :: fs) key st
            = axisLoop spec (i + 1) dim fs key st := by
          simp only [axisLoop, hi, hm, if_true, if_false]
        obtain ⟨st1, r1, r2, r3, r4, r5, r6, r7, r8, r9, r10, r11, r12⟩ :=
          axisLoop_inv spec fs (i + 1) dim key st (by rw [hk1]; exact hinv) hxl hdl hok hlen
            hkey hfl1
        refine ⟨st1, ?_, r2, r3, r4, r5, r6, r7, r8, r9, ?_, ?_, r12⟩
        · rw [hstep, r1, hk1]
          simp [hm]
        · simpa [hm] using r10
        · simpa [hm] using r11
    · have hz : spec.nColAxes - i = 0 := by omega
      rw [hz, remDims] at hinv
      have hdim : dim = numAxes spec := by omega
      have ht : axisTupleFrom spec i (f :: fs) = [] := by
        simp [axisTupleFrom, hz]
      refine ⟨st, by simp [axisLoop, hi, ht, hz], rfl, rfl, rfl, rfl, rfl,
        fun _ _ => ⟨rfl, rfl⟩, fun _ => rfl, hok, ?_, ?_, grows_refl st⟩
      · simp [ht, hlen, hdim]
      · rw [← hdim, ht]
        simpa using hkey

/-! ## Outcomes of the loops of a data row -/

theorem axisLoop_result {R : Type} (spec : DataSpec R) :
    ∀ (fields : List (List Char)) (i dim : Nat) (key : Key) (st : LoadState R),
      axisLoop spec i dim fields key st = .error .outOfRange ∨
      ∃ key1 st1, axisLoop spec i dim fields key st
          = .ok (key1, fields.drop (spec.nColAxes - i), st1) ∧
        st1.dimLabels.length = st.dimLabels.length
  | [], i, dim, key, st => Or.inr ⟨key, st, by simp [axisLoop], rfl⟩
  | f :: fs, i, dim, key, st => by
    by_cases hi : i < spec.nColAxes
    · obtain ⟨k, hk⟩ : ∃ k, spec.nColAxes - i = k + 1 := ⟨spec.nColAxes - i - 1, by omega⟩
      have hk1 : spec.nColAxes - (i + 1) = k := by omega
      by_cases hm : i ∈ spec.dimensionCols
      · cases hg : st.dimLabels.get? dim with
        | none => left; simp only [axisLoop, hi, hm, if_true, hg]
        | some m =>
          simp only [axisLoop, hi, hm, if_true, hg]
          rcases axisLoop_result spec fs (i + 1) (dim + 1) (key ++ [f])
            { st with
              xVector :=
                if (mapEmplace m f m.length).2 then
                  modifyAt (fun x => { x with labels := x.labels ++ [f] }) dim
                    (if st.xVector.length ≤ dim then
                      st.xVector ++ [{ name := "?".toList, labels := [] }]
                    else st.xVector)
                else
                  (if st.xVector.length ≤ dim then
                      st.xVector ++ [{ name := "?".toList, labels := [] }]
                    else st.xVector)
              dimLabels := st.dimLabels.set dim (mapEmplace m f m.length).1 }
            with h | ⟨key1, st1, h1, h2⟩
          · left; exact h
          · right
            refine ⟨key1, st1, ?_, by simpa using h2⟩
            rw [h1, hk, hk1]
            simp
      · simp only [axisLoop, hi, hm, if_true, if_false]
        rcases axisLoop_result spec fs (i + 1) dim key st with h | ⟨key1, st1, h1, h2⟩
        · left; exact h
        · right
          refine ⟨key1, st1, ?_, h2⟩
          rw [h1, hk, hk1]
          simp
    · have hz : spec.nColAxes - i = 0 := by omega
      exact Or.inr ⟨key, st, by simp [axisLoop, hi, hz], rfl⟩

theorem cellLoop_result {R : Type} (spec : DataSpec R) (stod : List Char → Option R) :
    ∀ (fields : List (List Char)) (col : Nat) (key : Key) (st : LoadState R),
      cellLoop spec stod col fields key st = .error .outOfRange ∨
      cellLoop spec stod col fields key st = .error .duplicateKey ∨
      ∃ st1, cellLoop spec stod col fields key st = .ok st1 ∧ st1.dimLabels = st.dimLabels ∧
        st1.xVector = st.xVector ∧ st1.tabularFormat = st.tabularFormat ∧
        st1.horizontalLabels = st.horizontalLabels
  | [], col, key, st => Or.inr (Or.inr ⟨st, by simp [cellLoop], rfl, rfl, rfl, rfl⟩)
  | f :: fs, col, key, st => by
    cases hk : cellKey st key col with
    | none => left; simp [cellLoop, hk]
    | some key1 =>
      by_cases hc : mapCount st.tmpData key1 = true
      · right; left; simp [cellLoop, hk, hc]
      · have hstep : cellLoop spec stod col (f :: fs) key st
            = cellLoop spec stod (col + 1) fs key
                { st with tmpData :=
                    mapAssign st.tmpData key1 ((stod f).getD spec.missingValue) } := by
          simp [cellLoop, hk, hc]
        rw [hstep]
        rcases cellLoop_result spec stod fs (col + 1) key
            { st with tmpData := mapAssign st.tmpData key1 ((stod f).getD spec.missingValue) }
          with h | h | ⟨st1, h1, h2, h3, h4, h5⟩
        · left; exact h
        · right; left; exact h
        · right; right; exact ⟨st1, h1, h2, h3, h4, h5⟩

theorem dataRow_dimLabels {R : Type} (spec : DataSpec R) (stod : List Char → Option R)
    (tok : List (List Char)) (st st1 : LoadState R) (h : dataRow spec stod tok st = .ok st1) :
    st1.dimLabels.length = st.dimLabels.length := by
  unfold dataRow at h
  rcases axisLoop_result spec tok 0 0 [] st with ha | ⟨key1, st0, ha, hl⟩
  · rw [ha] at h; simp at h
  · rw [ha] at h
    simp only [] at h
    split_ifs at h with he
    rcases cellLoop_result spec stod (tok.drop (spec.nColAxes - 0)) 0 key1 st0
      with hc | hc | ⟨st2, hc, h2, _⟩
    · rw [hc] at h; simp at h
    · rw [hc] at h; simp at h
    · rw [hc] at h
      simp only [Except.ok.injEq] at h
      rw [← h, h2, hl]

theorem dataRow_not_noDataColumns {R : Type} (spec : DataSpec R) (stod : List Char → Option R)
    (tok : List (List Char)) (st : LoadState R) (hlen : spec.nColAxes < tok.length) :
    dataRow spec stod tok st ≠ .error .noDataColumns := by
  unfold dataRow
  rcases axisLoop_result spec tok 0 0 [] st with ha | ⟨key1, st0, ha, hl⟩
  · rw [ha]; simp
  · rw [ha]
    simp only []
    have hne : (tok.drop (spec.nColAxes - 0)).isEmpty = false := by
      cases hd : tok.drop (spec.nColAxes - 0) with
      | nil =>
        have := congrArg List.length hd
        simp at this
        omega
      | cons a as => rfl
    rw [hne]
    simp only [Bool.false_eq_true, if_false]
    rcases cellLoop_result spec stod (tok.drop (spec.nColAxes - 0)) 0 key1 st0
      with hc | hc | ⟨st2, hc, _⟩
    · rw [hc]; simp
    · rw [hc]; simp
    · rw [hc]; simp

theorem processHeader_dimLabels {R : Type} (spec : DataSpec R) (tok : List (List Char))
    (st : LoadState R) : st.dimLabels.length ≤ (processHeader spec tok st).dimLabels.length := by
  unfold processHeader
  split_ifs
  · simp
  · exact le_refl _

theorem rowLoop_dimLabels {R : Type} (spec : DataSpec R) (stod : List Char → Option R) :
    ∀ (rows : List (List (List Char))) (row : Nat) (st st1 : LoadState R),
      rowLoop spec stod row rows st = .ok st1 → st.dimLabels.length ≤ st1.dimLabels.length
  | [], row, st, st1, h => by
    simp only [rowLoop, Except.ok.injEq] at h
    rw [h]
  | tok :: rest, row, st, st1, h => by
    simp only [rowLoop] at h
    split_ifs at h with h1 h2
    · exact le_trans (processHeader_dimLabels spec tok st)
        (rowLoop_dimLabels spec stod rest (row + 1) _ st1 h)
    · cases hd : dataRow spec stod tok st with
      | error e => rw [hd] at h; simp at h
      | ok st2 =>
        rw [hd] at h
        have := rowLoop_dimLabels spec stod rest (row + 1) st2 st1 h
        rw [dataRow_dimLabels spec stod tok st st2 hd] at this
        exact this
    · exact rowLoop_dimLabels spec stod rest (row + 1) st st1 h

theorem rowLoop_append {R : Type} (spec : DataSpec R) (stod : List Char → Option R) :
    ∀ (a b : List (List (List Char))) (row : Nat) (st : LoadState R),
      rowLoop spec stod row (a ++ b) st
        = match rowLoop spec stod row a st with
          | .ok st1 => rowLoop spec stod (row + a.length) b st1
          | .error e => .error e
  | [], b, row, st => by simp [rowLoop]
  | tok :: rest, b, row, st => by
    have e : row + (tok :: rest).length = row + 1 + rest.length := by
      simp only [List.length_cons]; omega
    simp only [List.cons_append, rowLoop, e]
    split_ifs with h1 h2
    · exact rowLoop_append spec stod rest b (row + 1) _
    · cases hd : dataRow spec stod tok st with
      | error e => rfl
      | ok st2 => exact rowLoop_append spec stod rest b (row + 1) st2
    · exact rowLoop_append spec stod rest b (row + 1) st

/-! ## What a data row adds to the accumulated data -/

theorem cellLoop_content {R : Type} (spec : DataSpec R) (stod : List Char → Option R) :
    ∀ (fields : List (List Char)) (col : Nat) (key : Key) (st st1 : LoadState R),
      cellLoop spec stod col fields key st = .ok st1 →
      st1.xVector = st.xVector ∧ st1.dimLabels = st.dimLabels ∧
      st1.tabularFormat = st.tabularFormat ∧ st1.horizontalLabels = st.horizontalLabels ∧
      (∀ k v, mapFind? st.tmpData k = some v → mapFind? st1.tmpData k = some v) ∧
      (∀ (c : Nat) (f : List Char), fields[c]? = some f →
        ∃ k, cellKey st key (col + c) = some k ∧
          mapFind? st1.tmpData k = some (cellValue spec stod f)) ∧
      (∀ k, mapCount st1.tmpData k = true → mapCount st.tmpData k = true ∨
        ∃ c, c < fields.length ∧ cellKey st key (col + c) = some k) ∧
      ((st.tmpData.map Prod.fst).Nodup → (st1.tmpData.map Prod.fst).Nodup)
  | [], col, key, st, st1, h => by
    simp only [cellLoop, Except.ok.injEq] at h
    subst h
    exact ⟨rfl, rfl, rfl, rfl, fun _ _ h => h, fun c f h => by simp at h,
      fun k h => Or.inl h, fun h => h⟩
  | f :: fs, col, key, st, st1, h => by
    cases hk : cellKey st key col with
    | none => simp [cellLoop, hk] at h
    | some key1 =>
      by_cases hc : mapCount st.tmpData key1 = true
      · simp [cellLoop, hk, hc] at h
      · have hc1 : mapCount st.tmpData key1 = false := by simpa using hc
        have hstep : cellLoop spec stod col (f :: fs) key st
            = cellLoop spec stod (col + 1) fs key
                { st with tmpData :=
                    mapAssign st.tmpData key1 ((stod f).getD spec.missingValue) } := by
          simp [cellLoop, hk, hc]
        rw [hstep] at h
        obtain ⟨r1, r2, r3, r4, r5, r6, r7, r8⟩ := cellLoop_content spec stod fs (col + 1) key
          { st with tmpData := mapAssign st.tmpData key1 ((stod f).getD spec.missingValue) }
          st1 h
        have hkey2 : ∀ c, cellKey
            { st with tmpData := mapAssign st.tmpData key1 ((stod f).getD spec.missingValue) }
            key c = cellKey st key c := fun c => cellKey_congr st _ key c rfl rfl
        refine ⟨r1, r2, r3, r4, ?_, ?_, ?_, ?_⟩
        · intro k v hkv
          apply r5
          simp only [mapFind?_mapAssign]
          have hne : ¬ k = key1 := by
            intro e
            rw [e] at hkv
            unfold mapCount at hc1
            rw [hkv] at hc1
            simp at hc1
          simp only [hne, if_false]
          exact hkv
        · intro c g hg
          cases c with
          | zero =>
            simp only [List.getElem?_cons_zero, Option.some.injEq] at hg
            subst hg
            refine ⟨key1, by simpa using hk, ?_⟩
            apply r5
            simp [mapFind?_mapAssign, cellValue]
          | succ c1 =>
            simp only [List.getElem?_cons_succ] at hg
            obtain ⟨k, h1, h2⟩ := r6 c1 g hg
            rw [hkey2] at h1
            refine ⟨k, ?_, h2⟩
            have : col + (c1 + 1) = col + 1 + c1 := by omega
            rw [this]; exact h1
        · intro k hk1
          rcases r7 k hk1 with h1 | ⟨c, h1, h2⟩
          · rcases (mapCount_mapAssign key1 _ k st.tmpData).mp h1 with h3 | h3
            · right
              exact ⟨0, by simp, by rw [h3]; simpa using hk⟩
            · exact Or.inl h3
          · right
            rw [hkey2] at h2
            refine ⟨c + 1, by simp; omega, ?_⟩
            have : col + (c + 1) = col + 1 + c := by omega
            rw [this]; exact h2
        · intro hnd
          exact r8 (mapAssign_keys_nodup key1 _ st.tmpData hc1 hnd)

theorem cellKey_shape {R : Type} (st : LoadState R) (key k : Key) (c : Nat)
    (h : cellKey st key c = some k) :
    (st.tabularFormat = false ∧ k = key) ∨
    (st.tabularFormat = true ∧ ∃ hl, st.horizontalLabels[c]? = some hl ∧ k = key ++ [hl]) := by
  unfold cellKey at h
  by_cases ht : st.tabularFormat = true
  · right
    simp only [ht, if_true, List.get?_eq_getElem?] at h
    cases hg : st.horizontalLabels[c]? with
    | none => rw [hg] at h; simp at h
    | some hl =>
      rw [hg] at h
      simp only [Option.map_some', Option.some.injEq] at h
      exact ⟨ht, hl, rfl, h.symm⟩
  · left
    have hf : st.tabularFormat = false := by simpa using ht
    simp only [hf, Bool.false_eq_true, if_false, Option.some.injEq] at h
    exact ⟨hf, h.symm⟩

theorem keyIn_grows {R : Type} {n : Nat} {st st1 : LoadState R} {key : Key}
    (hn : n ≤ st.dimLabels.length)
    (hg : Grows st st1) (hk : KeyIn n st key) : KeyIn n st1 key := by
  intro d m1 l hd hm1 hl
  have hdl : d < st.dimLabels.length := by omega
  obtain ⟨i, hi⟩ := hk d _ l hd (List.getElem?_eq_getElem hdl) hl
  obtain ⟨m2, hm2, hf⟩ := hg d _ l i (List.getElem?_eq_getElem hdl) hi
  rw [hm1] at hm2
  simp only [Option.some.injEq] at hm2
  exact ⟨i, by rw [hm2]; exact hf⟩

theorem dataRow_inv {R : Type} (spec : DataSpec R) (stod : List Char → Option R)
    (tok : List (List Char)) (st st1 : LoadState R) (hinv : LoadInv spec st)
    (hrow : dataRow spec stod tok st = .ok st1) :
    LoadInv spec st1 ∧ spec.nColAxes < tok.length ∧
    st1.tabularFormat = st.tabularFormat ∧ st1.horizontalLabels = st.horizontalLabels ∧
    st1.xVector.length = st.xVector.length ∧ st1.dimLabels.length = st.dimLabels.length ∧
    (∀ d : Nat, numAxes spec ≤ d →
      st1.xVector[d]? = st.xVector[d]? ∧ st1.dimLabels[d]? = st.dimLabels[d]?) ∧
    (∀ d : Nat, (st1.xVector[d]?).map XVector.name = (st.xVector[d]?).map XVector.name) ∧
    (∀ k v, mapFind? st.tmpData k = some v → mapFind? st1.tmpData k = some v) ∧
    (∀ (c : Nat) (f : List Char), tok[spec.nColAxes + c]? = some f →
      ∃ k, cellKey st (axisTuple spec tok) c = some k ∧
        mapFind? st1.tmpData k = some (cellValue spec stod f)) := by
  obtain ⟨hxl, hdl, hok, hnd, hkeys⟩ := hinv
  have hlong : spec.nColAxes < tok.length := by
    by_contra hc
    rcases axisLoop_result spec tok 0 0 [] st with ha | ⟨key1, st0, ha, _⟩
    · unfold dataRow at hrow
      rw [ha] at hrow
      simp at hrow
    · unfold dataRow at hrow
      rw [ha] at hrow
      have : tok.drop (spec.nColAxes - 0) = [] := by
        apply List.drop_eq_nil_of_le
        omega
      simp only [this] at hrow
      simp at hrow
  obtain ⟨st0, a1, a2, a3, a4, a5, a6, a7, a8, a9, a10, a11, a12⟩ :=
    axisLoop_inv spec tok 0 0 [] st (by simp [numAxes]) hxl hdl hok rfl
      (by intro d m l hd; omega) (by omega)
  have hcell : cellLoop spec stod 0 (tok.drop spec.nColAxes) (axisTuple spec tok) st0
      = .ok st1 := by
    unfold dataRow at hrow
    rw [a1] at hrow
    simp only [List.nil_append, Nat.sub_zero] at hrow
    split_ifs at hrow with he
    exact hrow
  obtain ⟨c1, c2, c3, c4, c5, c6, c7, c8⟩ :=
    cellLoop_content spec stod (tok.drop spec.nColAxes) 0 (axisTuple spec tok) st0 st1 hcell
  have hkey0 : ∀ c, cellKey st0 (axisTuple spec tok) c = cellKey st (axisTuple spec tok) c :=
    fun c => cellKey_congr st st0 _ c a3 a4
  have hgrow : Grows st st1 := by
    intro d m l i hm hf
    obtain ⟨m1, hm1, hf1⟩ := a12 d m l i hm hf
    exact ⟨m1, by rw [c2]; exact hm1, hf1⟩
  have htl : (axisTuple spec tok).length = numAxes spec := by
    simpa [axisTuple] using a10
  have htin : KeyIn (numAxes spec) st1 (axisTuple spec tok) := by
    intro d m l hd hm hl
    rw [c2] at hm
    exact a11 d m l hd hm (by simpa [axisTuple] using hl)
  refine ⟨⟨by rw [c1, a5]; exact hxl, by rw [c2, a6]; exact hdl, ?_, ?_, ?_⟩, hlong,
    by rw [c3, a3], by rw [c4, a4], by rw [c1, a5], by rw [c2, a6], ?_, ?_, ?_, ?_⟩
  · intro d m x hd hm hx
    rw [c2] at hm
    rw [c1] at hx
    exact a9 d m x hd hm hx
  · apply c8
    rw [a2]; exact hnd
  · intro k hk
    rcases c7 k hk with h1 | ⟨c, h1, h2⟩
    · rw [a2] at h1
      obtain ⟨k1, k2, k3⟩ := hkeys k h1
      refine ⟨by rw [c3, a3]; exact k1, ?_, ?_⟩
      · exact keyIn_grows hdl hgrow k2
      · intro ht
        rw [c3, a3] at ht
        rw [c4, a4]
        exact k3 ht
    · simp only [Nat.zero_add] at h2
      rcases cellKey_shape st0 _ k c h2 with ⟨t1, t2⟩ | ⟨t1, hl, t2, t3⟩
      · rw [c3, t1, t2]
        refine ⟨by simpa using htl, htin, by intro h; simp at h⟩
      · rw [c3, t1, t3]
        refine ⟨by simp [htl], ?_, ?_⟩
        · intro d m l hd hm hl1
          rw [List.getElem?_append_left (by omega)] at hl1
          exact htin d m l hd hm hl1
        · intro _
          refine ⟨hl, ?_, ?_⟩
          · rw [← htl]
            exact List.getElem?_concat_length _ _
          · rw [c4]
            exact List.getElem?_mem t2
  · intro d hd
    rw [c1, c2]
    exact a7 d hd
  · intro d
    rw [c1]
    exact a8 d
  · intro k v hkv
    apply c5
    rw [a2]; exact hkv
  · intro c f hf
    obtain ⟨k, h1, h2⟩ := c6 c f (by rw [List.getElem?_drop]; exact hf)
    rw [Nat.zero_add, hkey0] at h1
    exact ⟨k, h1, h2⟩

/-! ## The row loop after the header row -/

theorem rowLoop_inv {R : Type} (spec : DataSpec R) (stod : List Char → Option R) :
    ∀ (rows : List (List (List Char))) (row : Nat) (st st2 : LoadState R),
      (spec.columnar = true ∨ spec.headerRow < row) → LoadInv spec st →
      rowLoop spec stod row rows st = .ok st2 →
      LoadInv spec st2 ∧
      st2.tabularFormat = st.tabularFormat ∧ st2.horizontalLabels = st.horizontalLabels ∧
      st2.xVector.length = st.xVector.length ∧ st2.dimLabels.length = st.dimLabels.length ∧
      (∀ d : Nat, numAxes spec ≤ d →
        st2.xVector[d]? = st.xVector[d]? ∧ st2.dimLabels[d]? = st.dimLabels[d]?) ∧
      (∀ d : Nat, (st2.xVector[d]?).map XVector.name = (st.xVector[d]?).map XVector.name) ∧
      (∀ k v, mapFind? st.tmpData k = some v → mapFind? st2.tmpData k = some v) ∧
      (∀ (j : Nat) (tok : List (List Char)), rows[j]? = some tok → spec.nRowAxes ≤ row + j →
        spec.nColAxes < tok.length ∧
        ∀ (c : Nat) (f : List Char), tok[spec.nColAxes + c]? = some f →
          ∃ k, cellKey st (axisTuple spec tok) c = some k ∧
            mapFind? st2.tmpData k = some (cellValue spec stod f))
  | [], row, st, st2, _, hinv, h => by
    simp only [rowLoop, Except.ok.injEq] at h
    subst h
    exact ⟨hinv, rfl, rfl, rfl, rfl, fun _ _ => ⟨rfl, rfl⟩, fun _ => rfl, fun _ _ h => h,
      fun j tok hj => by simp at hj⟩
  | tok :: rest, row, st, st2, hph, hinv, h => by
    rw [rowLoop_cons_data spec stod row tok rest st hph] at h
    have hph1 : spec.columnar = true ∨ spec.headerRow < row + 1 := by
      rcases hph with h1 | h1
      · exact Or.inl h1
      · exact Or.inr (by omega)
    by_cases hr : spec.nRowAxes ≤ row
    · rw [if_pos hr] at h
      cases hd : dataRow spec stod tok st with
      | error e => rw [hd] at h; simp at h
      | ok st1 =>
        rw [hd] at h
        simp only at h
        obtain ⟨d1, d2, d3, d4, d5, d6, d7, d8, d9, d10⟩ :=
          dataRow_inv spec stod tok st st1 hinv hd
        obtain ⟨r1, r3, r4, r5, r6, r7, r8, r9, r10⟩ :=
          rowLoop_inv spec stod rest (row + 1) st1 st2 hph1 d1 h
        refine ⟨r1, by rw [r3, d3], by rw [r4, d4], by rw [r5, d5], by rw [r6, d6], ?_, ?_,
          ?_, ?_⟩
        · intro d hd1
          exact ⟨by rw [(r7 d hd1).1, (d7 d hd1).1], by rw [(r7 d hd1).2, (d7 d hd1).2]⟩
        · intro d
          rw [r8 d, d8 d]
        · intro k v hkv
          exact r9 k v (d9 k v hkv)
        · intro j tk hj hge
          cases j with
          | zero =>
            simp only [List.getElem?_cons_zero, Option.some.injEq] at hj
            subst hj
            refine ⟨d2, ?_⟩
            intro c f hf
            obtain ⟨k, k1, k2⟩ := d10 c f hf
            exact ⟨k, k1, r9 k _ k2⟩
          | succ j1 =>
            simp only [List.getElem?_cons_succ] at hj
            obtain ⟨e1, e2⟩ := r10 j1 tk hj (by omega)
            refine ⟨e1, ?_⟩
            intro c f hf
            obtain ⟨k, k1, k2⟩ := e2 c f hf
            rw [cellKey_congr st st1 _ c d3 d4] at k1
            exact ⟨k, k1, k2⟩
    · rw [if_neg hr] at h
      obtain ⟨r1, r3, r4, r5, r6, r7, r8, r9, r10⟩ :=
        rowLoop_inv spec stod rest (row + 1) st st2 hph1 hinv h
      refine ⟨r1, r3, r4, r5, r6, r7, r8, r9, ?_⟩
      intro j tk hj hge
      cases j with
      | zero => omega
      | succ j1 =>
        simp only [List.getElem?_cons_succ] at hj
        exact r10 j1 tk hj (by omega)

theorem remDims_eq_filter (l : List Nat) : ∀ (k i : Nat), remDims l i k
    = ((List.range' i k).filter (fun j => decide (j ∈ l))).length := by
  intro k
  induction k with
  | zero => intro i; simp [remDims]
  | succ k ih =>
    intro i
    simp only [remDims, List.range'_succ, ih (i + 1)]
    by_cases h : i ∈ l
    · simp [h, List.filter_cons]; omega
    · simp [h, List.filter_cons]

theorem initXVector_length {R : Type} (spec : DataSpec R) :
    (initXVector spec).length = numAxes spec := by
  simp only [initXVector, numAxes, List.length_map, remDims_eq_filter, List.range_eq_range']

theorem initState_inv {R : Type} (spec : DataSpec R) : LoadInv spec (initState spec) := by
  refine ⟨by simp [initState, initXVector_length], ?_, ?_, by simp [initState], ?_⟩
  · simp only [initState, List.length_replicate]
    exact remDims_le _ _ _
  · intro d m x hd hm hx
    have hm1 : m = [] := by
      simp only [initState] at hm
      have := List.getElem?_mem hm
      exact (List.mem_replicate.mp this).2
    have hx1 : x.labels = [] := by
      simp only [initState, initXVector] at hx
      have := List.getElem?_mem hx
      simp only [List.mem_map] at this
      obtain ⟨i, _, hi⟩ := this
      rw [← hi]
    subst hm1
    rw [hx1]
    refine ⟨rfl, ?_, List.nodup_nil, fun l h => by simp at h⟩
    intro l i h
    simp [mapFind?] at h
  · intro k hk
    simp [initState, mapCount, mapFind?] at hk

theorem processHeader_inv {R : Type} (spec : DataSpec R) (tok : List (List Char))
    (st : LoadState R) (hinv : LoadInv spec st) (hemp : st.tmpData = []) :
    LoadInv spec (processHeader spec tok st) := by
  unfold processHeader
  split_ifs with h
  · obtain ⟨h1, h2, h3, h4, h5⟩ := hinv
    refine ⟨by simp; omega, by simp; omega, ?_, h4, ?_⟩
    · intro d m x hd hm hx
      simp only at hm hx
      rw [List.getElem?_append_left (by omega)] at hm hx
      exact h3 d m x hd hm hx
    · intro k hk
      simp only [hemp, mapCount, mapFind?] at hk
      simp at hk
  · exact hinv

/-! ## The state after the rows, and the write loop -/

theorem headerState_inv {R : Type} (spec : DataSpec R) (input : List (List (List Char))) :
    LoadInv spec (headerState spec input) ∧ (headerState spec input).tmpData = [] := by
  unfold headerState
  split_ifs with hc
  · exact ⟨initState_inv spec, rfl⟩
  · cases hh : input[spec.headerRow]? with
    | none => exact ⟨initState_inv spec, rfl⟩
    | some tok =>
      refine ⟨processHeader_inv spec tok _ (initState_inv spec) rfl, ?_⟩
      simp only [processHeader]
      split_ifs <;> rfl

theorem load_state {R : Type} (spec : DataSpec R) (stod : List Char → Option R)
    (input : List (List (List Char))) (st : LoadState R)
    (hhdr : spec.headerRow ≤ spec.nRowAxes)
    (hrun : rowLoop spec stod 0 input (initState spec) = .ok st) :
    LoadInv spec st ∧
    st.tabularFormat = (headerState spec input).tabularFormat ∧
    st.horizontalLabels = (headerState spec input).horizontalLabels ∧
    st.xVector.length = (headerState spec input).xVector.length ∧
    st.dimLabels.length = (headerState spec input).dimLabels.length ∧
    (∀ d : Nat, numAxes spec ≤ d →
      st.xVector[d]? = (headerState spec input).xVector[d]? ∧
      st.dimLabels[d]? = (headerState spec input).dimLabels[d]?) ∧
    (∀ d : Nat, (st.xVector[d]?).map XVector.name
      = ((headerState spec input).xVector[d]?).map XVector.name) ∧
    (∀ (r : Nat) (tok : List (List Char)), input[r]? = some tok → isDataRow spec r = true →
      spec.nColAxes < tok.length ∧
      ∀ (c : Nat) (f : List Char), tok[spec.nColAxes + c]? = some f →
        ∃ k, cellKey (headerState spec input) (axisTuple spec tok) c = some k ∧
          mapFind? st.tmpData k = some (cellValue spec stod f)) := by
  by_cases hc : spec.columnar = true
  · have hs : headerState spec input = initState spec := by simp [headerState, hc]
    rw [hs]
    obtain ⟨r1, r3, r4, r5, r6, r7, r8, _, r10⟩ :=
      rowLoop_inv spec stod input 0 (initState spec) st (Or.inl hc) (initState_inv spec) hrun
    refine ⟨r1, r3, r4, r5, r6, r7, r8, ?_⟩
    intro r tok hr hd
    exact r10 r tok hr (by
      have := (isDataRow_data spec r (Or.inl hc)).mp hd
      omega)
  · have hnc : spec.columnar = false := by simpa using hc
    rw [rowLoop_header spec stod hnc hhdr input 0 (initState spec) (Nat.zero_le _)] at hrun
    simp only [Nat.sub_zero] at hrun
    cases hh : input[spec.headerRow]? with
    | none =>
      have hs : headerState spec input = initState spec := by simp [headerState, hnc, hh]
      rw [hs]
      rw [hh] at hrun
      simp only [Except.ok.injEq] at hrun
      subst hrun
      refine ⟨initState_inv spec, rfl, rfl, rfl, rfl, fun _ _ => ⟨rfl, rfl⟩, fun _ => rfl, ?_⟩
      intro r tok hr hd
      have h1 := isDataRow_after_header spec r hnc hhdr hd
      have h2 : input.length ≤ spec.headerRow := by
        by_contra hlt
        rw [List.getElem?_eq_getElem (by omega)] at hh
        simp at hh
      have h3 : r < input.length := by
        by_contra hge
        rw [List.getElem?_eq_none (by omega)] at hr
        simp at hr
      omega
    | some hdr =>
      have hs : headerState spec input = processHeader spec hdr (initState spec) := by
        simp [headerState, hnc, hh]
      rw [hh] at hrun
      simp only at hrun
      have hinv0 := (headerState_inv spec input).1
      rw [hs] at hinv0 ⊢
      obtain ⟨r1, r3, r4, r5, r6, r7, r8, _, r10⟩ :=
        rowLoop_inv spec stod _ (spec.headerRow + 1) _ st (Or.inr (by omega)) hinv0 hrun
      refine ⟨r1, r3, r4, r5, r6, r7, r8, ?_⟩
      intro r tok hr hd
      have h1 := isDataRow_after_header spec r hnc hhdr hd
      have h2 : spec.nRowAxes ≤ r := by
        simp only [isDataRow, decide_eq_true_eq] at hd
        exact hd.2
      apply r10 (r - (spec.headerRow + 1)) tok
      · rw [List.getElem?_drop]
        have : spec.headerRow + 1 + (r - (spec.headerRow + 1)) = r := by omega
        rw [this]; exact hr
      · omega

theorem headerState_tabular {R : Type} (spec : DataSpec R) (input : List (List (List Char)))
    (hdr : List (List Char)) (hnc : spec.columnar = false)
    (hrow : input[spec.headerRow]? = some hdr) (hlong : spec.nColAxes + 1 < hdr.length) :
    headerState spec input =
      { tmpData := []
        dimLabels := List.replicate spec.dimensionCols.length []
          ++ [labelIndex 0 (hdr.drop spec.nColAxes) []]
        tabularFormat := true
        xVector := initXVector spec
          ++ [{ name := spec.horizontalDimName, labels := hdr.drop spec.nColAxes }]
        horizontalLabels := hdr.drop spec.nColAxes } := by
  simp [headerState, hnc, hrow, processHeader, hlong, initState]

theorem names_eq_of_getElem? (xs ys : List XVector)
    (h : ∀ d : Nat, (xs[d]?).map XVector.name = (ys[d]?).map XVector.name) :
    xs.map XVector.name = ys.map XVector.name := by
  apply List.ext_getElem?
  intro d
  simp only [List.getElem?_map]
  exact h d

theorem loadValue_xVector {R : Type} (stod : List Char → Option R) (v : VariableValue R)
    (input : List (List (List Char))) (spec : DataSpec R) (st : LoadState R)
    (hrun : rowLoop spec stod 0 input (initState spec) = .ok st) :
    (loadValueFromCSVFile stod v input spec).2.xVector = st.xVector ∧
    (loadValueFromCSVFile stod v input spec).2.tensorInit.dims
      = st.xVector.map (fun x => x.labels.length) := by
  simp [loadValueFromCSVFile, hrun, VariableValue.setXVector, VariableValue.dims]

theorem pivot_general {R : Type} (stod : List Char → Option R) (v : VariableValue R)
    (input : List (List (List Char))) (spec : DataSpec R) (hdr : List (List Char))
    (st : LoadState R) (hnc : spec.columnar = false) (hhdr : spec.headerRow ≤ spec.nRowAxes)
    (hrow : input[spec.headerRow]? = some hdr) (hlong : spec.nColAxes + 1 < hdr.length)
    (hrun : rowLoop spec stod 0 input (initState spec) = .ok st) :
    (loadValueFromCSVFile stod v input spec).2.xVector = st.xVector ∧
    st.xVector.length = (initXVector spec).length + 1 ∧
    st.xVector.map XVector.name
      = (initXVector spec).map XVector.name ++ [spec.horizontalDimName] ∧
    st.xVector.getLast?
      = some { name := spec.horizontalDimName, labels := hdr.drop spec.nColAxes } ∧
    (∀ (r : Nat) (tok : List (List Char)), input[r]? = some tok → isDataRow spec r = true →
      ∀ (c : Nat) (f : List Char), tok[spec.nColAxes + c]? = some f →
        ∃ h, (hdr.drop spec.nColAxes)[c]? = some h ∧
          mapFind? st.tmpData (axisTuple spec tok ++ [h]) = some (cellValue spec stod f)) := by
  obtain ⟨_, s2, s3, s4, s5, s6, s7, s8⟩ := load_state spec stod input st hhdr hrun
  have hs := headerState_tabular spec input hdr hnc hrow hlong
  rw [hs] at s2 s3 s4 s5 s6 s7 s8
  simp only at s2 s3 s4 s5 s6 s7
  have hlen : st.xVector.length = (initXVector spec).length + 1 := by
    rw [s4]; simp
  refine ⟨(loadValue_xVector stod v input spec st hrun).1, hlen, ?_, ?_, ?_⟩
  · rw [names_eq_of_getElem? _ _ s7]
    simp
  · rw [List.getLast?_eq_getElem?, hlen, Nat.add_sub_cancel,
      (s6 _ (le_of_eq (initXVector_length spec).symm)).1]
    simp
  · intro r tok hr hd c f hf
    obtain ⟨k, k1, k2⟩ := (s8 r tok hr hd).2 c f hf
    rcases cellKey_shape _ _ k c k1 with ⟨t1, _⟩ | ⟨_, hl, t2, t3⟩
    · simp at t1
    · simp only at t2
      exact ⟨hl, t2, by rw [← t3]; exact k2⟩

/-! ## Keys and positions after a load -/

theorem linesFrom_line (rest : List Char) : ∀ (l cur : List Char), '\n' ∉ l →
    linesFrom cur (l ++ '\n' :: rest) = (cur ++ l) :: linesFrom [] rest
  | [], cur, _ => by simp [linesFrom]
  | c :: cs, cur, h => by
    simp only [List.mem_cons, not_or] at h
    have hc : ¬ c = '\n' := fun e => h.1 e.symm
    have ih := linesFrom_line rest cs (cur ++ [c]) h.2
    rw [List.cons_append]
    simp only [linesFrom, hc, if_false]
    rw [ih]
    simp

theorem linesFrom_no_newline : ∀ (t cur : List Char), '\n' ∉ cur →
    ∀ l ∈ linesFrom cur t, '\n' ∉ l
  | [], cur, hcur => by
    intro l hl
    simp only [linesFrom] at hl
    split_ifs at hl
    · simp at hl
    · simp only [List.mem_singleton] at hl
      rw [hl]; exact hcur
  | c :: rest, cur, hcur => by
    intro l hl
    simp only [linesFrom] at hl
    split_ifs at hl with hc
    · rcases List.mem_cons.mp hl with h | h
      · rw [h]; exact hcur
      · exact linesFrom_no_newline rest [] (by simp) l h
    · refine linesFrom_no_newline rest (cur ++ [c]) ?_ l hl
      simp only [List.mem_append, List.mem_singleton, not_or]
      exact ⟨hcur, fun e => hc e.symm⟩

theorem lines_streamBuf : ∀ (ls : List (List Char)), (∀ l ∈ ls, '\n' ∉ l) →
    lines (streamBuf ls) = ls
  | [], _ => rfl
  | l :: ls, h => by
    have h1 := lines_streamBuf ls (fun x hx => h x (List.mem_cons_of_mem _ hx))
    unfold lines at h1 ⊢
    simp only [streamBuf]
    rw [linesFrom_line _ l [] (h l (List.mem_cons_self _ _)), h1]
    simp

theorem scanned_again (input : List Char) :
    (lines (streamBuf ((lines input).take maxRowsToAnalyse))).take maxRowsToAnalyse
      = (lines input).take maxRowsToAnalyse := by
  rw [lines_streamBuf]
  · rw [List.take_take]
    simp
  · intro l hl
    exact linesFrom_no_newline input [] (by simp) l (List.mem_of_mem_take hl)

theorem tokenizeAll_length (tf : TokenizerFunction) :
    ∀ (ls : List (List Char)) (rows : List (List (List Char))),
      tokenizeAll tf ls = .ok rows → rows.length = ls.length
  | [], rows, h => by
    simp only [tokenizeAll, Except.ok.injEq] at h
    rw [← h]
    rfl
  | l :: ls, rows, h => by
    simp only [tokenizeAll] at h
    cases ht : tf l with
    | error e => rw [ht] at h; simp at h
    | ok t =>
      rw [ht] at h
      cases hr : tokenizeAll tf ls with
      | error e => rw [hr] at h; simp at h
      | ok ts =>
        rw [hr] at h
        simp only [Except.ok.injEq] at h
        rw [← h]
        simp [tokenizeAll_length tf ls ts hr]

theorem guessDimensionsFromStream_geometry {R : Type}
    (anyVal : Dimension → List Char → Bool) (staleBuf : List Char → List Char → List Char)
    (input : List Char) (spec : DataSpec R) :
    (guessDimensionsFromStream anyVal staleBuf input spec).2.nRowAxes = spec.nRowAxes ∧
    (guessDimensionsFromStream anyVal staleBuf input spec).2.nColAxes = spec.nColAxes ∧
    (guessDimensionsFromStream anyVal staleBuf input spec).2.headerRow = spec.headerRow ∧
    (guessDimensionsFromStream anyVal staleBuf input spec).2.dimensionCols
      = spec.dimensionCols := by
  unfold guessDimensionsFromStream
  simp only []
  split
  · exact ⟨rfl, rfl, rfl, rfl⟩
  · split <;> exact ⟨rfl, rfl, rfl, rfl⟩

theorem guessFromStream_geometry {R : Type} (stod : List Char → Option R)
    (anyVal : Dimension → List Char → Bool) (staleBuf : List Char → List Char → List Char)
    (input : List Char) (spec : DataSpec R) (sep : Char) (rows : List (List (List Char)))
    (hsep : chooseSeparator ((lines input).take maxRowsToAnalyse).length
          (countChar ',' ((lines input).take maxRowsToAnalyse))
          (countChar ';' ((lines input).take maxRowsToAnalyse))
          (countChar '\t' ((lines input).take maxRowsToAnalyse)) = sep)
    (htok : tokenizeAll (tokenizerOf { spec with separator := sep })
      ((lines input).take maxRowsToAnalyse) = .ok rows) :
    (guessFromStream stod anyVal staleBuf input spec).2.nRowAxes
      = (guessGeometry (rows.foldl (scanLine stod)
          { starts := [], nCols := 0, firstEmpty := npos })).1 ∧
    (guessFromStream stod anyVal staleBuf input spec).2.nColAxes
      = (guessGeometry (rows.foldl (scanLine stod)
          { starts := [], nCols := 0, firstEmpty := npos })).2.1 ∧
    (guessFromStream stod anyVal staleBuf input spec).2.headerRow
      = (guessGeometry (rows.foldl (scanLine stod)
          { starts := [], nCols := 0, firstEmpty := npos })).2.2 ∧
    (guessFromStream stod anyVal staleBuf input spec).2.dimensionCols
      = List.range (guessGeometry (rows.foldl (scanLine stod)
          { starts := [], nCols := 0, firstEmpty := npos })).2.1 := by
  unfold guessFromStream
  simp only [hsep]
  have hg : guessRemainder stod (streamBuf ((lines input).take maxRowsToAnalyse)) sep spec
      = (.ok (),
        { spec with
          separator := sep
          nRowAxes := (guessGeometry (rows.foldl (scanLine stod)
            { starts := [], nCols := 0, firstEmpty := npos })).1
          nColAxes := (guessGeometry (rows.foldl (scanLine stod)
            { starts := [], nCols := 0, firstEmpty := npos })).2.1
          headerRow := (guessGeometry (rows.foldl (scanLine stod)
            { starts := [], nCols := 0, firstEmpty := npos })).2.2
          dimensionCols := List.range (guessGeometry (rows.foldl (scanLine stod)
            { starts := [], nCols := 0, firstEmpty := npos })).2.1 }) := by
    unfold guessRemainder givenTFguessRemainder
    rw [scanned_again, htok]
  rw [hg]
  simp only []
  obtain ⟨h1, h2, h3, h4⟩ := guessDimensionsFromStream_geometry anyVal staleBuf
    (streamBuf ((lines input).take maxRowsToAnalyse))
    { spec with
      separator := sep
      nRowAxes := (guessGeometry (rows.foldl (scanLine stod)
        { starts := [], nCols := 0, firstEmpty := npos })).1
      nColAxes := (guessGeometry (rows.foldl (scanLine stod)
        { starts := [], nCols := 0, firstEmpty := npos })).2.1
      headerRow := (guessGeometry (rows.foldl (scanLine stod)
        { starts := [], nCols := 0, firstEmpty := npos })).2.2
      dimensionCols := List.range (guessGeometry (rows.foldl (scanLine stod)
        { starts := [], nCols := 0, firstEmpty := npos })).2.1 }
  exact ⟨h1, h2, h3, h4⟩

theorem firstNumericalFrom_all_good {R : Type} (stod : List Char → Option R) :
    ∀ (xs : List (List Char)) (i r : Nat),
      (∀ x ∈ xs, x ≠ [] ∧ (stod x).isSome = true) → firstNumericalFrom stod i r xs = r
  | [], i, r, _ => rfl
  | x :: xs, i, r, h => by
    have hx := h x (List.mem_cons_self _ _)
    have hnot : ¬ (x.isEmpty = false ∧ (stod x).isNone = true) := by
      rintro ⟨_, h2⟩
      cases hs : stod x with
      | none => rw [hs] at hx; simp at hx
      | some v => rw [hs] at h2; simp at h2
    simp only [firstNumericalFrom, hnot, if_false]
    exact firstNumericalFrom_all_good stod xs (i + 1) r
      (fun y hy => h y (List.mem_cons_of_mem _ hy))

theorem firstNumericalFrom_all_bad {R : Type} (stod : List Char → Option R) :
    ∀ (xs : List (List Char)) (i r : Nat),
      (∀ x ∈ xs, x ≠ [] ∧ stod x = none) → xs ≠ [] →
      firstNumericalFrom stod i r xs = i + xs.length
  | [], i, r, _, hne => absurd rfl hne
  | x :: xs, i, r, h, _ => by
    have hx := h x (List.mem_cons_self _ _)
    have hbad : x.isEmpty = false ∧ (stod x).isNone = true := by
      constructor
      · cases x with
        | nil => exact absurd rfl hx.1
        | cons a as => rfl
      · rw [hx.2]; rfl
    simp only [firstNumericalFrom, hbad, and_self, if_true]
    cases xs with
    | nil => simp [firstNumericalFrom]
    | cons y ys =>
      rw [firstNumericalFrom_all_bad stod (y :: ys) (i + 1) (i + 1)
        (fun z hz => h z (List.mem_cons_of_mem _ hz)) (by simp)]
      simp only [List.length_cons]
      omega

theorem scanLine_oneLabel {R : Type} (stod : List Char → Option R) (sc : Scan)
    (row : List (List Char)) (h : OneLabelRow stod row) :
    (scanLine stod sc row).starts = sc.starts ++ [1] ∧
    (scanLine stod sc row).firstEmpty = sc.firstEmpty := by
  obtain ⟨label, nums, hrow, hl1, hl2, hn, hgood⟩ := h
  have hbad : label.isEmpty = false ∧ (stod label).isNone = true := by
    constructor
    · cases label with
      | nil => exact absurd rfl hl1
      | cons a as => rfl
    · rw [hl2]; rfl
  have hfn : firstNumerical stod row = 1 := by
    rw [hrow]
    unfold firstNumerical
    simp only [firstNumericalFrom, hbad, and_self, if_true]
    exact firstNumericalFrom_all_good stod nums 1 1 hgood
  have htail : emptyTail row 1 = false := by
    rw [hrow]
    cases nums with
    | nil => simp at hn
    | cons a as =>
      have ha := (hgood a (List.mem_cons_self _ _)).1
      have : a.isEmpty = false := by
        cases a with
        | nil => exact absurd rfl ha
        | cons c cs => rfl
      simp [emptyTail, this]
  simp only [scanLine, hfn, htail]
  simp

theorem scan_oneLabel {R : Type} (stod : List Char → Option R) :
    ∀ (rows : List (List (List Char))) (sc : Scan), (∀ row ∈ rows, OneLabelRow stod row) →
      (rows.foldl (scanLine stod) sc).starts = sc.starts ++ List.replicate rows.length 1 ∧
      (rows.foldl (scanLine stod) sc).firstEmpty = sc.firstEmpty
  | [], sc, _ => by simp
  | row :: rows, sc, h => by
    obtain ⟨h1, h2⟩ := scanLine_oneLabel stod sc row (h row (List.mem_cons_self _ _))
    obtain ⟨h3, h4⟩ := scan_oneLabel stod rows (scanLine stod sc row)
      (fun r hr => h r (List.mem_cons_of_mem _ hr))
    simp only [List.foldl_cons]
    rw [h3, h4, h1, h2]
    simp [List.replicate_succ]

theorem leadingAxisRows_ones (sum n : Nat) : ∀ (k : Nat),
    leadingAxisRows sum n (List.replicate k 1) = k
  | 0 => rfl
  | k + 1 => by
    simp [List.replicate_succ, leadingAxisRows, leadingAxisRows_ones sum n k]

theorem guessGeometry_oneLabel (h k nCols : Nat) (hh : 1 ≤ h) (hk : 1 ≤ k)
    (hmax : k + 1 ≤ 100) :
    guessGeometry { starts := h :: List.replicate k 1, nCols := nCols, firstEmpty := npos }
      = (k + 1, 0, k) := by
  have hfirst : (h :: List.replicate k 1).sum < h * (h :: List.replicate k 1).length ∨ h = 1 := by
    by_cases h1 : h = 1
    · exact Or.inr h1
    · left
      simp only [List.sum_cons, List.sum_replicate, List.length_cons, List.length_replicate,
        smul_eq_mul, Nat.mul_one]
      have h2 : 2 ≤ h := by omega
      calc h + k < h + 2 * k := by omega
        _ ≤ h + h * k := by
          have := Nat.mul_le_mul_right k h2
          omega
        _ = h * (k + 1) := by rw [Nat.mul_add, Nat.mul_one, Nat.add_comm]
  have hr0 : leadingAxisRows (h :: List.replicate k 1).sum (h :: List.replicate k 1).length
      (h :: List.replicate k 1) = k + 1 := by
    simp only [leadingAxisRows, hfirst, if_true, leadingAxisRows_ones]
  have hnpos : ¬ npos = k + 1 := by
    unfold npos
    omega
  simp only [guessGeometry, hr0]
  have hdrop : List.drop (k + 1) (h :: List.replicate k 1) = [] := by
    apply List.drop_eq_nil_of_le
    simp
  simp [hdrop, hnpos]

/-! ## The guess of the separator and the first numerical cell -/

theorem firstNumericalFrom_cases {R : Type} (stod : List Char → Option R) :
    ∀ (xs : List (List Char)) (i r : Nat),
      (firstNumericalFrom stod i r xs = r ∧ ∀ x ∈ xs, x = [] ∨ (stod x).isSome = true) ∨
      (∃ (j : Nat) (x : List Char), xs[j]? = some x ∧ x ≠ [] ∧ stod x = none ∧
        firstNumericalFrom stod i r xs = i + j + 1 ∧
        ∀ (j1 : Nat) (y : List Char), j < j1 → xs[j1]? = some y →
          y = [] ∨ (stod y).isSome = true)
  | [], i, r => Or.inl ⟨rfl, by simp⟩
  | x :: xs, i, r => by
    by_cases hbad : x.isEmpty = false ∧ (stod x).isNone = true
    · have hstep : firstNumericalFrom stod i r (x :: xs)
          = firstNumericalFrom stod (i + 1) (i + 1) xs := by
        simp only [firstNumericalFrom, hbad, and_self, if_true]
      have hx1 : x ≠ [] := by
        intro h; rw [h] at hbad; simp at hbad
      have hx2 : stod x = none := by simpa using hbad.2
      right
      rcases firstNumericalFrom_cases stod xs (i + 1) (i + 1) with ⟨h1, h2⟩ | ⟨j, y, h1, h2, h3, h4, h5⟩
      · refine ⟨0, x, by simp, hx1, hx2, by rw [hstep, h1], ?_⟩
        intro j1 y hj hy
        obtain ⟨j2, rfl⟩ : ∃ j2, j1 = j2 + 1 := ⟨j1 - 1, by omega⟩
        simp only [List.getElem?_cons_succ] at hy
        exact h2 y (List.getElem?_mem hy)
      · refine ⟨j + 1, y, by simpa using h1, h2, h3, by rw [hstep, h4]; omega, ?_⟩
        intro j1 z hj hz
        obtain ⟨j2, rfl⟩ : ∃ j2, j1 = j2 + 1 := ⟨j1 - 1, by omega⟩
        simp only [List.getElem?_cons_succ] at hz
        exact h5 j2 z (by omega) hz
    · have hstep : firstNumericalFrom stod i r (x :: xs)
          = firstNumericalFrom stod (i + 1) r xs := by
        simp only [firstNumericalFrom, hbad, if_false]
      have hgood : x = [] ∨ (stod x).isSome = true := by
        by_cases hx : x = []
        · exact Or.inl hx
        · right
          have h1 : x.isEmpty = false := by
            cases x with
            | nil => exact absurd rfl hx
            | cons a as => rfl
          cases hs : stod x with
          | none => exact absurd ⟨h1, by simp [hs]⟩ hbad
          | some v => rfl
      rcases firstNumericalFrom_cases stod xs (i + 1) r with ⟨h1, h2⟩ | ⟨j, y, h1, h2, h3, h4, h5⟩
      · left
        refine ⟨by rw [hstep, h1], ?_⟩
        intro z hz
        rcases List.mem_cons.mp hz with hz | hz
        · rw [hz]; exact hgood
        · exact h2 z hz
      · right
        refine ⟨j + 1, y, by simpa using h1, h2, h3, by rw [hstep, h4]; omega, ?_⟩
        intro j1 z hj hz
        obtain ⟨j2, rfl⟩ : ∃ j2, j1 = j2 + 1 := ⟨j1 - 1, by omega⟩
        simp only [List.getElem?_cons_succ] at hz
        exact h5 j2 z (by omega) hz

theorem givenTFguessRemainder_separator {R : Type} (stod : List Char → Option R)
    (tf : TokenizerFunction) (input : List Char) (spec : DataSpec R) :
    (givenTFguessRemainder stod tf input spec).2.separator = spec.separator := by
  unfold givenTFguessRemainder
  split <;> rfl

theorem guessDimensionsFromStream_separator {R : Type}
    (anyVal : Dimension → List Char → Bool) (staleBuf : List Char → List Char → List Char)
    (input : List Char) (spec : DataSpec R) :
    (guessDimensionsFromStream anyVal staleBuf input spec).2.separator = spec.separator := by
  unfold guessDimensionsFromStream
  simp only []
  split
  · rfl
  · split <;> rfl

theorem guessRemainder_separator {R : Type} (stod : List Char → Option R)
    (input : List Char) (sep : Char) (spec : DataSpec R) :
    (guessRemainder stod input sep spec).2.separator = sep := by
  unfold guessRemainder
  rw [givenTFguessRemainder_separator]

theorem guessFromStream_separator {R : Type} (stod : List Char → Option R)
    (anyVal : Dimension → List Char → Bool) (staleBuf : List Char → List Char → List Char)
    (input : List Char) (spec : DataSpec R) :
    (guessFromStream stod anyVal staleBuf input spec).2.separator
      = chooseSeparator ((lines input).take maxRowsToAnalyse).length
          (countChar ',' ((lines input).take maxRowsToAnalyse))
          (countChar ';' ((lines input).take maxRowsToAnalyse))
          (countChar '\t' ((lines input).take maxRowsToAnalyse)) := by
  unfold guessFromStream
  simp only []
  generalize chooseSeparator ((lines input).take maxRowsToAnalyse).length
          (countChar ',' ((lines input).take maxRowsToAnalyse))
          (countChar ';' ((lines input).take maxRowsToAnalyse))
          (countChar '\t' ((lines input).take maxRowsToAnalyse)) = sep
  have hsep := guessRemainder_separator stod
    (streamBuf ((lines input).take maxRowsToAnalyse)) sep spec
  rcases hg : guessRemainder stod (streamBuf ((lines input).take maxRowsToAnalyse)) sep spec
    with ⟨r, spec1⟩
  rw [hg] at hsep
  cases r with
  | error e => exact hsep
  | ok u =>
    simp only []
    rw [guessDimensionsFromStream_separator]
    exact hsep

/-! ## Properties of the CSV engine: claims C11 to C20 -/

/-- Claim C11. For every DataSpec and every input: when the rows before row `r` were read
without an exception and row `r` is a data row (`r >= nRowAxes`, not taken as the header
row) with at most `nColAxes` tokens, an empty line included, the load ends with the
exception whose text is "No data columns" and the destination is unchanged. Conversely a
data row with more than `nColAxes` tokens never raises that exception. -/
theorem C11_no_data_columns {R : Type} (stod : List Char → Option R) (v : VariableValue R)
    (spec : DataSpec R) (pre post : List (List (List Char))) (tok : List (List Char))
    (st : LoadState R)
    (hpre : rowLoop spec stod 0 pre (initState spec) = .ok st)
    (hdata : isDataRow spec pre.length = true)
    (hshort : tok.length ≤ spec.nColAxes) :
    loadValueFromCSVFile stod v (pre ++ tok :: post) spec = (.error .noDataColumns, v) ∧
    LoadError.what .noDataColumns = "No data columns" ∧
    ∀ (tok1 : List (List Char)) (st1 : LoadState R), spec.nColAxes < tok1.length →
      dataRow spec stod tok1 st1 ≠ .error .noDataColumns := by
  refine ⟨?_, rfl, fun tok1 st1 h => dataRow_not_noDataColumns spec stod tok1 st1 h⟩
  have hinv : remDims spec.dimensionCols 0 spec.nColAxes ≤ st.dimLabels.length := by
    have h1 := rowLoop_dimLabels spec stod pre 0 _ st hpre
    have h2 : (initState spec).dimLabels.length = spec.dimensionCols.length := by
      simp [initState]
    have h3 := remDims_le spec.dimensionCols spec.nColAxes 0
    omega
  have hrow : dataRow spec stod tok st = .error .noDataColumns := by
    obtain ⟨st0, ha, _⟩ := axisLoop_ok spec tok 0 0 [] st (by simpa using hinv)
    unfold dataRow
    rw [ha]
    have : tok.drop (spec.nColAxes - 0) = [] := by
      apply List.drop_eq_nil_of_le
      omega
    simp only [this]
    rfl
  have hd : ¬ (pre.length = spec.headerRow ∧ spec.columnar = false) ∧
      spec.nRowAxes ≤ pre.length := by
    simpa only [isDataRow, decide_eq_true_eq] using hdata
  unfold loadValueFromCSVFile
  rw [rowLoop_append, hpre]
  simp only [Nat.zero_add, rowLoop, hd.1, hd.2, if_true, if_false, hrow]

/-- Witness for C11: after a header row, a data row that holds only its axis label. -/
theorem C11_no_data_columns_witness :
    loadValueFromCSVFile stodInt dupValue
        ([["region".toList, "q1".toList, "q2".toList]] ++ ["NSW".toList] :: [])
        dupSpec = (.error .noDataColumns, dupValue) ∧
    LoadError.what .noDataColumns = "No data columns" ∧
    ∀ (tok1 : List (List Char)) (st1 : LoadState Int), dupSpec.nColAxes < tok1.length →
      dataRow dupSpec stodInt tok1 st1 ≠ .error .noDataColumns :=
  C11_no_data_columns stodInt dupValue dupSpec [["region".toList, "q1".toList, "q2".toList]]
    [] ["NSW".toList] _ (by rfl) (by decide) (by decide)

/-- Claim C13. A non-columnar load whose header row has more than `nColAxes+1` tokens (the
header row not after the first data row, the rows read without an exception) appends
exactly one dimension to those of the dimension columns; it is named `horizontalDimName`,
its labels are the header tokens from column `nColAxes` on, in header order; and the cell in
data column `c` of a data row is stored under the axis key of the row extended by the
`c`-th of these labels. For the scenario with `nRowAxes=1`, `nColAxes=1`, `headerRow=0`,
`dimensionCols={0}` the text tokenises into three rows and the load gives the XVectors
[NSW,VIC] and [q1,q2] with (NSW,q1)=10, (VIC,q1)=30, (NSW,q2)=20, (VIC,q2)=40 in the
dense array. -/
theorem C13_tabular_pivot :
    (∀ (R : Type) (stod : List Char → Option R) (v : VariableValue R)
      (input : List (List (List Char))) (spec : DataSpec R) (hdr : List (List Char))
      (st : LoadState R),
      spec.columnar = false → spec.headerRow ≤ spec.nRowAxes →
      input[spec.headerRow]? = some hdr → spec.nColAxes + 1 < hdr.length →
      rowLoop spec stod 0 input (initState spec) = .ok st →
      (loadValueFromCSVFile stod v input spec).2.xVector = st.xVector ∧
      st.xVector.length = (initXVector spec).length + 1 ∧
      st.xVector.map XVector.name
        = (initXVector spec).map XVector.name ++ [spec.horizontalDimName] ∧
      st.xVector.getLast?
        = some { name := spec.horizontalDimName, labels := hdr.drop spec.nColAxes } ∧
      (∀ (r : Nat) (tok : List (List Char)), input[r]? = some tok →
        isDataRow spec r = true →
        ∀ (c : Nat) (f : List Char), tok[spec.nColAxes + c]? = some f →
          ∃ h, (hdr.drop spec.nColAxes)[c]? = some h ∧
            mapFind? st.tmpData (axisTuple spec tok ++ [h])
              = some (cellValue spec stod f))) ∧
    tokenizeAll (tokenizerOf dupSpec) (lines tabularText) = .ok tabularRows ∧
    loadValueFromCSVFile stodInt blankValue tabularRows dupSpec
      = (.ok (),
          { xVector := [{ name := "region".toList, labels := ["NSW".toList, "VIC".toList] },
                        { name := "quarter".toList, labels := ["q1".toList, "q2".toList] }]
            tensorInit := { dims := [2, 2], data := [10, 30, 20, 40] } }) :=
  ⟨fun _ stod v input spec hdr st hnc hhdr hrow hlong hrun =>
      pivot_general stod v input spec hdr st hnc hhdr hrow hlong hrun,
    by decide, by decide⟩

/-- Witness for C13: the general part at the tabular scenario, whose header row is
region, q1, q2 and whose rows leave the loader in `tabularState`. -/
theorem C13_tabular_pivot_witness :
    dupSpec.columnar = false ∧ dupSpec.headerRow ≤ dupSpec.nRowAxes ∧
    tabularRows[dupSpec.headerRow]? = some ["region".toList, "q1".toList, "q2".toList] ∧
    dupSpec.nColAxes + 1 < ["region".toList, "q1".toList, "q2".toList].length ∧
    rowLoop dupSpec stodInt 0 tabularRows (initState dupSpec) = .ok tabularState ∧
    (loadValueFromCSVFile stodInt blankValue tabularRows dupSpec).2.xVector
      = tabularState.xVector ∧
    tabularState.xVector.length = (initXVector dupSpec).length + 1 ∧
    tabularState.xVector.map XVector.name
      = (initXVector dupSpec).map XVector.name ++ [dupSpec.horizontalDimName] ∧
    tabularState.xVector.getLast?
      = some { name := dupSpec.horizontalDimName,
               labels := ["region".toList, "q1".toList, "q2".toList].drop dupSpec.nColAxes } ∧
    (∀ (r : Nat) (tok : List (List Char)), tabularRows[r]? = some tok →
      isDataRow dupSpec r = true →
      ∀ (c : Nat) (f : List Char), tok[dupSpec.nColAxes + c]? = some f →
        ∃ h, (["region".toList, "q1".toList, "q2".toList].drop dupSpec.nColAxes)[c]? = some h ∧
          mapFind? tabularState.tmpData (axisTuple dupSpec tok ++ [h])
            = some (cellValue dupSpec stodInt f)) :=
  ⟨by decide, by decide, by decide, by decide, by decide,
    C13_tabular_pivot.1 Int stodInt blankValue tabularRows dupSpec
      ["region".toList, "q1".toList, "q2".toList] tabularState
      (by decide) (by decide) (by decide) (by decide) (by decide)⟩

/-- Counterexample to C14: for the tabular scenario (a header row, then two rows with
one label column) the guess is `nRowAxes = 3`, `nColAxes = 0`, `headerRow = 2`, not
`nRowAxes = 1`, `nColAxes = 1`, `headerRow = 0`. -/
theorem C14_scenario_counterexample :
    (guessFromStream stodInt noAnyVal freshBuf tabularText blankSpec).2.nRowAxes = 3 ∧
    (guessFromStream stodInt noAnyVal freshBuf tabularText blankSpec).2.nColAxes = 0 ∧
    (guessFromStream stodInt noAnyVal freshBuf tabularText blankSpec).2.headerRow = 2 := by
  decide

/-- Claim C14 as amended. For every input for which the comma is chosen and whose scanned
lines are, as tokens, one header row of non-numeric names followed by one or more data rows
that each have one non-numeric label cell and then two or more numeric cells, the guess is
`nRowAxes` = the number of rows scanned (every row whose `firstNumerical` is 1 is counted as
an axis row), `nColAxes = 0` and `headerRow = nRowAxes - 1`. -/
theorem C14_one_label_column_guess {R : Type} (stod : List Char → Option R)
    (anyVal : Dimension → List Char → Bool) (staleBuf : List Char → List Char → List Char)
    (input : List Char) (spec : DataSpec R) (header : List (List Char))
    (dataRows : List (List (List Char)))
    (hsep : 9 * ((lines input).take 100).length < 10 * countChar ',' ((lines input).take 100) ∧
      countChar ';' ((lines input).take 100) < countChar ',' ((lines input).take 100) ∧
      countChar '\t' ((lines input).take 100) < countChar ',' ((lines input).take 100))
    (htok : tokenizeAll (escapedList spec.escape ',' spec.quote) ((lines input).take 100)
      = .ok (header :: dataRows))
    (hheader : header ≠ [] ∧ ∀ x ∈ header, x ≠ [] ∧ stod x = none)
    (hdata : dataRows ≠ [])
    (hrows : ∀ row ∈ dataRows, OneLabelRow stod row) :
    (guessFromStream stod anyVal staleBuf input spec).2.nRowAxes = dataRows.length + 1 ∧
    (guessFromStream stod anyVal staleBuf input spec).2.nColAxes = 0 ∧
    (guessFromStream stod anyVal staleBuf input spec).2.headerRow = dataRows.length := by
  have hmax : maxRowsToAnalyse = 100 := rfl
  have hchoose : chooseSeparator ((lines input).take maxRowsToAnalyse).length
          (countChar ',' ((lines input).take maxRowsToAnalyse))
          (countChar ';' ((lines input).take maxRowsToAnalyse))
          (countChar '\t' ((lines input).take maxRowsToAnalyse)) = ',' := by
    rw [hmax]
    unfold chooseSeparator
    rw [if_pos hsep]
  have htf : tokenizerOf { spec with separator := ',' }
      = escapedList spec.escape ',' spec.quote := by
    simp [tokenizerOf]
  have htok1 : tokenizeAll (tokenizerOf { spec with separator := ',' })
      ((lines input).take maxRowsToAnalyse) = .ok (header :: dataRows) := by
    rw [htf, hmax]; exact htok
  obtain ⟨g1, g2, g3, _⟩ := guessFromStream_geometry stod anyVal staleBuf input spec ','
    (header :: dataRows) hchoose htok1
  have hlen : (header :: dataRows).length ≤ 100 := by
    rw [tokenizeAll_length _ _ _ htok]
    simp
  have hk : 1 ≤ dataRows.length := by
    cases dataRows with
    | nil => exact absurd rfl hdata
    | cons a as => simp
  have hh : 1 ≤ header.length := by
    cases header with
    | nil => exact absurd rfl hheader.1
    | cons a as => simp
  have hfirst : scanLine stod { starts := [], nCols := 0, firstEmpty := npos } header
      = { starts := [header.length], nCols := header.length, firstEmpty := npos } := by
    have hfn : firstNumerical stod header = header.length := by
      unfold firstNumerical
      rw [firstNumericalFrom_all_bad stod header 0 0 hheader.2 hheader.1]
      omega
    simp [scanLine, hfn]
  obtain ⟨s1, s2⟩ := scan_oneLabel stod dataRows
    { starts := [header.length], nCols := header.length, firstEmpty := npos } hrows
  have hsc : (header :: dataRows).foldl (scanLine stod)
      { starts := [], nCols := 0, firstEmpty := npos }
      = { starts := header.length :: List.replicate dataRows.length 1
          nCols := ((header :: dataRows).foldl (scanLine stod)
            { starts := [], nCols := 0, firstEmpty := npos }).nCols
          firstEmpty := npos } := by
    simp only [List.foldl_cons, hfirst]
    rcases hs : dataRows.foldl (scanLine stod)
      { starts := [header.length], nCols := header.length, firstEmpty := npos }
      with ⟨a, b, c⟩
    rw [hs] at s1 s2
    simp only at s1 s2
    rw [s1, s2]
    simp
  rw [hsc, guessGeometry_oneLabel header.length dataRows.length _ hh hk
    (by simpa using hlen)] at g1 g2 g3
  exact ⟨g1, g2, g3⟩

/-- Witness for C14 as amended: the tabular scenario has three rows, and the guess is
`nRowAxes = 3`, `nColAxes = 0`, `headerRow = 2`. -/
theorem C14_one_label_column_guess_witness :
    (guessFromStream stodInt noAnyVal freshBuf tabularText blankSpec).2.nRowAxes = 2 + 1 ∧
    (guessFromStream stodInt noAnyVal freshBuf tabularText blankSpec).2.nColAxes = 0 ∧
    (guessFromStream stodInt noAnyVal freshBuf tabularText blankSpec).2.headerRow = 2 :=
  C14_one_label_column_guess stodInt noAnyVal freshBuf tabularText blankSpec
    ["region".toList, "q1".toList, "q2".toList]
    [["NSW".toList, "10".toList, "20".toList], ["VIC".toList, "30".toList, "40".toList]]
    (by decide) (by decide) (by decide) (by decide)
    (by
      intro row hrow
      simp only [List.mem_cons, List.mem_singleton, List.not_mem_nil, or_false] at hrow
      rcases hrow with h | h
      · exact ⟨"NSW".toList, ["10".toList, "20".toList], h, by decide, by decide, by decide,
          by decide⟩
      · exact ⟨"VIC".toList, ["30".toList, "40".toList], h, by decide, by decide, by decide,
          by decide⟩)

/-- Claim C15, evaluated on the code. For the header-less scenario the guess is the comma,
`nColAxes = 2`, `nRowAxes = 0`, `headerRow = 0`, non-columnar; its three lines tokenise into
`headerlessRows`; and the load with the guessed DataSpec takes the first line as header
row. The XVectors are [a,d] and [c,b], the dense array is [2, -1, -1, 3] with -1 the
missing value: the cell (a,b)=1 of the first line is not loaded. -/
theorem C15_first_row_taken_as_header :
    (guessFromStream stodInt noAnyVal freshBuf headerlessText blankSpec).2.separator = ',' ∧
    (guessFromStream stodInt noAnyVal freshBuf headerlessText blankSpec).2.nColAxes = 2 ∧
    (guessFromStream stodInt noAnyVal freshBuf headerlessText blankSpec).2.nRowAxes = 0 ∧
    (guessFromStream stodInt noAnyVal freshBuf headerlessText blankSpec).2.headerRow = 0 ∧
    (guessFromStream stodInt noAnyVal freshBuf headerlessText blankSpec).2.columnar = false ∧
    tokenizeAll
        (tokenizerOf (guessFromStream stodInt noAnyVal freshBuf headerlessText blankSpec).2)
        (lines headerlessText)
      = .ok headerlessRows ∧
    loadValueFromCSVFile stodInt blankValue headerlessRows
        (guessFromStream stodInt noAnyVal freshBuf headerlessText blankSpec).2
      = (.ok (),
          { xVector := [{ name := "a".toList, labels := ["a".toList, "d".toList] },
                        { name := "b".toList, labels := ["c".toList, "b".toList] }]
            tensorInit := { dims := [2, 2], data := [2, -1, -1, 3] } }) := by
  decide

/-- Claim C16. With `rows` the number of lines scanned (at most 100) and `nc`, `ns`, `nt`
the numbers of ',', ';' and tab characters in those lines, `guessFromStream` leaves
`separator` equal to ',' if `10*nc > 9*rows`, `nc > ns` and `nc > nt`; otherwise to ';' if
`10*ns > 9*rows` and `ns > nt`; otherwise to tab if `10*nt > 9*rows`; otherwise to ' '.
So the separator is one of these four characters, and two texts with the same first 100
lines get the same separator. -/
theorem C16_delimiter_guess {R : Type} (stod : List Char → Option R)
    (anyVal : Dimension → List Char → Bool) (staleBuf : List Char → List Char → List Char)
    (input : List Char) (spec : DataSpec R) (rows nc ns nt : Nat)
    (hrows : rows = ((lines input).take 100).length)
    (hnc : nc = countChar ',' ((lines input).take 100))
    (hns : ns = countChar ';' ((lines input).take 100))
    (hnt : nt = countChar '\t' ((lines input).take 100)) :
    rows ≤ 100 ∧
    (9 * rows < 10 * nc ∧ ns < nc ∧ nt < nc →
      (guessFromStream stod anyVal staleBuf input spec).2.separator = ',') ∧
    (¬ (9 * rows < 10 * nc ∧ ns < nc ∧ nt < nc) → 9 * rows < 10 * ns ∧ nt < ns →
      (guessFromStream stod anyVal staleBuf input spec).2.separator = ';') ∧
    (¬ (9 * rows < 10 * nc ∧ ns < nc ∧ nt < nc) → ¬ (9 * rows < 10 * ns ∧ nt < ns) →
      9 * rows < 10 * nt →
      (guessFromStream stod anyVal staleBuf input spec).2.separator = '\t') ∧
    (¬ (9 * rows < 10 * nc ∧ ns < nc ∧ nt < nc) → ¬ (9 * rows < 10 * ns ∧ nt < ns) →
      ¬ 9 * rows < 10 * nt →
      (guessFromStream stod anyVal staleBuf input spec).2.separator = ' ') ∧
    (guessFromStream stod anyVal staleBuf input spec).2.separator ∈ [',', ';', '\t', ' '] ∧
    (∀ (input1 : List Char) (spec1 : DataSpec R),
      (lines input1).take 100 = (lines input).take 100 →
      (guessFromStream stod anyVal staleBuf input1 spec1).2.separator
        = (guessFromStream stod anyVal staleBuf input spec).2.separator) := by
  have hmax : maxRowsToAnalyse = 100 := rfl
  have hsep := guessFromStream_separator stod anyVal staleBuf input spec
  rw [hmax, ← hrows, ← hnc, ← hns, ← hnt] at hsep
  refine ⟨by rw [hrows]; simp, ?_, ?_, ?_, ?_, ?_, ?_⟩
  · intro h
    rw [hsep]; simp [chooseSeparator, h]
  · intro h1 h2
    rw [hsep]; simp only [chooseSeparator, h1, h2, and_self, if_true, if_false]
  · intro h1 h2 h3
    rw [hsep]; simp only [chooseSeparator, h1, h2, h3, if_true, if_false]
  · intro h1 h2 h3
    rw [hsep]; simp only [chooseSeparator, h1, h2, h3, if_false]
  · rw [hsep]
    unfold chooseSeparator
    split_ifs <;> simp
  · intro input1 spec1 heq
    rw [guessFromStream_separator, guessFromStream_separator, hmax, heq]

/-- Witness for C16: three lines with two commas each choose the comma. -/
theorem C16_delimiter_guess_witness :
    (guessFromStream stodInt (fun _ _ => false) (fun _ n => n)
      "a,b,1\na,c,2\nd,b,3\n".toList dupSpec).2.separator = ',' :=
  (C16_delimiter_guess stodInt (fun _ _ => false) (fun _ n => n)
    "a,b,1\na,c,2\nd,b,3\n".toList dupSpec 3 6 0 0 (by decide) (by decide) (by decide)
    (by decide)).2.1 (by decide)

/-- Claim C17. For every DataSpec and all `r`, `c`, after `setDataArea(r, c)`:
`nRowAxes = r`, `nColAxes = c`, `headerRow <= r`, `dimensions` and `dimensionNames` have at
least `c` entries each, and the members of `dimensionCols` are exactly the former members
below `c`. -/
theorem C17_setDataArea {R : Type} (dflt : Dimension) (spec : DataSpec R) (r c : Nat) :
    (setDataArea dflt spec r c).nRowAxes = r ∧
    (setDataArea dflt spec r c).nColAxes = c ∧
    (setDataArea dflt spec r c).headerRow ≤ r ∧
    c ≤ (setDataArea dflt spec r c).dimensions.length ∧
    c ≤ (setDataArea dflt spec r c).dimensionNames.length ∧
    ∀ k, k ∈ (setDataArea dflt spec r c).dimensionCols ↔ (k ∈ spec.dimensionCols ∧ k < c) := by
  refine ⟨rfl, rfl, ?_, ?_, ?_, ?_⟩
  · simp only [setDataArea]
    split_ifs <;> omega
  · simp only [setDataArea]
    split_ifs with h
    · simp only [List.length_append, List.length_replicate]
      omega
    · omega
  · simp only [setDataArea]
    split_ifs with h
    · simp only [List.length_append, List.length_replicate]
      omega
    · omega
  · intro k
    simp [setDataArea, List.mem_filter]

/-- Claim C18, evaluated on the code. A first guess on the header-less scenario leaves two entries in
`dimensions`; a second guess on the same text, started from the DataSpec the first one
left, leaves four, so the two DataSpecs differ. -/
theorem C18_second_run_appends_dimensions :
    (guessFromStream stodInt noAnyVal freshBuf headerlessText blankSpec).2.dimensions
      = [{ type := .string, units := [] }, { type := .string, units := [] }] ∧
    (guessFromStream stodInt noAnyVal freshBuf headerlessText
      (guessFromStream stodInt noAnyVal freshBuf headerlessText blankSpec).2).2.dimensions
      = [{ type := .string, units := [] }, { type := .string, units := [] },
         { type := .string, units := [] }, { type := .string, units := [] }] ∧
    (guessFromStream stodInt noAnyVal freshBuf headerlessText
      (guessFromStream stodInt noAnyVal freshBuf headerlessText blankSpec).2).2
      ≠ (guessFromStream stodInt noAnyVal freshBuf headerlessText blankSpec).2 := by
  decide

/-- Claim C19. For every list of cells `v`, with a cell called numeric when `stod` accepts
it: `firstNumerical(v)` is at most `|v|`; every cell at that index or later is empty or
numeric; no smaller index has this property; it is 0 when no cell is non-empty and
non-numeric, and otherwise one more than the index of the last such cell. -/
theorem C19_firstNumerical {R : Type} (stod : List Char → Option R) (v : List (List Char)) :
    firstNumerical stod v ≤ v.length ∧
    (∀ (j : Nat) (x : List Char), firstNumerical stod v ≤ j → v[j]? = some x →
      x = [] ∨ (stod x).isSome = true) ∧
    (∀ k : Nat, (∀ (j : Nat) (x : List Char), k ≤ j → v[j]? = some x →
      x = [] ∨ (stod x).isSome = true) → firstNumerical stod v ≤ k) ∧
    ((∀ x ∈ v, x = [] ∨ (stod x).isSome = true) → firstNumerical stod v = 0) ∧
    (∀ (i : Nat) (x : List Char), v[i]? = some x → x ≠ [] → stod x = none →
      (∀ (j : Nat) (y : List Char), i < j → v[j]? = some y →
        y = [] ∨ (stod y).isSome = true) → firstNumerical stod v = i + 1) := by
  have hbadgood : ∀ x : List Char, x ≠ [] → stod x = none →
      ¬ (x = [] ∨ (stod x).isSome = true) := by
    intro x h1 h2 h3
    rcases h3 with h3 | h3
    · exact h1 h3
    · rw [h2] at h3; simp at h3
  unfold firstNumerical
  rcases firstNumericalFrom_cases stod v 0 0 with ⟨h1, h2⟩ | ⟨j, x, h1, h2, h3, h4, h5⟩
  · rw [h1]
    refine ⟨Nat.zero_le _, ?_, fun _ _ => Nat.zero_le _, fun _ => rfl, ?_⟩
    · intro j x _ hx
      exact h2 x (List.getElem?_mem hx)
    · intro i x hx hne hnone _
      exact absurd (h2 x (List.getElem?_mem hx)) (hbadgood x hne hnone)
  · rw [h4]
    have hjlt : j < v.length := by
      by_contra hc
      have : v[j]? = none := by simp; omega
      rw [this] at h1
      simp at h1
    refine ⟨by omega, ?_, ?_, ?_, ?_⟩
    · intro j1 y hj hy
      exact h5 j1 y (by omega) hy
    · intro k hk
      by_contra hc
      exact hbadgood x h2 h3 (hk j x (by omega) h1)
    · intro hall
      exact absurd (hall x (List.getElem?_mem h1)) (hbadgood x h2 h3)
    · intro i y hy hne hnone hlater
      rcases Nat.lt_trichotomy i j with hlt | heq | hgt
      · exact absurd (hlater j x hlt h1) (hbadgood x h2 h3)
      · omega
      · exact absurd (h5 i y hgt hy) (hbadgood y hne hnone)

theorem firstNumericalFrom_le {R : Type} (stod : List Char → Option R) :
    ∀ (xs : List (List Char)) (i r : Nat), r ≤ i →
      firstNumericalFrom stod i r xs ≤ i + xs.length
  | [], i, r, h => by simpa [firstNumericalFrom] using h
  | x :: xs, i, r, h => by
    simp only [firstNumericalFrom, List.length_cons]
    split_ifs
    · have := firstNumericalFrom_le stod xs (i + 1) (i + 1) (le_refl _)
      omega
    · have := firstNumericalFrom_le stod xs (i + 1) r (by omega)
      omega

theorem firstNumerical_le {R : Type} (stod : List Char → Option R) (v : List (List Char)) :
    firstNumerical stod v ≤ v.length := by
  have := firstNumericalFrom_le stod v 0 0 (le_refl _)
  simpa [firstNumerical] using this

theorem leadingAxisRows_le (sum n : Nat) : ∀ l : List Nat, leadingAxisRows sum n l ≤ l.length
  | [] => by simp [leadingAxisRows]
  | s :: rest => by
    simp only [leadingAxisRows, List.length_cons]
    split_ifs
    · have := leadingAxisRows_le sum n rest
      omega
    · omega

theorem foldl_max_le (b : Nat) : ∀ (l : List Nat) (a : Nat), a ≤ b → (∀ x ∈ l, x ≤ b) →
    l.foldl max a ≤ b
  | [], a, h, _ => by simpa using h
  | x :: xs, a, h, hall => by
    simp only [List.foldl_cons]
    exact foldl_max_le b xs (max a x)
      (max_le h (hall x (List.mem_cons_self _ _)))
      (fun y hy => hall y (List.mem_cons_of_mem _ hy))

theorem scan_inv {R : Type} (stod : List Char → Option R) :
    ∀ (rows : List (List (List Char))) (sc : Scan),
      (∀ s ∈ sc.starts, s ≤ sc.nCols) →
      (sc.firstEmpty = npos ∨ sc.firstEmpty < sc.starts.length) →
      (rows.foldl (scanLine stod) sc).starts.length = sc.starts.length + rows.length ∧
      (∀ s ∈ (rows.foldl (scanLine stod) sc).starts, s ≤ (rows.foldl (scanLine stod) sc).nCols) ∧
      ((rows.foldl (scanLine stod) sc).firstEmpty = npos ∨
        (rows.foldl (scanLine stod) sc).firstEmpty
          < (rows.foldl (scanLine stod) sc).starts.length) ∧
      (rows.foldl (scanLine stod) sc).nCols = (rows.map List.length).foldl max sc.nCols
  | [], sc, h1, h2 => ⟨by simp, h1, h2, by simp⟩
  | row :: rows, sc, h1, h2 => by
    have hs : (scanLine stod sc row).starts = sc.starts ++ [firstNumerical stod row] := rfl
    have hn : (scanLine stod sc row).nCols = max sc.nCols row.length := rfl
    have hf : (scanLine stod sc row).firstEmpty = sc.firstEmpty ∨
        (scanLine stod sc row).firstEmpty = sc.starts.length := by
      simp only [scanLine]
      split_ifs
      · right; simp
      · left; rfl
    obtain ⟨r1, r2, r3, r4⟩ := scan_inv stod rows (scanLine stod sc row)
      (by
        intro s hsm
        rw [hs] at hsm
        rw [hn]
        rcases List.mem_append.mp hsm with h | h
        · exact le_trans (h1 s h) (le_max_left _ _)
        · simp only [List.mem_singleton] at h
          rw [h]
          exact le_trans (firstNumerical_le stod row) (le_max_right _ _))
      (by
        rw [hs]
        simp only [List.length_append, List.length_singleton]
        rcases hf with h | h
        · rw [h]
          rcases h2 with h2 | h2
          · exact Or.inl h2
          · exact Or.inr (by omega)
        · rw [h]
          exact Or.inr (by omega))
    simp only [List.foldl_cons, List.map_cons, List.length_cons]
    refine ⟨?_, r2, r3, ?_⟩
    · rw [r1, hs]
      simp only [List.length_append, List.length_singleton]
      omega
    · rw [r4, hn]

theorem guessGeometry_bounds (sc : Scan) (h1 : ∀ s ∈ sc.starts, s ≤ sc.nCols)
    (h2 : sc.firstEmpty = npos ∨ sc.firstEmpty < sc.starts.length)
    (h3 : sc.starts.length < npos) (h4 : sc.starts = [] → sc.nCols = 0) :
    (guessGeometry sc).1 ≤ sc.starts.length ∧ (guessGeometry sc).2.1 ≤ sc.nCols ∧
    (guessGeometry sc).2.2 ≤ (guessGeometry sc).1 := by
  have hr0 := leadingAxisRows_le sc.starts.sum sc.starts.length sc.starts
  have hc : (sc.starts.drop (leadingAxisRows sc.starts.sum sc.starts.length sc.starts)).foldl
      max 0 ≤ sc.nCols :=
    foldl_max_le sc.nCols _ 0 (Nat.zero_le _) (fun x hx => h1 x (List.mem_of_mem_drop hx))
  have hr1 : (if leadingAxisRows sc.starts.sum sc.starts.length sc.starts = 0 ∧
        1 < (sc.nCols + 2 ^ 64 - (sc.starts.drop
          (leadingAxisRows sc.starts.sum sc.starts.length sc.starts)).foldl max 0) % 2 ^ 64
      then 1 else leadingAxisRows sc.starts.sum sc.starts.length sc.starts)
      ≤ sc.starts.length := by
    split_ifs with hp
    · by_contra hlen
      have he : sc.starts = [] := List.length_eq_zero.mp (by omega)
      have hn := h4 he
      rw [he, hn] at hp
      simp at hp
    · exact hr0
  simp only [guessGeometry]
  generalize (if leadingAxisRows sc.starts.sum sc.starts.length sc.starts = 0 ∧
        1 < (sc.nCols + 2 ^ 64 - (sc.starts.drop
          (leadingAxisRows sc.starts.sum sc.starts.length sc.starts)).foldl max 0) % 2 ^ 64
      then 1 else leadingAxisRows sc.starts.sum sc.starts.length sc.starts) = r1 at hr1 ⊢
  refine ⟨?_, hc, ?_⟩
  · split_ifs with he
    · rcases h2 with h2 | h2
      · rw [h2] at he; omega
      · omega
    · exact hr1
  · split_ifs <;> omega


/-- Claim C21. For every input, tokenizer and DataSpec, `givenTFguessRemainder` either
passes on an exception of the tokenizer (only `dimensionCols` is then changed), or returns
with a geometry inside the scanned table: at most 100 rows are analysed, `nColAxes` is at
most the largest token count of an analysed row (so `nCols - nColAxes`, taken in `size_t`,
is the plain difference), `nRowAxes` is at most the number of rows analysed, promotions
included, and `headerRow <= nRowAxes`. On the empty input it returns with
`nRowAxes = nColAxes = headerRow = 0`. -/
theorem C21_geometry_inside_table {R : Type} (stod : List Char → Option R)
    (tf : TokenizerFunction) (input : List Char) (spec : DataSpec R) :
    ((∃ e, tokenizeAll tf ((lines input).take maxRowsToAnalyse) = .error e ∧
        givenTFguessRemainder stod tf input spec
          = (.error e, { spec with dimensionCols := [] })) ∨
      (∃ rows, tokenizeAll tf ((lines input).take maxRowsToAnalyse) = .ok rows ∧
        (givenTFguessRemainder stod tf input spec).1 = .ok () ∧
        rows.length = ((lines input).take maxRowsToAnalyse).length ∧ rows.length ≤ 100 ∧
        (givenTFguessRemainder stod tf input spec).2.nColAxes
          ≤ (rows.map List.length).foldl max 0 ∧
        ((rows.map List.length).foldl max 0 < 2 ^ 64 →
          ((rows.map List.length).foldl max 0 + 2 ^ 64
              - (givenTFguessRemainder stod tf input spec).2.nColAxes) % 2 ^ 64
            = (rows.map List.length).foldl max 0
              - (givenTFguessRemainder stod tf input spec).2.nColAxes) ∧
        (givenTFguessRemainder stod tf input spec).2.nRowAxes ≤ rows.length ∧
        (givenTFguessRemainder stod tf input spec).2.headerRow
          ≤ (givenTFguessRemainder stod tf input spec).2.nRowAxes)) ∧
    (givenTFguessRemainder stod tf [] spec).1 = .ok () ∧
    (givenTFguessRemainder stod tf [] spec).2.nRowAxes = 0 ∧
    (givenTFguessRemainder stod tf [] spec).2.nColAxes = 0 ∧
    (givenTFguessRemainder stod tf [] spec).2.headerRow = 0 := by
  have hmax : maxRowsToAnalyse = 100 := rfl
  have hgen : ∀ input : List Char,
      (∃ e, tokenizeAll tf ((lines input).take maxRowsToAnalyse) = .error e ∧
        givenTFguessRemainder stod tf input spec
          = (.error e, { spec with dimensionCols := [] })) ∨
      (∃ rows, tokenizeAll tf ((lines input).take maxRowsToAnalyse) = .ok rows ∧
        (givenTFguessRemainder stod tf input spec).1 = .ok () ∧
        rows.length = ((lines input).take maxRowsToAnalyse).length ∧ rows.length ≤ 100 ∧
        (givenTFguessRemainder stod tf input spec).2.nColAxes
          ≤ (rows.map List.length).foldl max 0 ∧
        ((rows.map List.length).foldl max 0 < 2 ^ 64 →
          ((rows.map List.length).foldl max 0 + 2 ^ 64
              - (givenTFguessRemainder stod tf input spec).2.nColAxes) % 2 ^ 64
            = (rows.map List.length).foldl max 0
              - (givenTFguessRemainder stod tf input spec).2.nColAxes) ∧
        (givenTFguessRemainder stod tf input spec).2.nRowAxes ≤ rows.length ∧
        (givenTFguessRemainder stod tf input spec).2.headerRow
          ≤ (givenTFguessRemainder stod tf input spec).2.nRowAxes) := by
    intro input
    cases ht : tokenizeAll tf ((lines input).take maxRowsToAnalyse) with
    | error e =>
      left
      exact ⟨e, rfl, by simp only [givenTFguessRemainder, ht]⟩
    | ok rows =>
      right
      have hlen := tokenizeAll_length tf _ rows ht
      have hle : rows.length ≤ 100 := by
        rw [hlen, hmax, List.length_take]
        exact Nat.min_le_left _ _
      obtain ⟨s1, s2, s3, s4⟩ := scan_inv stod rows
        { starts := [], nCols := 0, firstEmpty := npos } (by simp) (Or.inl rfl)
      simp only [List.length_nil, Nat.zero_add] at s1
      obtain ⟨g1, g2, g3⟩ := guessGeometry_bounds _ s2 s3
        (by
          rw [s1]
          have : (100 : Nat) < npos := by decide
          omega)
        (by
          intro he
          have h0 : rows.length = 0 := by rw [← s1, he]; rfl
          have hr : rows = [] := List.length_eq_zero.mp h0
          rw [s4, hr]
          rfl)
      rw [s1] at g1
      rw [s4] at g2
      have g2 : (guessGeometry (rows.foldl (scanLine stod)
          { starts := [], nCols := 0, firstEmpty := npos })).2.1
          ≤ (rows.map List.length).foldl max 0 := g2
      have e1 : (givenTFguessRemainder stod tf input spec).1 = .ok () := by
        simp only [givenTFguessRemainder, ht]
      have e2 : (givenTFguessRemainder stod tf input spec).2.nRowAxes
          = (guessGeometry (rows.foldl (scanLine stod)
              { starts := [], nCols := 0, firstEmpty := npos })).1 := by
        simp only [givenTFguessRemainder, ht]
      have e3 : (givenTFguessRemainder stod tf input spec).2.nColAxes
          = (guessGeometry (rows.foldl (scanLine stod)
              { starts := [], nCols := 0, firstEmpty := npos })).2.1 := by
        simp only [givenTFguessRemainder, ht]
      have e4 : (givenTFguessRemainder stod tf input spec).2.headerRow
          = (guessGeometry (rows.foldl (scanLine stod)
              { starts := [], nCols := 0, firstEmpty := npos })).2.2 := by
        simp only [givenTFguessRemainder, ht]
      refine ⟨rows, rfl, e1, hlen, hle, by rw [e3]; exact g2, ?_, by rw [e2]; exact g1,
        by rw [e2, e4]; exact g3⟩
      intro hlt
      rw [e3]
      have hsub : (rows.map List.length).foldl max 0 + 2 ^ 64
            - (guessGeometry (rows.foldl (scanLine stod)
                { starts := [], nCols := 0, firstEmpty := npos })).2.1
          = ((rows.map List.length).foldl max 0
            - (guessGeometry (rows.foldl (scanLine stod)
                { starts := [], nCols := 0, firstEmpty := npos })).2.1) + 2 ^ 64 := by
        omega
      rw [hsub, Nat.add_mod_right, Nat.mod_eq_of_lt (by omega)]
  have hl0 : (lines ([] : List Char)).take maxRowsToAnalyse = [] := rfl
  refine ⟨hgen input, ?_⟩
  rcases hgen [] with ⟨e, he, _⟩ | ⟨rows, hr, h1, h2, _, h4, _, h6, h7⟩
  · rw [hl0] at he
    simp [tokenizeAll] at he
  · rw [hl0] at hr h2
    have hrows : rows = [] := List.length_eq_zero.mp h2
    rw [hrows] at h4 h6
    simp only [List.map_nil, List.foldl_nil, List.length_nil, Nat.le_zero_eq] at h4 h6
    rw [h6] at h7
    exact ⟨h1, h6, h4, Nat.le_zero.mp h7⟩

/-! ## The remainders the router hands to a handler -/

theorem slash_remainder {rem : List Char} (h : rem = [] ∨ rem.head? = some '/') :
    rem ≠ "@type".toList ∧ rem ≠ "@signature".toList ∧
    startsWith rem "@elem/".toList = false := by
  rcases h with h | h
  · subst h
    exact ⟨by decide, by decide, by decide⟩
  · cases rem with
    | nil => simp at h
    | cons c cs =>
      simp only [List.head?_cons, Option.some.injEq] at h
      subst h
      refine ⟨?_, ?_, ?_⟩
      · intro e
        have := congrArg List.head? e
        simp only [List.head?_cons] at this
        exact absurd this (by decide)
      · intro e
        have := congrArg List.head? e
        simp only [List.head?_cons] at this
        exact absurd this (by decide)
      · simp only [startsWith, Bool.and_eq_false_iff, decide_eq_false_iff_not]
        right
        intro e
        have h6 : "@elem/".toList.length = 5 + 1 := rfl
        have := congrArg List.head? e
        rw [h6, List.take_succ_cons] at this
        simp only [List.head?_cons] at this
        exact absurd this (by decide)

theorem object_slash_remainder {T : Type} (N : TypeNames) (D : Dest T) (rem : List Char)
    (arguments : Json) (obj : T) (h : rem = [] ∨ rem.head? = some '/') :
    (RESTProcessObject N D).process rem arguments obj
      = match convertJson N D obj arguments with
        | (.ok _, obj1) => (.ok (D.pack obj1), obj1)
        | (.error e, obj1) => (.error e, obj1) := by
  obtain ⟨h1, h2, _⟩ := slash_remainder h
  simp only [RESTProcessObject, h1, h2, if_false]

theorem sequence_slash_remainder {T : Type} (N : TypeNames) (S : SeqDest T) (rem : List Char)
    (arguments : Json) (obj : List T) (h : rem = [] ∨ rem.head? = some '/') :
    (RESTProcessSequence N S).process rem arguments obj
      = if rem = [] then
          (match convertSeq S.elem obj arguments with
           | (.ok _, obj1) => (.ok .null, obj1)
           | (.error e, obj1) => (.error e, obj1))
        else (.ok (S.pack obj), obj) := by
  obtain ⟨_, _, h3⟩ := slash_remainder h
  cases rem with
  | nil => rfl
  | cons c cs =>
    have he : (c :: cs).isEmpty = false := rfl
    simp only [RESTProcessSequence, he, h3, Bool.false_eq_true, if_false]
    rfl

theorem splits_suffix {p t key rem : List Char} (ht : '/' ∉ t)
    (hs : Splits (p ++ '/' :: t) key rem) (hlt : p.length < key.length) :
    key = p ++ '/' :: t := by
  obtain ⟨e, hr⟩ := hs
  rcases hr with hr | hr
  · subst hr
    rw [List.append_nil] at e
    exact e.symm
  · exfalso
    rcases List.append_eq_append_iff.mp e with ⟨a, ha1, ha2⟩ | ⟨c, hc1, hc2⟩
    · cases a with
      | nil =>
        simp at ha1
        rw [ha1] at hlt
        omega
      | cons a0 as =>
        simp only [List.cons_append, List.cons.injEq] at ha2
        have h4 : '/' ∈ rem := by
          cases rem with
          | nil => simp at hr
          | cons r rs => simp at hr; simp [hr]
        apply ht
        rw [ha2.2]
        exact List.mem_append_right _ h4
    · have := congrArg List.length hc1
      simp at this
      omega

theorem process_outcome {W : Type} (reg : RESTProcess_t W) (query : List Char) (jin : Json)
    (w : W) :
    (query.head? ≠ some '/' ∧ reg.process query jin w = some (.ok [], w)) ∨
    reg.process query jin w = some (.ok [commandNotFound], w) ∨
    ∃ key rem h, Splits query key rem ∧ key ≠ [] ∧ reg.find key = some h ∧
      reg.process query jin w
        = some (if rem = "/@signature".toList then (.ok [Output.json (h.signature w)], w)
                else handlerReply (h.process rem jin w)) := by
  by_cases hslash : query.head? = some '/'
  · right
    rw [process_eq_loop reg query jin w hslash]
    rcases processLoop_result reg query jin w hslash (query.length + 1) query [] (by simp)
      (Or.inl rfl) (by omega) with hl | hr
    · exact Or.inl hl.1
    · obtain ⟨key, rem, h, hs, hne, _, hfind, _, hres⟩ := hr
      right
      refine ⟨key, rem, h, hs, hne, hfind, ?_⟩
      rw [hres, dispatch_eq h query key rem jin w hs.1 hne]
  · left
    refine ⟨hslash, ?_⟩
    unfold RESTProcess_t.process
    simp [hslash]


/-- Claim C22. For every registry, query and input, `RESTProcess_t::process` either writes
nothing (the query does not begin with '/'), or writes "Command not found", or routes to
the handler `h` of a registered key with a remainder `rem` that is empty or begins with
'/': `rem` is never "@type" or "@signature" and never starts with "@elem/". On such a
remainder `RESTProcessObject::process` converts the argument into the object and replies
with the object, and `RESTProcessSequence::process` takes its first or its last branch.
The query `p` followed by "/@type", with `p` registered and the whole query not, hands
"/@type" to the handler of `p`; an object handler then replaces and echoes the object and
does not reply with the type name. -/
theorem C22_router_remainder {W T : Type} (reg : RESTProcess_t W) (query : List Char)
    (jin : Json) (w : W) (N : TypeNames) (D : Dest T) (S : SeqDest T) :
    ((query.head? ≠ some '/' ∧ reg.process query jin w = some (.ok [], w)) ∨
      reg.process query jin w = some (.ok [commandNotFound], w) ∨
      ∃ key rem h, Splits query key rem ∧ key ≠ [] ∧ reg.find key = some h ∧
        (rem = [] ∨ rem.head? = some '/') ∧
        rem ≠ "@type".toList ∧ rem ≠ "@signature".toList ∧
        startsWith rem "@elem/".toList = false ∧
        reg.process query jin w
          = some (if rem = "/@signature".toList then (.ok [Output.json (h.signature w)], w)
                  else handlerReply (h.process rem jin w))) ∧
    (∀ (rem : List Char) (arguments : Json) (obj : T), rem = [] ∨ rem.head? = some '/' →
      (RESTProcessObject N D).process rem arguments obj
        = match convertJson N D obj arguments with
          | (.ok _, obj1) => (.ok (D.pack obj1), obj1)
          | (.error e, obj1) => (.error e, obj1)) ∧
    (∀ (rem : List Char) (arguments : Json) (obj : List T),
      rem = [] ∨ rem.head? = some '/' →
      (RESTProcessSequence N S).process rem arguments obj
        = if rem = [] then
            (match convertSeq S.elem obj arguments with
             | (.ok _, obj1) => (.ok .null, obj1)
             | (.error e, obj1) => (.error e, obj1))
          else (.ok (S.pack obj), obj)) ∧
    (∀ (p : List Char) (h : RESTProcessBase W), p.head? = some '/' →
      reg.find p = some h → reg.find (p ++ "/@type".toList) = none →
      reg.process (p ++ "/@type".toList) jin w
        = some (handlerReply (h.process "/@type".toList jin w))) ∧
    (∀ (regT : RESTProcess_t T) (p : List Char) (obj : T), p.head? = some '/' →
      regT.find p = some (RESTProcessObject N D) →
      regT.find (p ++ "/@type".toList) = none →
      regT.process (p ++ "/@type".toList) jin obj
        = some (match convertJson N D obj jin with
                | (.ok _, obj1) => (.ok [Output.json (D.pack obj1)], obj1)
                | (.error e, obj1) => (.error e, obj1))) := by
  have hroute : ∀ {V : Type} (r : RESTProcess_t V) (p : List Char) (h : RESTProcessBase V)
      (v : V), p.head? = some '/' → r.find p = some h →
      r.find (p ++ "/@type".toList) = none →
      r.process (p ++ "/@type".toList) jin v
        = some (handlerReply (h.process "/@type".toList jin v)) := by
    intro V r p h v hslash hfind hfree
    have hne : p ≠ [] := by
      intro hp
      simp [hp] at hslash
    have hslash1 : (p ++ "/@type".toList).head? = some '/' := by
      cases p with
      | nil => exact absurd rfl hne
      | cons c cs => simpa using hslash
    have hs : Splits (p ++ "/@type".toList) p "/@type".toList := ⟨rfl, Or.inr rfl⟩
    have hlong : ∀ key2 rem2, Splits (p ++ "/@type".toList) key2 rem2 →
        p.length < key2.length → r.find key2 = none := by
      intro key2 rem2 hs2 hlt
      have e : key2 = p ++ '/' :: "@type".toList :=
        splits_suffix (by decide) hs2 hlt
      rw [e]
      exact hfree
    rw [process_longest r _ p _ h jin v hslash1 hs hne hfind hlong,
      if_neg (by decide)]
  refine ⟨?_, ?_, ?_, ?_, ?_⟩
  · rcases process_outcome reg query jin w with h | h | ⟨key, rem, h, hs, hne, hfind, hres⟩
    · exact Or.inl h
    · exact Or.inr (Or.inl h)
    · obtain ⟨h1, h2, h3⟩ := slash_remainder hs.2
      exact Or.inr (Or.inr ⟨key, rem, h, hs, hne, hfind, hs.2, h1, h2, h3, hres⟩)
  · intro rem arguments obj h
    exact object_slash_remainder N D rem arguments obj h
  · intro rem arguments obj h
    exact sequence_slash_remainder N S rem arguments obj h
  · intro p h hslash hfind hfree
    exact hroute reg p h w hslash hfind hfree
  · intro regT p obj hslash hfind hfree
    rw [hroute regT p _ obj hslash hfind hfree,
      object_slash_remainder N D "/@type".toList jin obj (Or.inr rfl)]
    unfold handlerReply
    rcases convertJson N D obj jin with ⟨r, o⟩
    cases r <;> rfl

/-- Witness for C22: the query "/x/@type" with the input `[42]` on a registry holding the
`int` 7 at /x sets the object to 42 and replies `[42]`, whereas the handler given "@type"
itself replies with the type name and leaves the object alone. -/
theorem C22_router_remainder_witness :
    RESTProcess_t.process (RESTProcess cppTypeNames intDest [] "/x".toList)
        ("/x".toList ++ "/@type".toList) (.arr [.int 42]) 7
      = some (.ok [Output.json (.arr [.int 42])], 42) ∧
    (RESTProcessObject cppTypeNames intDest).process "@type".toList (.arr [.int 42]) 7
      = (.ok (.arr [.str "int"]), 7) :=
  ⟨(C22_router_remainder (RESTProcess cppTypeNames intDest [] "/x".toList) "/x/@type".toList
      (.arr [.int 42]) 7 cppTypeNames intDest intSeqDest).2.2.2.2
      (RESTProcess cppTypeNames intDest [] "/x".toList) "/x".toList 7 rfl rfl rfl,
    rfl⟩

/-! ## The sequence handler on an empty remainder -/

theorem unpackElems_outcome {T : Type} (D : Dest T) :
    ∀ (as : List Json) (xs : List T),
      (unpackElems D as xs).1 = .ok () ∨ ∃ e, (unpackElems D as xs).1 = .error e
  | [], _ => Or.inl rfl
  | _ :: _, [] => Or.inl rfl
  | a :: as, x :: xs => by
    cases hu : D.unpack a x with
    | error e => exact Or.inr ⟨e, by simp only [unpackElems, hu]⟩
    | ok v =>
      rcases unpackElems_outcome D as xs with h | ⟨e, h⟩
      · left
        simp only [unpackElems, hu]
        exact h
      · right
        refine ⟨e, ?_⟩
        simp only [unpackElems, hu]
        exact h

end Minsky
